import Mathlib

/-!
# llm-antispam: the classification pipeline and its helpers

A shallow embedding of `mailhelper` (whitelist.go, email.go, cleaner.go, spam.go),
`llm.ClassifyEmail` (llm.go) and `RunRule` (main.go).

Conventions of the embedding.

* Go strings are Lean strings (valid UTF-8 only); the `strings` helpers the code
  calls are written out over the list of characters.
* `uint32` values (UIDs, sequence numbers) are natural numbers; the code only
  compares and stores them, it never does arithmetic on them.
* `float64` scores are modelled by `F64`, which keeps what `>` and `<=` can
  observe: not-a-number, the two infinities and the finite values.
* Functions of Go libraries that the repository calls (net/mail, mime, html,
  strconv, the language model behind `llms.Model`) are fields of `Lib` or
  arguments; every theorem holds for all of them.
* Log lines are not modelled.
* Goroutines, the wait group and the buffered result channel of `ClassifySpam`
  are a transition system (`successors`); `ClassifySpam` runs it under a
  scheduler that picks the next step among the possible ones, so that a
  statement for every scheduler is a statement about every interleaving.
* The channel `messages` is `some ms` for a channel that delivers the messages
  `ms` and is then closed (what `client.Fetch` does), and `none` for the nil
  channel, which `FetchUnreadEmails` returns for a mailbox without unread
  messages and after a failed select or search; `range` over a nil channel
  blocks for ever.
* A run-time panic of an index expression (`ids[count]`, `sender[0]`) is an
  outcome of its own.
* `imap.SeqSet` is read as the finite set of the numbers added to it.
* The watermark file: `os.ReadFile`, `os.WriteFile` and `json.Unmarshal` are
  fields of `Sys` over the files of the machine (`Disk`); `json.MarshalIndent`
  of a `LastProcessed` is written out, its output being fixed by the struct tags.
-/

set_option linter.dupNamespace false

namespace Antispam

/-! ## strings -/

/-- Go `strings.Split(s, sep)` for a separator of one character, on character lists:
the pieces between the occurrences of `sep`, always at least one piece. -/
def splitChars (sep : Char) : List Char → List (List Char)
  | [] => [[]]
  | c :: cs =>
    if c = sep then [] :: splitChars sep cs
    else
      match splitChars sep cs with
      | [] => [[c]]
      | p :: ps => (c :: p) :: ps

/-- Go `strings.Split(s, sep)` where `sep` is the one-character string of `sep`. -/
def Split (s : String) (sep : Char) : List String :=
  (splitChars sep s.data).map String.mk

/-- Go `strings.Contains(s, substr)`: `substr` starts at some position of `s`. -/
def Contains (s substr : String) : Bool :=
  s.data.tails.any fun t => substr.data.isPrefixOf t

/-- Go `strings.HasPrefix(s, p)`. -/
def HasPrefix (s p : String) : Bool :=
  p.data.isPrefixOf s.data

/-- Go `strings.TrimPrefix(s, p)`: `s` without the leading `p`, or `s` unchanged. -/
def TrimPrefix (s p : String) : String :=
  if p.data.isPrefixOf s.data then String.mk (s.data.drop p.data.length) else s

/-- Go `strings.HasSuffix(s, p)`. -/
def HasSuffix (s p : String) : Bool :=
  p.data.isSuffixOf s.data

/-- Go `unicode.IsSpace`: the code points with Unicode's White_Space property. -/
def isSpace (c : Char) : Bool :=
  let n := c.toNat
  (0x09 ≤ n && n ≤ 0x0D) || n = 0x20 || n = 0x85 || n = 0xA0 || n = 0x1680 ||
  (0x2000 ≤ n && n ≤ 0x200A) || n = 0x2028 || n = 0x2029 || n = 0x202F ||
  n = 0x205F || n = 0x3000

/-- Go `strings.TrimSpace(s)`: `s` without its leading and trailing white space. -/
def TrimSpace (s : String) : String :=
  String.mk ((s.data.dropWhile isSpace).reverse.dropWhile isSpace).reverse

/-! ## float64, as far as comparisons see it -/

/-- A Go `float64` value: not-a-number, an infinity, or the finite value
`m * 2 ^ e` (every finite `float64` is of this form). -/
inductive F64 where
  | nan
  | negInf
  | fin (m : Int) (e : Int)
  | posInf
deriving Repr, DecidableEq

namespace F64

/-- The float `0`, the zero value of a Go `float64`. -/
def zero : F64 := .fin 0 0

/-- The mantissa of `m * 2 ^ e` once the exponent is lowered to `k ≤ e`. -/
def scale (m e k : Int) : Int := m * 2 ^ (e - k).toNat

/-- Go `a < b` on `float64`: false as soon as one side is not-a-number. -/
def lt : F64 → F64 → Bool
  | .nan, _ => false
  | _, .nan => false
  | .negInf, .negInf => false
  | .negInf, _ => true
  | _, .negInf => false
  | .posInf, _ => false
  | .fin _ _, .posInf => true
  | .fin m e, .fin n f => decide (scale m e (min e f) < scale n f (min e f))

/-- Go `a > b` on `float64`. -/
def gt (a b : F64) : Bool := lt b a

/-- Go `a <= b` on `float64`: false as soon as one side is not-a-number. -/
def le : F64 → F64 → Bool
  | .nan, _ => false
  | _, .nan => false
  | a, b => !(lt b a)

end F64

/-! ## Data model -/

/-- An `io.Reader` over a finite stream: the bytes still unread, and the error the
stream ends with (`none` for a clean end of file). -/
structure Reader where
  data : String
  err : Option String
deriving Repr, DecidableEq

/-- Go `io.ReadAll(r)`: everything up to the end of the stream, or the stream's error;
the reader is left exhausted. -/
def ReadAll (r : Reader) : Except String String × Reader :=
  match r.err with
  | none => (.ok r.data, { data := "", err := none })
  | some e => (.error e, { data := "", err := some e })

/-- Go `mail.Header` and `textproto.MIMEHeader`: header keys, in canonical form, with
their values in order. -/
abbrev Header := List (String × List String)

/-- Go `Header.Get(key)`: the first value under `key`, or the empty string. The keys
the code asks for are written in canonical form already. -/
def Header.Get (h : Header) (key : String) : String :=
  match h.lookup key with
  | some (v :: _) => v
  | _ => ""

/-- Go `mail.Address`. -/
structure Address where
  Name : String
  Address : String
deriving Repr, DecidableEq

/-- Go `mail.Message`: the parsed header and the reader over the body. -/
structure MailMessage where
  Header : Header
  Body : Reader
deriving Repr, DecidableEq

/-- Go `imap.Message`, the two fields that are fetched: the UID and the literal of
the `BODY[]` section (`none` when the server sent no such section). -/
structure Message where
  Uid : Nat
  Body : Option Reader
deriving Repr, DecidableEq

/-- The type of `html.Node.Type`. -/
inductive NodeType where
  | ErrorNode
  | TextNode
  | DocumentNode
  | ElementNode
  | CommentNode
  | DoctypeNode
  | RawNode
deriving Repr, DecidableEq

/-- Go `html.Node`: its type, its data (the text of a text node, the tag of an
element) and its children from `FirstChild` along `NextSibling`. -/
inductive Node where
  | mk (Typ : NodeType) (Data : String) (children : List Node)
deriving Repr

/-- One part of a multipart body as `multipart.Reader.NextPart` hands it out: its
header and what `io.ReadAll` gives on it. -/
structure Part where
  Header : Header
  data : Except String String

/-- Go `llms.Model` as `ClassifyEmail` uses it: `GenerateContent` on one human text
message, giving the contents of the response's choices or an error. -/
abbrev Model := String → Except String (List String)

/-- The library functions the repository calls. -/
structure Lib where
  /-- Go `mail.ReadMessage` on the raw bytes. -/
  ReadMessage : String → Except String MailMessage
  /-- Go `mail.ParseAddressList`: the addresses of the list, or the error. The list can
  be empty without an error: an empty group such as `undisclosed-recipients:;` holds no
  address. -/
  ParseAddressList : String → Except String (List Address)
  /-- Go `(*mail.Address).String`, what `%s` prints for the sender. -/
  AddressString : Address → String
  /-- Go `strings.EqualFold`. -/
  EqualFold : String → String → Bool
  /-- Go `strconv.ParseFloat(s, 64)`. -/
  ParseFloat : String → Except String F64
  /-- Go `mime.ParseMediaType`: the media type and its parameters. -/
  ParseMediaType : String → Except String (String × List (String × String))
  /-- Go `multipart.NewReader(body, boundary)` followed by `NextPart` until it fails:
  the parts handed out, then `none` for `io.EOF` or the error. -/
  MultipartParts : Reader → String → List Part × Option String
  /-- Go `html.Parse` on the bytes. -/
  HtmlParse : String → Except String Node
  /-- Go `GetFormatInstructions` of the structured output parser of `ClassifyEmail`. -/
  FormatInstructions : String
  /-- Go `Parse` of that parser: the parsed value, `none` inside when it is not a
  `map[string]string`. -/
  ParseStructured : String → Except String (Option (List (String × String)))

/-! ## whitelist.go -/

/-- Go `IsWhitelistedEmail`, the loop over the allowed entries once the domain is known. -/
def isWhitelistedLoop (L : Lib) (email domain : String) : List String → Bool
  | [] => false
  | a :: rest =>
    if L.EqualFold email a then true
    else if !Contains a "@" then
      if HasPrefix a "*." then
        let baseDomain := TrimPrefix a "*."
        if HasSuffix domain ("." ++ baseDomain) then true
        else isWhitelistedLoop L email domain rest
      else
        if L.EqualFold domain a then true
        else isWhitelistedLoop L email domain rest
    else isWhitelistedLoop L email domain rest

/-- Go `IsWhitelistedEmail(email, allowed)`. -/
def IsWhitelistedEmail (L : Lib) (email : String) (allowed : List String) : Bool :=
  match Split email '@' with
  | [_, domain] => isWhitelistedLoop L email domain allowed
  | _ => false

/-! ## email.go -/

/-- Go `Email`: the parsed message and the raw bytes. -/
structure Email where
  msg : MailMessage
  rawMsg : String
deriving Repr, DecidableEq

/-- Go `NewEmail(msg)`. -/
def NewEmail (L : Lib) (msg : Message) : Except String Email :=
  match msg.Body with
  | none => .error "server didn't return message body"
  | some emailBody =>
    match (ReadAll emailBody).1 with
    | .error e => .error e
    | .ok rawEmail =>
      match L.ReadMessage rawEmail with
      | .error e => .error e
      | .ok parsedMsg => .ok { msg := parsedMsg, rawMsg := rawEmail }

/-- Go `(*Email).GetHeader(header)`. -/
def Email.GetHeader (m : Email) (header : String) : String :=
  m.msg.Header.Get header

/-- Go `mail.Header.AddressList(key)`: the header must be there, then it is parsed. -/
def AddressList (L : Lib) (h : Header) (key : String) : Except String (List Address) :=
  let hdr := h.Get key
  if hdr = "" then .error "mail: header not in message" else L.ParseAddressList hdr

/-- Go `(*Email).GetSender()`: the address or the error returned, or `none` when the
index expression `sender[0]` panics because the list is empty. -/
def Email.GetSender (L : Lib) (m : Email) : Option (Except String Address) :=
  match AddressList L m.msg.Header "Sender" with
  | .error _ =>
    match AddressList L m.msg.Header "From" with
    | .error e => some (.error e)
    | .ok sender =>
      match sender[0]? with
      | none => none
      | some first => some (.ok first)
  | .ok sender =>
    match sender[0]? with
    | none => none
    | some first => some (.ok first)

/-- Go `(*Email).GetSubject()`. -/
def Email.GetSubject (m : Email) : String :=
  m.msg.Header.Get "Subject"

/-- Go `(*Email).GetRawEmail()`. -/
def Email.GetRawEmail (m : Email) : String :=
  m.rawMsg

/-- Go `(*Email).GetBody()`: reads the body reader to its end; the email comes back
with the reader as the read left it. -/
def Email.GetBody (m : Email) : Except String String × Email :=
  let r := ReadAll m.msg.Body
  (r.1, { m with msg := { m.msg with Body := r.2 } })

/-- A character of the class `[\d\.]` of the pattern of `ExtractSpamStatus`. -/
def isHitsChar (c : Char) : Bool :=
  c.isDigit || c = '.'

/-- The pattern `hits=(\-?[\d\.]+)` matched at the start of `s`: the text of the
capture group. -/
def matchHitsAt (s : List Char) : Option (List Char) :=
  if "hits=".data.isPrefixOf s then
    let rest := s.drop 5
    let sign := match rest with
      | '-' :: _ => ['-']
      | _ => []
    let digits := (rest.drop sign.length).takeWhile isHitsChar
    if digits.isEmpty then none else some (sign ++ digits)
  else none

/-- Go `re.FindStringSubmatch` for the pattern `hits=(\-?[\d\.]+)`: the capture
group of the leftmost match. -/
def findHits : List Char → Option (List Char)
  | [] => none
  | c :: cs =>
    match matchHitsAt (c :: cs) with
    | some m => some m
    | none => findHits cs

/-- Go `ExtractSpamStatus(email)`. -/
def ExtractSpamStatus (L : Lib) (email : Email) : Except String F64 :=
  let value := email.GetHeader "X-Spam-Status"
  match findHits value.data with
  | some m =>
    match L.ParseFloat (String.mk m) with
    | .error e => .error ("error parsing float: " ++ e)
    | .ok hits => .ok hits
  | none => .ok F64.zero

/-! ## cleaner.go -/

mutual
/-- Go `extractText(n)`. -/
def extractText : Node → String
  | .mk ty data children =>
    if ty = NodeType.TextNode then TrimSpace data ++ " "
    else if ty = NodeType.ElementNode && (data = "style" || data = "script" || data = "img") then ""
    else extractTextChildren children
/-- The loop of `extractText` over the children, from `FirstChild` along `NextSibling`. -/
def extractTextChildren : List Node → String
  | [] => ""
  | c :: cs => extractText c ++ extractTextChildren cs
end

/-- One round of the multipart loop of `CleanEmailBody` on a part that `NextPart`
handed out: what the builder holds afterwards, or the error returned. -/
def cleanPart (L : Lib) (builder : String) (part : Part) : Except String String :=
  let partCt := part.Header.Get "Content-Type"
  match part.data with
  | .error e => .error e
  | .ok partData =>
    if Contains partCt "text/html" then
      match L.HtmlParse partData with
      | .error e => .error ("error parsing HTML part: " ++ e)
      | .ok doc => .ok (builder ++ extractText doc)
    else if Contains partCt "text/plain" then .ok (builder ++ partData)
    else .ok builder

/-- The multipart loop of `CleanEmailBody`: the parts in order, then how `NextPart`
ended (`none` for `io.EOF`). -/
def cleanParts (L : Lib) (last : Option String) : List Part → String → Except String String
  | [], builder =>
    match last with
    | none => .ok builder
    | some e => .error e
  | part :: rest, builder =>
    match cleanPart L builder part with
    | .error e => .error e
    | .ok b => cleanParts L last rest b

/-- Go `CleanEmailBody(email)`, on an email whose body has not been read yet. -/
def CleanEmailBody (L : Lib) (email : Email) : Except String String :=
  let ctHeader := email.GetHeader "Content-Type"
  match L.ParseMediaType ctHeader with
  | .error e => .error ("error parsing Content-Type header: " ++ e)
  | .ok (mediaType, params) =>
    if HasPrefix mediaType "multipart/" then
      let mr := L.MultipartParts email.msg.Body ((params.lookup "boundary").getD "")
      cleanParts L mr.2 mr.1 ""
    else
      match email.GetBody.1 with
      | .error e => .error e
      | .ok body =>
        if Contains ctHeader "text/html" then
          match L.HtmlParse body with
          | .error e => .error ("error parsing HTML: " ++ e)
          | .ok doc => .ok (extractText doc)
        else .ok ""

/-! ## llm.go -/

/-- The fixed text that opens the prompt of `ClassifyEmail`. -/
def promptHead : String :=
  "You are an Email Spam classifier. Analyze the following email and calculate the SPAM numerical score.\n" ++
  "Focus on the content and the intent of the email, and verify if they come from well-known domains and companies.\n" ++
  "Do not categorize as Spam emails from well-known organizations like github.com, meetup.com, etc. or well-known email providers like hotmail.com or gmail.com.\n" ++
  "Check for any links in the body and verify if they are legitimate.\n" ++
  "The HTML tags and images have been removed for simplicity.\n" ++
  "Only return the output as specified below.\n\nOutput:\n"

/-- Go `llm.ClassifyEmail(llm, body)`: the score, the reason and the error, as the Go
function returns them (score `0` and an empty reason next to an error). -/
def ClassifyEmail (L : Lib) (llm : Model) (body : String) : F64 × String × Option String :=
  let prompt := promptHead ++ L.FormatInstructions ++ "\n\nEmail Body:\n" ++ body
  match llm prompt with
  | .error e => (F64.zero, "", some e)
  | .ok [] => (F64.zero, "", some "empty response from model")
  | .ok (choice :: _) =>
    match L.ParseStructured choice with
    | .error e => (F64.zero, "", some ("error parsing LLM result: " ++ e))
    | .ok none => (F64.zero, "", some "failed to assert parsed result as map[string]string")
    | .ok (some resultMap) =>
      match L.ParseFloat ((resultMap.lookup "SpamScore").getD "") with
      | .error e => (F64.zero, "", some ("error converting score to float: " ++ e))
      | .ok score => (score, (resultMap.lookup "Reason").getD "", none)

/-! ## spam.go -/

/-- Go `imap.SeqSet`, read as the set of the numbers added to it. -/
abbrev SeqSet := Finset Nat

/-- Go `(*SeqSet).AddNum(n)`. -/
def AddNum (s : SeqSet) (n : Nat) : SeqSet := insert n s

/-- Go `llmResult`. -/
structure llmResult where
  id : Nat
  score : F64
  reason : String
  err : Option String
  spamStatus : F64
  subject : String
  sender : String
deriving Repr

/-- The arguments of `ClassifySpam` that stay fixed while it runs. -/
structure Args where
  ids : List Nat
  whitelisted_domains : List String
  threshold : F64
  lastProcessedID : Nat
  llmClassifier : Model
  concurrency : Bool

/-- The arguments of a call of `ClassifySpam`, as the run keeps them. -/
def Args.of (ids : List Nat) (whitelisted_domains : List String) (threshold : F64)
    (lastProcessedID : Nat) (llmClassifier : Model) (concurrency : Bool) : Args :=
  { ids := ids, whitelisted_domains := whitelisted_domains, threshold := threshold,
    lastProcessedID := lastProcessedID, llmClassifier := llmClassifier,
    concurrency := concurrency }

/-- The text `fmt.Sprintf` builds in `ClassifySpam`: `FROM:`, `SUBJECT:`, an empty
line and the sanitized body. -/
def cleanedMailOf (L : Lib) (sender : Address) (subject bodyText : String) : String :=
  "FROM: " ++ L.AddressString sender ++ "\nSUBJECT: " ++ subject ++ "\n\n" ++ bodyText

/-- The goroutine `ClassifySpam` starts for one message: the result it builds from
the answer of `llm.ClassifyEmail` and sends on the score channel. -/
def goroutine (L : Lib) (llmClassifier : Model) (id : Nat) (spamStatus : F64)
    (sender : Address) (subject cleanedMail : String) : llmResult :=
  let scored := ClassifyEmail L llmClassifier cleanedMail
  { score := scored.1
    err := scored.2.2
    id := id
    spamStatus := spamStatus
    reason := scored.2.1
    sender := sender.Address
    subject := subject }

/-- The body of the first loop of `ClassifySpam` for the message `msg` received when
the counter is `count`, up to the start of the goroutine: `none` when the program
panics (`ids[count]` is out of range, or `GetSender` panics), `some none` when the
message is skipped by a `continue`, `some (some r)` when a goroutine is started, `r`
being the result that goroutine sends on the score channel. -/
def loopBody (L : Lib) (a : Args) (count : Nat) (msg : Message) : Option (Option llmResult) :=
  match a.ids[count]? with
  | none => none
  | some id =>
    let lastUid := msg.Uid
    if lastUid ≤ a.lastProcessedID then some none
    else
      match NewEmail L msg with
      | .error _ => some none
      | .ok email =>
        let subject := email.GetSubject
        match email.GetSender L with
        | none => none
        | some (.error _) => some none
        | some (.ok sender) =>
          let whitelisted := IsWhitelistedEmail L sender.Address a.whitelisted_domains
          if whitelisted then some none
          else
            match ExtractSpamStatus L email with
            | .error _ => some none
            | .ok spamStatus =>
              match CleanEmailBody L email with
              | .error _ => some none
              | .ok bodyText =>
                let cleanedMail := cleanedMailOf L sender subject bodyText
                some (some (goroutine L a.llmClassifier id spamStatus sender subject cleanedMail))

/-- Where the goroutine that runs `ClassifySpam` stands. -/
inductive PC where
  /-- At the head of `for msg := range messages`. -/
  | loop
  /-- In the `wg.Wait()` inside the loop. -/
  | wait
  /-- At the head of `for result := range scoreChannel`. -/
  | merge
  /-- Returned. -/
  | done
  /-- Stopped by a run-time panic. -/
  | panicked
deriving Repr, DecidableEq

/-- The state of a call of `ClassifySpam`. -/
structure St where
  pc : PC
  /-- The messages not yet received from the channel `messages`. -/
  messages : List Message
  count : Nat
  lastUid : Nat
  /-- The goroutines started and not finished, each with the result it sends; the
  counter of the wait group is the length of this list. -/
  running : List llmResult
  /-- The results buffered in `scoreChannel`, oldest first. -/
  scoreChannel : List llmResult
  /-- The channel `scoreChannel` has been closed. -/
  closed : Bool
  /-- The goroutine that waits for the group and closes the channel has been started. -/
  closer : Bool
  spamSeqset : SeqSet
  notSpamSeqset : SeqSet

/-- The capacity of `scoreChannel`: `make(chan llmResult, 10)`. -/
def chanCap : Nat := 10

/-- The state in which `ClassifySpam` enters its first loop. -/
def St.init (messages : List Message) : St :=
  { pc := .loop, messages := messages, count := 0, lastUid := 0, running := [],
    scoreChannel := [], closed := false, closer := false, spamSeqset := ∅, notSpamSeqset := ∅ }

/-- The body of the second loop of `ClassifySpam` for one received result. -/
def mergeResult (a : Args) (s : St) (result : llmResult) : St :=
  if result.err.isSome then s
  else if F64.gt result.score a.threshold then
    { s with spamSeqset := AddNum s.spamSeqset result.id }
  else
    { s with notSpamSeqset := AddNum s.notSpamSeqset result.id }

/-- The next step of the goroutine that runs `ClassifySpam`, when it is not blocked. -/
def mainStep (L : Lib) (a : Args) (s : St) : Option St :=
  match s.pc with
  | .loop =>
    match s.messages with
    | [] => some { s with pc := .merge, closer := true }
    | msg :: rest =>
      match loopBody L a s.count msg with
      | none => some { s with pc := .panicked }
      | some none =>
        some { s with messages := rest, lastUid := msg.Uid, count := s.count + 1 }
      | some (some r) =>
        some { s with messages := rest, lastUid := msg.Uid, count := s.count + 1,
                      running := s.running ++ [r],
                      pc := if a.concurrency then .loop else .wait }
  | .wait => if s.running.isEmpty then some { s with pc := .loop } else none
  | .merge =>
    match s.scoreChannel with
    | result :: rest => some (mergeResult a { s with scoreChannel := rest } result)
    | [] => if s.closed then some { s with pc := .done } else none
  | .done => none
  | .panicked => none

/-- The step `scoreChannel <- result` of the `i`-th running goroutine, followed by its
deferred `wg.Done()`: possible while the buffer of the channel is not full. -/
def sendStep (s : St) (i : Nat) : Option St :=
  match s.running[i]? with
  | none => none
  | some r =>
    if s.scoreChannel.length < chanCap then
      some { s with running := s.running.eraseIdx i, scoreChannel := s.scoreChannel ++ [r] }
    else none

/-- The step of the closing goroutine: once the wait group is at zero, it closes the
channel. -/
def closeStep (s : St) : Option St :=
  if s.closer && s.running.isEmpty && !s.closed then some { s with closed := true } else none

/-- Every state one step of some goroutine leads to. Nothing runs after a return or
a panic. -/
def successors (L : Lib) (a : Args) (s : St) : List St :=
  if s.pc = .done ∨ s.pc = .panicked then []
  else
    (mainStep L a s).toList ++ (List.range s.running.length).filterMap (sendStep s)
      ++ (closeStep s).toList

/-- The run of at most `fuel` steps from `s`, the scheduler `sched` choosing among the
possible steps; it stops early in a state without a possible step. -/
def run (L : Lib) (a : Args) (sched : Nat → Nat) : Nat → St → St
  | 0, s => s
  | fuel + 1, s =>
    match successors L a s with
    | [] => s
    | t :: ts => run L a sched fuel ((t :: ts).getD (sched fuel % (ts.length + 1)) t)

/-- How a call of `ClassifySpam` ends. -/
inductive Outcome where
  /-- The call returns the spam set, the not-spam set, the high-water id and the error. -/
  | returned (spamSeqset notSpamSeqset : SeqSet) (lastUid : Nat) (err : Option String)
  /-- The call stops with a run-time panic. -/
  | panicked
  /-- The call never returns: the run ends in a state in which no goroutine can take
  a step although the call has neither returned nor panicked. -/
  | blocked

instance : DecidableEq Outcome := fun x y =>
  match x, y with
  | .returned s n u e, .returned s' n' u' e' =>
    decidable_of_iff (s = s' ∧ n = n' ∧ u = u' ∧ e = e') (by simp)
  | .panicked, .panicked => isTrue rfl
  | .blocked, .blocked => isTrue rfl
  | .returned _ _ _ _, .panicked => isFalse (by simp)
  | .returned _ _ _ _, .blocked => isFalse (by simp)
  | .panicked, .returned _ _ _ _ => isFalse (by simp)
  | .panicked, .blocked => isFalse (by simp)
  | .blocked, .returned _ _ _ _ => isFalse (by simp)
  | .blocked, .panicked => isFalse (by simp)

/-- Go `ClassifySpam` under the scheduler `sched`. On the nil channel (`none`) the
first `range` blocks for ever. On a channel that delivers `ms` and is then closed
(`some ms`) no run takes more than `4 * ms.length + 3` steps, so the run below ends in a
state without a possible step (`run_stuck`, `measure_init`). -/
def ClassifySpam (L : Lib) (sched : Nat → Nat) (messages : Option (List Message))
    (ids : List Nat) (whitelisted_domains : List String) (threshold : F64)
    (lastProcessedID : Nat) (llmClassifier : Model) (concurrency : Bool) : Outcome :=
  match messages with
  | none => .blocked
  | some ms =>
    let a := Args.of ids whitelisted_domains threshold lastProcessedID llmClassifier concurrency
    let s := run L a sched (4 * ms.length + 3) (St.init ms)
    match s.pc with
    | .done => .returned s.spamSeqset s.notSpamSeqset s.lastUid none
    | .panicked => .panicked
    | _ => .blocked

/-! ### What a run of `ClassifySpam` leaves behind -/

/-- The results of the goroutines the first loop starts for `messages`, received from
counter `count` on, in the order of the messages (up to a panic of the loop). -/
def dispatched (L : Lib) (a : Args) : Nat → List Message → List llmResult
  | _, [] => []
  | count, msg :: rest =>
    match loopBody L a count msg with
    | none => []
    | some none => dispatched L a (count + 1) rest
    | some (some r) => r :: dispatched L a (count + 1) rest

/-- The sequence numbers the second loop adds to the spam set when it receives `rs`. -/
def spamOf (threshold : F64) (rs : List llmResult) : SeqSet :=
  ((rs.filter fun r => r.err.isNone && F64.gt r.score threshold).map llmResult.id).toFinset

/-- The sequence numbers the second loop adds to the not-spam set when it receives `rs`. -/
def notSpamOf (threshold : F64) (rs : List llmResult) : SeqSet :=
  ((rs.filter fun r => r.err.isNone && !F64.gt r.score threshold).map llmResult.id).toFinset

/-- The UID of the last of `messages`, or `init` when there is none. -/
def lastUidOf (init : Nat) (messages : List Message) : Nat :=
  messages.foldl (fun _ msg => msg.Uid) init

/-- The first loop of `ClassifySpam` panics on one of `messages`, received from counter
`count` on: `ids[count]` is out of range for it, or `GetSender` panics on it. -/
def panics (L : Lib) (a : Args) : Nat → List Message → Bool
  | _, [] => false
  | count, msg :: rest =>
    match loopBody L a count msg with
    | none => true
    | some _ => panics L a (count + 1) rest

/-- A bound on the number of steps that remain possible from a state. -/
def St.measure (s : St) : Nat :=
  4 * s.messages.length + 2 * s.running.length + s.scoreChannel.length
    + (match s.pc with
       | .wait => 3
       | .loop => 2
       | .merge => 1
       | _ => 0)
    + (if s.closed then 0 else 1)

/-- What holds in every state of a run of `ClassifySpam` on the messages `ms`. -/
structure Inv (L : Lib) (a : Args) (ms : List Message) (s : St) : Prop where
  /-- Every result of a started goroutine is in exactly one place: merged already
  (`M`), in the channel, still with its goroutine, or yet to be started. -/
  perm : ∃ M : List llmResult,
    (M ++ (s.scoreChannel ++ (s.running ++ dispatched L a s.count s.messages))).Perm
        (dispatched L a 0 ms)
      ∧ s.spamSeqset = spamOf a.threshold M ∧ s.notSpamSeqset = notSpamOf a.threshold M
      ∧ (s.pc = .loop ∨ s.pc = .wait → M = [])
  count : s.count + s.messages.length = ms.length
  ids : s.count ≤ a.ids.length
  uid : lastUidOf s.lastUid s.messages = lastUidOf 0 ms
  late : s.pc = .merge ∨ s.pc = .done → s.messages = [] ∧ s.closer = true
  closer : s.closer = true → s.pc = .merge ∨ s.pc = .done
  closed : s.closed = true → s.running = [] ∧ s.closer = true
  wait : s.pc = .wait → a.concurrency = false
  seq : a.concurrency = false → s.pc = .loop → s.running = []
  cap : s.scoreChannel.length ≤ chanCap
  fin : s.pc = .done → s.scoreChannel = [] ∧ s.closed = true
  /-- The loop has panicked, or whether it will is decided by the messages yet to be
  received. -/
  pan : panics L a 0 ms = if s.pc = .panicked then true else panics L a s.count s.messages

/-- The largest UID among `messages` (`0` when there is none). -/
def maxUid (messages : List Message) : Nat :=
  (messages.map Message.Uid).foldr max 0

/-- The message gets past the skip policies the claims name (UID above the watermark
`w`, parses to an `Email`, has a resolvable sender that is not allow-listed, sanitizes
without error) and is scored without error, with score `x`. -/
def ScoredWith (L : Lib) (wl : List String) (w : Nat) (llm : Model) (msg : Message)
    (x : F64) : Prop :=
  w < msg.Uid ∧ ∃ email sender bodyText,
    NewEmail L msg = .ok email ∧ email.GetSender L = some (.ok sender) ∧
    IsWhitelistedEmail L sender.Address wl = false ∧
    CleanEmailBody L email = .ok bodyText ∧
    (ClassifyEmail L llm (cleanedMailOf L sender email.GetSubject bodyText)).2.2 = none ∧
    (ClassifyEmail L llm (cleanedMailOf L sender email.GetSubject bodyText)).1 = x

/-- Prior-score extraction does not fail on the message: either the message does not
parse to an `Email`, or `ExtractSpamStatus` returns no error on it. -/
def priorScoreOk (L : Lib) (msg : Message) : Bool :=
  match NewEmail L msg with
  | .error _ => true
  | .ok email =>
    match ExtractSpamStatus L email with
    | .error _ => false
    | .ok _ => true

/-- The call of `GetSender` does not panic on the message: either the message does not
parse to an `Email`, or neither header that `GetSender` reads holds an address list
without an address. -/
def senderOk (L : Lib) (msg : Message) : Bool :=
  match NewEmail L msg with
  | .error _ => true
  | .ok email => (email.GetSender L).isSome

/-! ## main.go -/

/-- Go `Rule`. -/
structure Rule where
  Origin : String
  Destination : String
  Threshold : F64
  MoveNotSpam : Bool

/-- Go `LastProcessed`. -/
structure LastProcessed where
  LastProcessedID : Nat
  Filename : String
deriving Repr, DecidableEq

/-- How a call of `RunRule` ends. -/
inductive RunOutcome where
  /-- The call returns: the error returned, the value of its variable `lastProcessed`
  at that point, what `UpdateLastProcessed` was called on (if it was called), and the
  set handed to `MoveEmails` (if it was called). -/
  | returned (err : Option String) (lastProcessed : LastProcessed)
      (persisted : Option LastProcessed) (moved : Option SeqSet)
  /-- The call stops with a run-time panic. -/
  | panicked
  /-- The call never returns. -/
  | blocked

instance : DecidableEq RunOutcome := fun x y =>
  match x, y with
  | .returned e l p m, .returned e' l' p' m' =>
    decidable_of_iff (e = e' ∧ l = l' ∧ p = p' ∧ m = m') (by simp)
  | .panicked, .panicked => isTrue rfl
  | .blocked, .blocked => isTrue rfl
  | .returned _ _ _ _, .panicked => isFalse (by simp)
  | .returned _ _ _ _, .blocked => isFalse (by simp)
  | .panicked, .returned _ _ _ _ => isFalse (by simp)
  | .panicked, .blocked => isFalse (by simp)
  | .blocked, .returned _ _ _ _ => isFalse (by simp)
  | .blocked, .panicked => isFalse (by simp)

/-- Go `RunRule`, given what `FetchUnreadEmails` returns (the channel `messages`, nil or
not, and `ids`) and the value `NewLastProcessed` returns (`lastProcessed`; its error is
only logged). The results of `MoveEmails`, of the channel `done` and of
`UpdateLastProcessed` are only logged or dropped; `done` is nil only when `messages` is,
and then the call blocks in `ClassifySpam` already. -/
def RunRule (L : Lib) (sched : Nat → Nat) (messages : Option (List Message)) (ids : List Nat)
    (lastProcessed : LastProcessed) (config : Rule) (domains : List String)
    (llmClassifier : Model) (concurrency : Bool) : RunOutcome :=
  match ClassifySpam L sched messages ids domains config.Threshold
      lastProcessed.LastProcessedID llmClassifier concurrency with
  | .panicked => .panicked
  | .blocked => .blocked
  | .returned _ _ _ (some err) =>
    .returned (some ("Error classifying spam: " ++ err)) lastProcessed none none
  | .returned spamSeqSet notSpamSeqSet lastUid none =>
    let mailSeqSet := if config.MoveNotSpam then notSpamSeqSet else spamSeqSet
    let moved := if 0 < mailSeqSet.card then some mailSeqSet else none
    if 0 < lastUid then
      let updated : LastProcessed := { lastProcessed with LastProcessedID := lastUid }
      .returned none updated (some updated) moved
    else .returned none lastProcessed none moved

/-! ## A stand-in library and inputs for concrete runs

Simple stand-ins for the library functions, used only to run the definitions on
concrete inputs. A raw message is a sequence of lines `Key: value`, an empty line and
the body. -/

/-- Stand-in for `strings.EqualFold`: equality after lowering the ASCII letters. -/
def demoEqualFold (s t : String) : Bool :=
  s.data.map Char.toLower = t.data.map Char.toLower

/-- One header line `Key: value` of the stand-in message format. -/
def demoHeaderLine (l : List Char) : String × List String :=
  (String.mk (l.takeWhile fun c => c ≠ ':'),
   [String.mk ((l.dropWhile fun c => c ≠ ':').drop 2)])

/-- Stand-in for `mail.ReadMessage`: the lines up to the first empty one are the
header; the rest is the body. A message without a header line is refused. -/
def demoReadMessage (raw : String) : Except String MailMessage :=
  let lines := splitChars '\n' raw.data
  let head := lines.takeWhile fun l => !l.isEmpty
  let body := (lines.dropWhile fun l => !l.isEmpty).drop 1
  if head.isEmpty then .error "malformed header"
  else .ok { Header := head.map demoHeaderLine,
             Body := { data := String.mk (List.intercalate ['\n'] body), err := none } }

/-- Stand-in for `mail.ParseAddressList`: the header value is an empty group `name:;`,
which holds no address, or one bare address, which must hold an `@`. -/
def demoParseAddressList (s : String) : Except String (List Address) :=
  if HasSuffix s ":;" then .ok []
  else if Contains s "@" then .ok [{ Name := "", Address := s }]
  else .error "mail: missing @"

/-- The value of a string of decimal digits. -/
def demoDigits (l : List Char) : Nat :=
  l.foldl (fun n c => 10 * n + (c.toNat - 48)) 0

/-- Stand-in for `strconv.ParseFloat`: `NaN`, or an optional minus sign and decimal
digits, optionally followed by `.0` or `.5`; everything else is refused. -/
def demoParseFloat (s : String) : Except String F64 :=
  if s = "NaN" then .ok .nan
  else
    let neg := "-".data.isPrefixOf s.data
    let body := if neg then s.data.drop 1 else s.data
    let whole := body.takeWhile Char.isDigit
    let frac := body.dropWhile Char.isDigit
    let sign : Int := if neg then -1 else 1
    if whole.isEmpty then .error "invalid syntax"
    else if frac = [] ∨ frac = ['.', '0'] then .ok (.fin (sign * demoDigits whole) 0)
    else if frac = ['.', '5'] then .ok (.fin (sign * (2 * demoDigits whole + 1)) (-1))
    else .error "invalid syntax"

/-- The stand-in library. The HTML parser wraps the bytes in one text node; the
structured output is the score itself. -/
def demoLib : Lib where
  ReadMessage := demoReadMessage
  ParseAddressList := demoParseAddressList
  AddressString := fun a => a.Address
  EqualFold := demoEqualFold
  ParseFloat := demoParseFloat
  ParseMediaType := fun s =>
    if s = "" then .error "mime: no media type"
    else .ok (String.mk (s.data.takeWhile fun c => c ≠ ';'), [])
  MultipartParts := fun _ _ => ([], none)
  HtmlParse := fun s => .ok (.mk .DocumentNode "" [.mk .TextNode s []])
  FormatInstructions := ""
  ParseStructured := fun c => .ok (some [("SpamScore", c), ("Reason", "")])

/-- A model like the `fakeLLM` of spam_test.go: score `0` for a prompt that holds
`Ham`, score `10` otherwise. -/
def fakeLLM : Model := fun prompt =>
  if Contains prompt "Ham" then .ok ["0"] else .ok ["10"]

/-- A model that answers `NaN` to every prompt. -/
def nanLLM : Model := fun _ => .ok ["NaN"]

/-- A message of the stand-in format with the given UID, sender and subject. -/
def demoMessage (uid : Nat) (sender subject : String) : Message :=
  { Uid := uid,
    Body := some { data := "From: " ++ sender ++ "\nSubject: " ++ subject ++
                     "\nContent-Type: text/html\n\nhi", err := none } }

/-- The four messages of `TestClassifySpam`, in the order of the test. -/
def testMessages : List Message :=
  [ demoMessage 101 "user@notwhitelisted.com" "Spam Email",
    demoMessage 102 "user@notwhitelisted.com" "Ham Email",
    demoMessage 100 "user@notwhitelisted.com" "Old Email",
    demoMessage 103 "user@whitelist.com" "Whitelisted Email" ]

/-- The threshold `0.5` of `TestClassifySpam`. -/
def half : F64 := .fin 1 (-1)

/-- The scheduler that always takes the first possible step. -/
def firstSched : Nat → Nat := fun _ => 0

/-- The scheduler that always takes the last possible step. -/
def lastSched : Nat → Nat := fun n => n

/-- A model that fails on every prompt. -/
def failLLM : Model := fun _ => .error "model unavailable"

/-- One message that gets past every skip policy. -/
def oneMessage : List Message := [demoMessage 5 "a@b.c" "x"]

/-- Two messages that arrive with descending UIDs. -/
def descendingMessages : List Message :=
  [demoMessage 5 "a@b.c" "x", demoMessage 3 "a@b.c" "y"]

/-- One unread message whose UID lies below a watermark of `100`. -/
def oldMessages : List Message := [demoMessage 50 "a@b.c" "x"]

/-- The first two messages of `TestClassifySpam`: one scored `10`, one scored `0`. -/
def spamAndHam : List Message :=
  [ demoMessage 101 "user@notwhitelisted.com" "Spam Email",
    demoMessage 102 "user@notwhitelisted.com" "Ham Email" ]

/-- A message whose `X-Spam-Status` header matches the pattern with a capture that
is no float, `1.2.3`. -/
def hitsMessage : Message :=
  { Uid := 9,
    Body := some { data := "From: a@b.c\nSubject: x\nX-Spam-Status: No, hits=1.2.3 required=5.0" ++
                     "\nContent-Type: text/html\n\nhi", err := none } }

/-- The `Email` that `hitsMessage` parses to under the stand-in library. -/
def hitsEmail : Email :=
  { msg := { Header := [("From", ["a@b.c"]), ("Subject", ["x"]),
                        ("X-Spam-Status", ["No, hits=1.2.3 required=5.0"]),
                        ("Content-Type", ["text/html"])],
             Body := { data := "hi", err := none } },
    rawMsg := "From: a@b.c\nSubject: x\nX-Spam-Status: No, hits=1.2.3 required=5.0" ++
                "\nContent-Type: text/html\n\nhi" }

/-- A message for which the server sent no body section: it does not parse to an
`Email`. -/
def noBodyMessage : Message := { Uid := 7, Body := none }

/-- A message without a `Content-Type` header: it parses, and its body cannot be
sanitized. -/
def noTypeMessage : Message :=
  { Uid := 8, Body := some { data := "From: a@b.c\nSubject: x\n\nhi", err := none } }

/-- Eleven messages with UIDs `1` to `11` that all get past every skip policy. -/
def elevenMessages : List Message :=
  (List.range 11).map fun i => demoMessage (i + 1) "a@b.c" "x"

/-- The sequence numbers `1` to `11`. -/
def elevenIds : List Nat := (List.range 11).map fun i => i + 1

/-- A rule with the threshold `0.5` that moves the spam set. -/
def demoRule : Rule :=
  { Origin := "INBOX", Destination := "Spam", Threshold := half, MoveNotSpam := false }

/-! ## Notions the allow-list claims are stated with -/

/-- One round of the loop of `IsWhitelistedEmail`: the entry `a` makes the function
return true for the address `email` with domain `domain`. -/
def entryMatches (L : Lib) (email domain a : String) : Bool :=
  L.EqualFold email a ||
    (!Contains a "@" &&
      (if HasPrefix a "*." then HasSuffix domain ("." ++ TrimPrefix a "*.")
       else L.EqualFold domain a))

/-- What holds of Go `strings.EqualFold`, which compares rune by rune under simple case
folding: `@` folds only to itself, so two strings it calls equal both hold an `@` or
both hold none. -/
def FoldKeepsAt (L : Lib) : Prop :=
  ∀ s t, L.EqualFold s t = true → ('@' ∈ s.data ↔ '@' ∈ t.data)

/-! ## Notions the sanitizer claims are stated with -/

/-- An element tagged `style`, `script` or `img`, given by its type and data. -/
def isSkippedElement (t : NodeType × String) : Bool :=
  t.1 = NodeType.ElementNode && (t.2 = "style" || t.2 = "script" || t.2 = "img")

mutual
/-- Every node of the tree rooted at a node, in document order (a node before its
children, the children from first to last), each with the type and data of the nodes
on the path that leads down to it: `path` for the root, and for every other node the
path of its parent followed by the parent. -/
def walk : List (NodeType × String) → Node → List (List (NodeType × String) × NodeType × String)
  | path, .mk ty data children => (path, ty, data) :: walkChildren (path ++ [(ty, data)]) children
/-- The nodes of the trees rooted at the children, one child after the other. -/
def walkChildren :
    List (NodeType × String) → List Node → List (List (NodeType × String) × NodeType × String)
  | _, [] => []
  | path, c :: cs => walk path c ++ walkChildren path cs
end

/-- What a node found by `walk` adds to the text: the trimmed data and one space for a
text node with no element tagged `style`, `script` or `img` on its path, nothing for
any other node. -/
def visiblePiece (e : List (NodeType × String) × NodeType × String) : Option String :=
  if e.2.1 = NodeType.TextNode ∧ e.1.all (fun t => !isSkippedElement t) = true then
    some (TrimSpace e.2.2 ++ " ")
  else none

/-- The text of the claim for the tree rooted at `n`: the pieces of the text nodes that
no `style`, `script` or `img` element hides, concatenated in document order. -/
def visibleText (n : Node) : String :=
  String.join ((walk [] n).filterMap visiblePiece)

mutual
/-- The text nodes of the tree are leaves, as in every tree that `html.Parse` builds. -/
def textLeaves : Node → Bool
  | .mk ty _ children => (ty != NodeType.TextNode || children.isEmpty) && textLeavesChildren children
/-- The text nodes of the trees rooted at the children are leaves. -/
def textLeavesChildren : List Node → Bool
  | [] => true
  | c :: cs => textLeaves c && textLeavesChildren cs
end

/-- What one part of a multipart body adds to the text, in the words of the claim: the
text `extractText` gives on the parsed HTML when the part's `Content-Type` contains
`text/html`, the decoded bytes when it instead contains `text/plain`, nothing for any
other part; `none` when the part cannot be read or its HTML cannot be parsed. -/
def partText (L : Lib) (p : Part) : Option String :=
  match p.data with
  | .error _ => none
  | .ok bytes =>
    if Contains (p.Header.Get "Content-Type") "text/html" then
      match L.HtmlParse bytes with
      | .error _ => none
      | .ok doc => some (extractText doc)
    else if Contains (p.Header.Get "Content-Type") "text/plain" then some bytes
    else some ""

/-- The tree `html.Parse` builds for `<html><body><p>Hello <b>World</b></p></body></html>`. -/
def helloWorldDoc : Node :=
  .mk .DocumentNode "" [.mk .ElementNode "html" [.mk .ElementNode "head" [],
    .mk .ElementNode "body" [.mk .ElementNode "p" [.mk .TextNode "Hello " [],
      .mk .ElementNode "b" [.mk .TextNode "World" []]]]]]

/-- The two parts of the multipart message of `TestCleanEmailBody`. -/
def testParts : List Part :=
  [ { Header := [("Content-Type", ["text/html; charset=utf-8"])],
      data := .ok "<html><body><p>Hello <b>World</b></p></body></html>" },
    { Header := [("Content-Type", ["text/plain; charset=utf-8"])],
      data := .ok "Plain text content" } ]

/-- A stand-in library for the multipart message of `TestCleanEmailBody`: the
multipart reader hands out `testParts` and the HTML parser knows the HTML of the test. -/
def mimeLib : Lib :=
  { demoLib with
    MultipartParts := fun _ _ => (testParts, none)
    HtmlParse := fun s =>
      if s = "<html><body><p>Hello <b>World</b></p></body></html>" then .ok helloWorldDoc
      else .error "not the document of the test" }

/-- An `Email` with the given `Content-Type` header and body, as `createEmail` of
cleaner_test.go builds it. -/
def createEmail (contentType body : String) : Email :=
  { msg := { Header := [("Content-Type", [contentType])], Body := { data := body, err := none } },
    rawMsg := body }

/-- The first email of `TestGetSender`: both a `Sender` and a `From` header. -/
def emailWithSender : Email :=
  { msg := { Header := [("Sender", ["sender1@example.com"]), ("From", ["sender2@example.com"])],
             Body := { data := "Body", err := none } },
    rawMsg := "Sender: sender1@example.com\nFrom: sender2@example.com\n\nBody" }

/-- An email whose `Sender` header is an empty group, next to a valid `From` header. -/
def emailEmptyGroup : Email :=
  { msg := { Header := [("Sender", ["undisclosed-recipients:;"]),
                        ("From", ["sender2@example.com"])],
             Body := { data := "Body", err := none } },
    rawMsg := "Sender: undisclosed-recipients:;\nFrom: sender2@example.com\n\nBody" }

/-- The second email of `TestGetSender`: only a `From` header. -/
def emailFromOnly : Email :=
  { msg := { Header := [("From", ["sender3@example.com"])],
             Body := { data := "Body", err := none } },
    rawMsg := "From: sender3@example.com\n\nBody" }

/-- The message of `TestGetBody` as the server hands it over. -/
def bodyTestMessage : Message :=
  { Uid := 1, Body := some { data := "Subject: Body Test\n\nThis is the body.", err := none } }

/-- The email of `TestGetBody`. -/
def bodyTestEmail : Email :=
  { msg := { Header := [("Subject", ["Body Test"])],
             Body := { data := "This is the body.", err := none } },
    rawMsg := "Subject: Body Test\n\nThis is the body." }

/-! ## email.go: the watermark file -/

/-- The files of the machine: names with their contents. -/
abbrev Disk := List (String × String)

/-- The parts of `os` and `encoding/json` that the watermark code calls. -/
structure Sys where
  /-- Go `os.ReadFile(name)`. -/
  ReadFile : Disk → String → Except String String
  /-- Go `os.WriteFile(name, data, 0644)`: the files after the call, or the error. -/
  WriteFile : Disk → String → String → Except String Disk
  /-- Go `json.Unmarshal(data, &cfg)`: the value of `cfg` after the call, and the error. -/
  Unmarshal : String → LastProcessed → LastProcessed × Option String

/-- Go `json.MarshalIndent(c, "", "  ")` for a `LastProcessed`: the field
`LastProcessedID` is a `uint32` tagged `json:"last_processed_id"` and is written in
decimal; the field `Filename` is tagged `json:"-"` and is left out. The call does not
fail on a value of this type. -/
def MarshalIndent (c : LastProcessed) : String :=
  "\x7b\n  \"last_processed_id\": " ++ Nat.repr c.LastProcessedID ++ "\n\x7d"

/-- Go `NewLastProcessed(filename)`: the configuration returned and the error. -/
def NewLastProcessed (S : Sys) (d : Disk) (filename : String) : LastProcessed × Option String :=
  let cfg : LastProcessed := { LastProcessedID := 0, Filename := filename }
  match S.ReadFile d filename with
  | .error e => (cfg, some e)
  | .ok data => S.Unmarshal data cfg

/-- Go `(LastProcessed).UpdateLastProcessed()`: the files after the call, or the error. -/
def LastProcessed.UpdateLastProcessed (S : Sys) (d : Disk) (c : LastProcessed) :
    Except String Disk :=
  S.WriteFile d c.Filename (MarshalIndent c)

/-- What holds of `os.WriteFile` and `os.ReadFile` on a machine where nothing else
touches the file: a file that was written reads back as what was written. -/
def ReadsBackWritten (S : Sys) : Prop :=
  ∀ (d d' : Disk) (name data : String),
    S.WriteFile d name data = .ok d' → S.ReadFile d' name = .ok data

/-- What holds of `json.Unmarshal` into a `LastProcessed`: the text `MarshalIndent`
writes for a `uint32` decodes without error, sets `LastProcessedID` and leaves
`Filename`, which is tagged `json:"-"`, as it was. -/
def DecodesMarshalled (S : Sys) : Prop :=
  ∀ c cfg : LastProcessed, c.LastProcessedID < 2 ^ 32 →
    S.Unmarshal (MarshalIndent c) cfg =
      ({ LastProcessedID := c.LastProcessedID, Filename := cfg.Filename }, none)

/-- Stand-in for `json.Unmarshal` into a `LastProcessed`: it reads the text that
`MarshalIndent` writes, with a decimal number that fits a `uint32`, and refuses
everything else. -/
def demoUnmarshal (data : String) (cfg : LastProcessed) : LastProcessed × Option String :=
  let rest := data.data.drop "\x7b\n  \"last_processed_id\": ".length
  let digits := rest.takeWhile Char.isDigit
  if "\x7b\n  \"last_processed_id\": ".data.isPrefixOf data.data ∧ digits ≠ [] ∧
      rest.dropWhile Char.isDigit = "\n\x7d".data ∧ demoDigits digits < 2 ^ 32 then
    ({ LastProcessedID := demoDigits digits, Filename := cfg.Filename }, none)
  else (cfg, some "json: cannot unmarshal into Go value of type LastProcessed")

/-- Stand-in for the operating system: a file reads as the last text written under
its name; the empty name cannot be written. -/
def demoSys : Sys :=
  { ReadFile := fun d name =>
      match d.lookup name with
      | some data => .ok data
      | none => .error "open: no such file or directory"
    WriteFile := fun d name data =>
      if name = "" then .error "open: no such file or directory" else .ok ((name, data) :: d)
    Unmarshal := demoUnmarshal }

/-- The second loop of `ClassifySpam`, `for result := range scoreChannel`, from the
state `s`, on the results `rs` in the order in which the channel delivers them. -/
def mergeLoop (a : Args) (s : St) (rs : List llmResult) : St :=
  rs.foldl (mergeResult a) s

/-- A result scored `score` without error for the sequence number `id`. -/
def scoredResult (id : Nat) (score : F64) : llmResult :=
  { id := id, score := score, reason := "", err := none, spamStatus := .fin 0 0,
    subject := "", sender := "" }

/-- The arguments of `TestClassifySpam`. -/
def testArgs : Args :=
  Args.of [10, 20, 30, 40] ["whitelist.com"] half 100 fakeLLM true

/-- The arguments of a call on `elevenMessages`: no allow-list, no watermark. -/
def elevenArgs : Args :=
  Args.of elevenIds [] half 0 fakeLLM true

/-! ## Lemmas -/

theorem splitChars_ne_nil (sep : Char) (l : List Char) : splitChars sep l ≠ [] := by
  induction l with
  | nil => simp [splitChars]
  | cons c cs ih =>
    unfold splitChars
    split
    · simp
    · split <;> simp

theorem splitChars_length (sep : Char) (l : List Char) :
    (splitChars sep l).length = l.count sep + 1 := by
  induction l with
  | nil => simp [splitChars]
  | cons c cs ih =>
    unfold splitChars
    by_cases h : c = sep
    · subst h
      simp [ih]
    · have hne : (c == sep) = false := by simpa using h
      simp only [h, if_false]
      rw [List.count_cons, hne]
      cases hs : splitChars sep cs with
      | nil => exact absurd hs (splitChars_ne_nil sep cs)
      | cons p ps =>
        rw [hs] at ih
        simpa using ih

theorem split_length (s : String) (sep : Char) :
    (Split s sep).length = s.data.count sep + 1 := by
  simp [Split, splitChars_length]

/-- C10. An address that does not hold exactly one `@` (none, or two or more) is never
allow-listed, whatever the list holds and however `EqualFold` compares. -/
theorem IsWhitelistedEmail_invalid (L : Lib) (email : String) (allowed : List String)
    (h : email.data.count '@' ≠ 1) : IsWhitelistedEmail L email allowed = false := by
  have hlen : (Split email '@').length ≠ 2 := by
    rw [split_length]
    omega
  unfold IsWhitelistedEmail
  split
  · rename_i heq
    rw [heq] at hlen
    simp at hlen
  · rfl

/-- C10 at concrete inputs: no `@` and two `@`, against lists that hold the very string
and its would-be domain. -/
theorem IsWhitelistedEmail_invalid_witness :
    "notanemail".data.count '@' ≠ 1 ∧
    IsWhitelistedEmail demoLib "notanemail" ["notanemail", "gmail.com"] = false ∧
    IsWhitelistedEmail demoLib "a@b@gmail.com" ["a@b@gmail.com", "gmail.com", "b@gmail.com"] = false :=
  ⟨by decide,
   IsWhitelistedEmail_invalid demoLib "notanemail" ["notanemail", "gmail.com"] (by decide),
   IsWhitelistedEmail_invalid demoLib "a@b@gmail.com" _ (by decide)⟩

theorem perm_eraseIdx {α : Type} (l : List α) (i : Nat) (r : α) (h : l[i]? = some r) :
    (r :: l.eraseIdx i).Perm l := by
  induction l generalizing i with
  | nil => simp at h
  | cons x xs ih =>
    cases i with
    | zero =>
      simp at h
      subst h
      simp
    | succ j =>
      simp at h
      simp only [List.eraseIdx_cons_succ]
      exact (List.Perm.swap x r _).trans ((ih j h).cons x)

theorem spamOf_perm (t : F64) {l₁ l₂ : List llmResult} (h : l₁.Perm l₂) :
    spamOf t l₁ = spamOf t l₂ :=
  List.toFinset_eq_of_perm _ _ ((h.filter _).map _)

theorem notSpamOf_perm (t : F64) {l₁ l₂ : List llmResult} (h : l₁.Perm l₂) :
    notSpamOf t l₁ = notSpamOf t l₂ :=
  List.toFinset_eq_of_perm _ _ ((h.filter _).map _)

theorem mem_spamOf (t : F64) (l : List llmResult) (n : Nat) :
    n ∈ spamOf t l ↔ ∃ r ∈ l, r.err = none ∧ F64.gt r.score t = true ∧ r.id = n := by
  simp [spamOf, and_assoc]

theorem mem_notSpamOf (t : F64) (l : List llmResult) (n : Nat) :
    n ∈ notSpamOf t l ↔ ∃ r ∈ l, r.err = none ∧ F64.gt r.score t = false ∧ r.id = n := by
  simp [notSpamOf, and_assoc]

theorem spamOf_snoc (t : F64) (M : List llmResult) (r : llmResult) :
    spamOf t (M ++ [r]) =
      if r.err = none ∧ F64.gt r.score t = true then insert r.id (spamOf t M) else spamOf t M := by
  ext x
  split
  · rename_i h
    simp only [Finset.mem_insert, mem_spamOf, List.mem_append, List.mem_singleton]
    constructor
    · rintro ⟨q, hq | hq, h1, h2, h3⟩
      · exact Or.inr ⟨q, hq, h1, h2, h3⟩
      · subst hq
        exact Or.inl h3.symm
    · rintro (hx | ⟨q, hq, h1, h2, h3⟩)
      · exact ⟨r, Or.inr rfl, h.1, h.2, hx.symm⟩
      · exact ⟨q, Or.inl hq, h1, h2, h3⟩
  · rename_i h
    simp only [mem_spamOf, List.mem_append, List.mem_singleton]
    constructor
    · rintro ⟨q, hq | hq, h1, h2, h3⟩
      · exact ⟨q, hq, h1, h2, h3⟩
      · subst hq
        exact absurd ⟨h1, h2⟩ h
    · rintro ⟨q, hq, h1, h2, h3⟩
      exact ⟨q, Or.inl hq, h1, h2, h3⟩

theorem notSpamOf_snoc (t : F64) (M : List llmResult) (r : llmResult) :
    notSpamOf t (M ++ [r]) =
      if r.err = none ∧ F64.gt r.score t = false then insert r.id (notSpamOf t M)
      else notSpamOf t M := by
  ext x
  split
  · rename_i h
    simp only [Finset.mem_insert, mem_notSpamOf, List.mem_append, List.mem_singleton]
    constructor
    · rintro ⟨q, hq | hq, h1, h2, h3⟩
      · exact Or.inr ⟨q, hq, h1, h2, h3⟩
      · subst hq
        exact Or.inl h3.symm
    · rintro (hx | ⟨q, hq, h1, h2, h3⟩)
      · exact ⟨r, Or.inr rfl, h.1, h.2, hx.symm⟩
      · exact ⟨q, Or.inl hq, h1, h2, h3⟩
  · rename_i h
    simp only [mem_notSpamOf, List.mem_append, List.mem_singleton]
    constructor
    · rintro ⟨q, hq | hq, h1, h2, h3⟩
      · exact ⟨q, hq, h1, h2, h3⟩
      · subst hq
        exact absurd ⟨h1, h2⟩ h
    · rintro ⟨q, hq, h1, h2, h3⟩
      exact ⟨q, Or.inl hq, h1, h2, h3⟩

theorem mergeResult_spec (a : Args) (s : St) (r : llmResult) (M : List llmResult)
    (hs : s.spamSeqset = spamOf a.threshold M) (hn : s.notSpamSeqset = notSpamOf a.threshold M) :
    (mergeResult a s r).spamSeqset = spamOf a.threshold (M ++ [r]) ∧
    (mergeResult a s r).notSpamSeqset = notSpamOf a.threshold (M ++ [r]) ∧
    (mergeResult a s r).pc = s.pc ∧ (mergeResult a s r).messages = s.messages ∧
    (mergeResult a s r).count = s.count ∧ (mergeResult a s r).lastUid = s.lastUid ∧
    (mergeResult a s r).running = s.running ∧
    (mergeResult a s r).scoreChannel = s.scoreChannel ∧
    (mergeResult a s r).closed = s.closed ∧ (mergeResult a s r).closer = s.closer := by
  rw [spamOf_snoc, notSpamOf_snoc]
  unfold mergeResult
  cases he : r.err with
  | some e => simp [hs, hn]
  | none =>
    by_cases hg : F64.gt r.score a.threshold = true
    · simp [hs, hn, hg, AddNum]
    · simp [hs, hn, hg, AddNum]

theorem loopBody_none_iff (L : Lib) (a : Args) (count : Nat) (msg : Message) :
    loopBody L a count msg = none ↔
      a.ids.length ≤ count ∨
      (a.lastProcessedID < msg.Uid ∧
        ∃ email, NewEmail L msg = .ok email ∧ email.GetSender L = none) := by
  unfold loopBody
  cases hi : a.ids[count]? with
  | none =>
    have hge : a.ids.length ≤ count := by simpa using hi
    simp [hge]
  | some id =>
    have hlt : ¬ a.ids.length ≤ count := by
      intro hge
      have : a.ids[count]? = none := by simpa using hge
      rw [this] at hi
      simp at hi
    simp only [hlt, false_or]
    by_cases hu : msg.Uid ≤ a.lastProcessedID
    · simp only [hu, if_true]
      constructor
      · intro h
        simp at h
      · rintro ⟨h, -⟩
        omega
    · simp only [hu, if_false]
      have hw : a.lastProcessedID < msg.Uid := by omega
      cases he : NewEmail L msg with
      | error e => simp
      | ok email =>
        dsimp only
        cases hs : email.GetSender L with
        | none => simp [hw, hs]
        | some res =>
          constructor
          · intro h
            cases res with
            | error e => simp at h
            | ok sender =>
              simp only at h
              repeat' split at h
              all_goals simp at h
          · rintro ⟨-, email', h1, h2⟩
            cases h1
            rw [hs] at h2
            simp at h2

theorem panics_cons_false (L : Lib) (a : Args) (k : Nat) (m : Message) (rest : List Message)
    (h : panics L a k (m :: rest) = false) :
    (∃ o, loopBody L a k m = some o) ∧ panics L a (k + 1) rest = false := by
  cases hb : loopBody L a k m with
  | none => simp [panics, hb] at h
  | some o => exact ⟨⟨o, rfl⟩, by simpa [panics, hb] using h⟩

theorem panics_false (L : Lib) (a : Args) (k : Nat) (ms : List Message)
    (hlen : k + ms.length ≤ a.ids.length) (hs : ∀ msg ∈ ms, senderOk L msg = true) :
    panics L a k ms = false := by
  induction ms generalizing k with
  | nil => rfl
  | cons m rest ih =>
    simp only [List.length_cons] at hlen
    cases hb : loopBody L a k m with
    | none =>
      rcases (loopBody_none_iff L a k m).1 hb with hge | ⟨-, email, he, hg⟩
      · omega
      · have hok := hs m (List.mem_cons_self _ _)
        simp [senderOk, he, hg] at hok
    | some o =>
      simp only [panics, hb]
      exact ih (k + 1) (by omega) fun msg hm => hs msg (List.mem_cons_of_mem _ hm)

theorem lastUidOf_cons (u : Nat) (msg : Message) (rest : List Message) :
    lastUidOf u (msg :: rest) = lastUidOf msg.Uid rest := rfl

theorem Inv_init (L : Lib) (a : Args) (ms : List Message) : Inv L a ms (St.init ms) where
  perm := ⟨[], by simp [St.init], by simp [St.init, spamOf], by simp [St.init, notSpamOf],
    fun _ => rfl⟩
  count := by simp [St.init]
  ids := by simp [St.init]
  uid := rfl
  late := by simp [St.init]
  closer := by simp [St.init]
  closed := by simp [St.init]
  wait := by simp [St.init]
  seq := by simp [St.init]
  cap := by simp [St.init, chanCap]
  fin := by simp [St.init]
  pan := by simp [St.init]

theorem Inv_mainStep (L : Lib) (a : Args) (ms : List Message) (s t : St)
    (h : Inv L a ms s) (ht : mainStep L a s = some t) : Inv L a ms t := by
  obtain ⟨M, hperm, hspam, hnot, hM⟩ := h.perm
  have hcount := h.count
  have hids := h.ids
  have huid := h.uid
  have hlate := h.late
  have hcloser := h.closer
  have hclosed := h.closed
  have hwait := h.wait
  have hseq := h.seq
  have hcap := h.cap
  have hfin := h.fin
  have hpan := h.pan
  clear h
  rcases s with ⟨pc, msgs, count, lastUid, running, chan, closed, closer, spam, notSpam⟩
  dsimp only at *
  cases pc with
  | loop =>
    have hcl : closer = false := by
      cases closer with
      | false => rfl
      | true => simp at hcloser
    subst hcl
    have hcd : closed = false := by
      cases closed with
      | false => rfl
      | true => simp at hclosed
    subst hcd
    cases msgs with
    | nil =>
      simp only [mainStep, Option.some.injEq] at ht
      subst ht
      exact {
        perm := ⟨M, hperm, hspam, hnot, by simp⟩
        count := hcount, ids := hids, uid := huid
        late := by simp
        closer := by simp
        closed := by simp
        wait := by simp
        seq := by simp
        cap := hcap
        fin := by simp
        pan := by simpa using hpan }
    | cons msg rest =>
      simp only [List.length_cons] at hcount
      cases hb : loopBody L a count msg with
      | none =>
        simp only [mainStep, hb, Option.some.injEq] at ht
        subst ht
        exact {
          perm := ⟨M, hperm, hspam, hnot, by simp⟩
          count := hcount, ids := hids, uid := huid
          late := by simp
          closer := by simp
          closed := by simp
          wait := by simp
          seq := by simp
          cap := hcap
          fin := by simp
          pan := by simpa [panics, hb] using hpan }
      | some o =>
        have hlt : count < a.ids.length := by
          by_contra hge
          have := (loopBody_none_iff L a count msg).2 (Or.inl (by omega))
          rw [hb] at this
          simp at this
        rw [lastUidOf_cons] at huid
        cases o with
        | none =>
          simp only [mainStep, hb, Option.some.injEq] at ht
          subst ht
          have hd : dispatched L a count (msg :: rest) = dispatched L a (count + 1) rest := by
            simp [dispatched, hb]
          rw [hd] at hperm
          exact {
            perm := ⟨M, hperm, hspam, hnot, fun _ => hM (Or.inl rfl)⟩
            count := by simp only [] ; omega
            ids := by simp only []; omega
            uid := huid
            late := by simp
            closer := by simp
            closed := by simp
            wait := by simp
            seq := fun hc _ => hseq hc rfl
            cap := hcap
            fin := by simp
            pan := by simpa [panics, hb] using hpan }
        | some r =>
          simp only [mainStep, hb, Option.some.injEq] at ht
          subst ht
          have hd : dispatched L a count (msg :: rest) = r :: dispatched L a (count + 1) rest := by
            simp [dispatched, hb]
          rw [hd] at hperm
          exact {
            perm := ⟨M, by simpa using hperm, hspam, hnot, fun _ => hM (Or.inl rfl)⟩
            count := by simp only []; omega
            ids := by simp only []; omega
            uid := huid
            late := by cases a.concurrency <;> simp
            closer := by simp
            closed := by simp
            wait := by cases hc : a.concurrency <;> simp
            seq := by cases hc : a.concurrency <;> simp
            cap := hcap
            fin := by cases a.concurrency <;> simp
            pan := by cases a.concurrency <;> simpa [panics, hb] using hpan }
  | wait =>
    simp only [mainStep] at ht
    split at ht
    · rename_i he
      simp only [Option.some.injEq] at ht
      subst ht
      have hcl : closer = false := by
        cases closer with
        | false => rfl
        | true => simp at hcloser
      subst hcl
      have hcd : closed = false := by
        cases closed with
        | false => rfl
        | true => simp at hclosed
      subst hcd
      exact {
        perm := ⟨M, hperm, hspam, hnot, fun _ => hM (Or.inr rfl)⟩
        count := hcount, ids := hids, uid := huid
        late := by simp
        closer := by simp
        closed := by simp
        wait := by simp
        seq := fun _ _ => by simpa using he
        cap := hcap
        fin := by simp
        pan := by simpa using hpan }
    · simp at ht
  | merge =>
    obtain ⟨hmsgs, hcl⟩ := hlate (Or.inl rfl)
    subst hmsgs hcl
    cases chan with
    | nil =>
      simp only [mainStep] at ht
      split at ht
      · rename_i hc
        simp only [Option.some.injEq] at ht
        subst ht
        exact {
          perm := ⟨M, hperm, hspam, hnot, by simp⟩
          count := hcount, ids := hids, uid := huid
          late := by simp
          closer := by simp
          closed := hclosed
          wait := by simp
          seq := by simp
          cap := hcap
          fin := fun _ => ⟨rfl, hc⟩
          pan := by simpa using hpan }
      · simp at ht
    | cons r rest =>
      simp only [mainStep, Option.some.injEq] at ht
      subst ht
      obtain ⟨e1, e2, e3, e4, e5, e6, e7, e8, e9, e10⟩ :=
        mergeResult_spec a ⟨.merge, [], count, lastUid, running, rest, closed, true, spam, notSpam⟩
          r M hspam hnot
      simp only at e3 e4 e5 e6 e7 e8 e9 e10
      simp only [List.length_cons] at hcap
      exact {
        perm := ⟨M ++ [r], by rw [e4, e5, e7, e8]; simpa using hperm, e1, e2,
          by rw [e3]; simp⟩
        count := by rw [e4, e5]; exact hcount
        ids := by rw [e5]; exact hids
        uid := by rw [e4, e6]; exact huid
        late := fun _ => by rw [e4, e10]; exact ⟨rfl, rfl⟩
        closer := fun _ => by rw [e3]; exact Or.inl rfl
        closed := by rw [e9, e7, e10]; exact hclosed
        wait := by rw [e3]; simp
        seq := by rw [e3]; simp
        cap := by rw [e8]; omega
        fin := by rw [e3]; simp
        pan := by rw [e3, e4, e5]; simpa using hpan }
  | done => simp [mainStep] at ht
  | panicked => simp [mainStep] at ht

theorem Inv_sendStep (L : Lib) (a : Args) (ms : List Message) (s t : St) (i : Nat)
    (h : Inv L a ms s) (ht : sendStep s i = some t) : Inv L a ms t := by
  obtain ⟨M, hperm, hspam, hnot, hM⟩ := h.perm
  have hcount := h.count
  have hids := h.ids
  have huid := h.uid
  have hlate := h.late
  have hcloser := h.closer
  have hclosed := h.closed
  have hwait := h.wait
  have hseq := h.seq
  have hcap := h.cap
  have hfin := h.fin
  have hpan := h.pan
  clear h
  rcases s with ⟨pc, msgs, count, lastUid, running, chan, closed, closer, spam, notSpam⟩
  dsimp only at *
  unfold sendStep at ht
  dsimp only at ht
  cases hr : running[i]? with
  | none => simp [hr] at ht
  | some r =>
    rw [hr] at ht
    dsimp only at ht
    split at ht
    · rename_i hlt
      simp only [Option.some.injEq] at ht
      subst ht
      have hne : running ≠ [] := by
        intro he
        subst he
        simp at hr
      have hcd : closed = false := by
        cases closed with
        | false => rfl
        | true => exact absurd (hclosed rfl).1 hne
      subst hcd
      have hp := perm_eraseIdx running i r hr
      have hperm2 : (M ++ (chan ++ [r] ++ (running.eraseIdx i ++ dispatched L a count msgs))).Perm
          (dispatched L a 0 ms) := by
        refine List.Perm.trans ?_ hperm
        refine List.Perm.append_left M ?_
        rw [List.append_assoc]
        refine List.Perm.append_left chan ?_
        exact List.Perm.append_right _ hp
      exact {
        perm := ⟨M, hperm2, hspam, hnot, hM⟩
        count := hcount, ids := hids, uid := huid
        late := hlate
        closer := hcloser
        closed := by simp
        wait := hwait
        seq := fun hc hl => absurd (hseq hc hl) hne
        cap := by
          simp only [List.length_append, List.length_singleton]
          unfold chanCap at *
          omega
        fin := fun hd => absurd (hfin hd).2 (by simp)
        pan := hpan }
    · simp at ht

theorem Inv_closeStep (L : Lib) (a : Args) (ms : List Message) (s t : St)
    (h : Inv L a ms s) (ht : closeStep s = some t) : Inv L a ms t := by
  obtain ⟨M, hperm, hspam, hnot, hM⟩ := h.perm
  have hcount := h.count
  have hids := h.ids
  have huid := h.uid
  have hlate := h.late
  have hcloser := h.closer
  have hclosed := h.closed
  have hwait := h.wait
  have hseq := h.seq
  have hcap := h.cap
  have hfin := h.fin
  have hpan := h.pan
  clear h
  rcases s with ⟨pc, msgs, count, lastUid, running, chan, closed, closer, spam, notSpam⟩
  dsimp only at *
  unfold closeStep at ht
  dsimp only at ht
  split at ht
  · rename_i hc
    simp only [Bool.and_eq_true, Bool.not_eq_true', List.isEmpty_iff] at hc
    obtain ⟨⟨hc1, hc2⟩, hc3⟩ := hc
    simp only [Option.some.injEq] at ht
    subst ht
    subst hc1 hc2 hc3
    exact {
      perm := ⟨M, hperm, hspam, hnot, hM⟩
      count := hcount, ids := hids, uid := huid
      late := hlate
      closer := hcloser
      closed := by simp
      wait := hwait
      seq := by simp
      cap := hcap
      fin := fun hd => ⟨(hfin hd).1, rfl⟩
      pan := hpan }
  · simp at ht

theorem mem_successors (L : Lib) (a : Args) (s t : St) :
    t ∈ successors L a s ↔
      (s.pc ≠ .done ∧ s.pc ≠ .panicked) ∧
      (mainStep L a s = some t ∨ (∃ i, i < s.running.length ∧ sendStep s i = some t) ∨
        closeStep s = some t) := by
  unfold successors
  split
  · rename_i h
    simp only [List.not_mem_nil, false_iff, not_and]
    intro h2
    exact absurd h (by simp [h2.1, h2.2])
  · rename_i h
    simp only [not_or] at h
    simp [h.1, h.2, Option.mem_toList, or_assoc]

theorem Inv_step (L : Lib) (a : Args) (ms : List Message) (s t : St)
    (h : Inv L a ms s) (ht : t ∈ successors L a s) : Inv L a ms t := by
  rcases (mem_successors L a s t).1 ht with ⟨_, h1 | ⟨i, _, h2⟩ | h3⟩
  · exact Inv_mainStep L a ms s t h h1
  · exact Inv_sendStep L a ms s t i h h2
  · exact Inv_closeStep L a ms s t h h3

theorem getD_mem {α : Type} (l : List α) (i : Nat) (d : α) (hd : d ∈ l) : l.getD i d ∈ l := by
  rw [List.getD_eq_getElem?_getD]
  cases h : l[i]? with
  | none => simpa using hd
  | some x => simpa using List.getElem?_mem h

theorem Inv_run (L : Lib) (a : Args) (ms : List Message) (sched : Nat → Nat) (fuel : Nat)
    (s : St) (h : Inv L a ms s) : Inv L a ms (run L a sched fuel s) := by
  induction fuel generalizing s with
  | zero => exact h
  | succ n ih =>
    unfold run
    split
    · exact h
    · rename_i t ts hs
      apply ih
      apply Inv_step L a ms s _ h
      rw [hs]
      exact getD_mem _ _ _ (List.mem_cons_self _ _)

theorem mergeResult_frame (a : Args) (s : St) (r : llmResult) :
    (mergeResult a s r).pc = s.pc ∧ (mergeResult a s r).messages = s.messages ∧
    (mergeResult a s r).running = s.running ∧
    (mergeResult a s r).scoreChannel = s.scoreChannel ∧
    (mergeResult a s r).closed = s.closed := by
  unfold mergeResult
  split
  · simp
  · split <;> simp

theorem measure_mainStep (L : Lib) (a : Args) (s t : St) (ht : mainStep L a s = some t) :
    t.measure < s.measure := by
  rcases s with ⟨pc, msgs, count, lastUid, running, chan, closed, closer, spam, notSpam⟩
  cases pc with
  | loop =>
    cases msgs with
    | nil =>
      simp only [mainStep, Option.some.injEq] at ht
      subst ht
      simp [St.measure]
    | cons msg rest =>
      cases hb : loopBody L a count msg with
      | none =>
        simp only [mainStep, hb, Option.some.injEq] at ht
        subst ht
        simp [St.measure]
      | some o =>
        cases o with
        | none =>
          simp only [mainStep, hb, Option.some.injEq] at ht
          subst ht
          simp only [St.measure, List.length_cons]
          omega
        | some r =>
          simp only [mainStep, hb, Option.some.injEq] at ht
          subst ht
          cases a.concurrency <;>
            simp only [St.measure, List.length_cons, List.length_append, List.length_singleton] <;>
            simp <;> omega
  | wait =>
    simp only [mainStep] at ht
    split at ht
    · simp only [Option.some.injEq] at ht
      subst ht
      simp [St.measure]
    · simp at ht
  | merge =>
    cases chan with
    | nil =>
      simp only [mainStep] at ht
      split at ht
      · simp only [Option.some.injEq] at ht
        subst ht
        simp [St.measure]
      · simp at ht
    | cons r rest =>
      simp only [mainStep, Option.some.injEq] at ht
      subst ht
      obtain ⟨e1, e2, e3, e4, e5⟩ :=
        mergeResult_frame a ⟨.merge, msgs, count, lastUid, running, rest, closed, closer, spam, notSpam⟩ r
      simp only [St.measure, e1, e2, e3, e4, e5, List.length_cons]
      omega
  | done => simp [mainStep] at ht
  | panicked => simp [mainStep] at ht

theorem measure_sendStep (s t : St) (i : Nat) (ht : sendStep s i = some t) :
    t.measure < s.measure := by
  rcases s with ⟨pc, msgs, count, lastUid, running, chan, closed, closer, spam, notSpam⟩
  unfold sendStep at ht
  dsimp only at ht
  cases hr : running[i]? with
  | none => simp [hr] at ht
  | some r =>
    rw [hr] at ht
    dsimp only at ht
    split at ht
    · simp only [Option.some.injEq] at ht
      subst ht
      have hp := (perm_eraseIdx running i r hr).length_eq
      simp only [List.length_cons] at hp
      simp only [St.measure, List.length_append, List.length_singleton]
      omega
    · simp at ht

theorem measure_closeStep (s t : St) (ht : closeStep s = some t) : t.measure < s.measure := by
  rcases s with ⟨pc, msgs, count, lastUid, running, chan, closed, closer, spam, notSpam⟩
  unfold closeStep at ht
  dsimp only at ht
  split at ht
  · rename_i hc
    simp only [Bool.and_eq_true, Bool.not_eq_true', List.isEmpty_iff] at hc
    simp only [Option.some.injEq] at ht
    subst ht
    simp [St.measure, hc.2]
  · simp at ht

theorem measure_step (L : Lib) (a : Args) (s t : St) (ht : t ∈ successors L a s) :
    t.measure < s.measure := by
  rcases (mem_successors L a s t).1 ht with ⟨_, h1 | ⟨i, _, h2⟩ | h3⟩
  · exact measure_mainStep L a s t h1
  · exact measure_sendStep s t i h2
  · exact measure_closeStep s t h3

theorem run_stuck (L : Lib) (a : Args) (sched : Nat → Nat) (fuel : Nat) (s : St)
    (h : s.measure ≤ fuel) : successors L a (run L a sched fuel s) = [] := by
  induction fuel generalizing s with
  | zero =>
    unfold run
    cases hs : successors L a s with
    | nil => rfl
    | cons t ts =>
      have := measure_step L a s t (by rw [hs]; exact List.mem_cons_self _ _)
      omega
  | succ n ih =>
    unfold run
    split
    · rename_i hs
      exact hs
    · rename_i t ts hs
      apply ih
      have hm : (t :: ts).getD (sched n % (ts.length + 1)) t ∈ successors L a s := by
        rw [hs]
        exact getD_mem _ _ _ (List.mem_cons_self _ _)
      have := measure_step L a s _ hm
      omega

theorem measure_init (ms : List Message) : (St.init ms).measure = 4 * ms.length + 3 := by
  simp [St.init, St.measure]

theorem progress (L : Lib) (a : Args) (ms : List Message) (s : St) (h : Inv L a ms s)
    (hd : s.pc ≠ .done) (hp : s.pc ≠ .panicked)
    (hc : a.concurrency = true ∨ (dispatched L a 0 ms).length ≤ chanCap) :
    successors L a s ≠ [] := by
  obtain ⟨M, hperm, -, -, -⟩ := h.perm
  have hlen := hperm.length_eq
  simp only [List.length_append] at hlen
  have hsend : s.running ≠ [] → s.scoreChannel.length < chanCap →
      successors L a s ≠ [] := by
    intro hne hlt
    cases hr : s.running with
    | nil => exact absurd hr hne
    | cons r rest =>
      have h0 : ∃ t, sendStep s 0 = some t := by
        simp [sendStep, hr, hlt]
      obtain ⟨t, h0⟩ := h0
      intro hnil
      have hmem := (mem_successors L a s t).2 ⟨⟨hd, hp⟩, Or.inr (Or.inl ⟨0, by simp [hr], h0⟩)⟩
      rw [hnil] at hmem
      simp at hmem
  have hmain : (mainStep L a s).isSome = true → successors L a s ≠ [] := by
    intro hsome hnil
    obtain ⟨t, ht⟩ := Option.isSome_iff_exists.1 hsome
    have hmem := (mem_successors L a s t).2 ⟨⟨hd, hp⟩, Or.inl ht⟩
    rw [hnil] at hmem
    simp at hmem
  cases hpc : s.pc with
  | loop =>
    cases hm : s.messages with
    | nil => exact hmain (by simp [mainStep, hpc, hm])
    | cons msg rest =>
      cases hb : loopBody L a s.count msg with
      | none => exact hmain (by simp [mainStep, hpc, hm, hb])
      | some o =>
        cases o with
        | none => exact hmain (by simp [mainStep, hpc, hm, hb])
        | some r => exact hmain (by simp [mainStep, hpc, hm, hb])
  | wait =>
    by_cases he : s.running = []
    · exact hmain (by simp [mainStep, hpc, he])
    · apply hsend he
      have hcf := h.wait hpc
      rcases hc with hc | hc
      · rw [hcf] at hc
        simp at hc
      · have : 0 < s.running.length := List.length_pos.2 he
        omega
  | merge =>
    cases hch : s.scoreChannel with
    | cons r rest => exact hmain (by simp [mainStep, hpc, hch])
    | nil =>
      cases hcl : s.closed with
      | true => exact hmain (by simp [mainStep, hpc, hch, hcl])
      | false =>
        by_cases he : s.running = []
        · intro hnil
          have hcs : ∃ t, closeStep s = some t := by
            simp [closeStep, (h.late (Or.inl hpc)).2, he, hcl]
          obtain ⟨t, hcs⟩ := hcs
          have hmem := (mem_successors L a s t).2 ⟨⟨hd, hp⟩, Or.inr (Or.inr hcs)⟩
          rw [hnil] at hmem
          simp at hmem
        · apply hsend he
          rw [hch]
          simp [chanCap]
  | done => exact absurd hpc hd
  | panicked => exact absurd hpc hp

theorem final_done (L : Lib) (a : Args) (ms : List Message) (s : St) (h : Inv L a ms s)
    (hd : s.pc = .done) :
    s.spamSeqset = spamOf a.threshold (dispatched L a 0 ms) ∧
    s.notSpamSeqset = notSpamOf a.threshold (dispatched L a 0 ms) ∧
    s.lastUid = lastUidOf 0 ms ∧ ms.length ≤ a.ids.length := by
  obtain ⟨M, hperm, hspam, hnot, -⟩ := h.perm
  obtain ⟨hch, hcl⟩ := h.fin hd
  obtain ⟨hrun, -⟩ := h.closed hcl
  obtain ⟨hmsgs, -⟩ := h.late (Or.inr hd)
  have hcount := h.count
  have hids := h.ids
  have huid := h.uid
  rw [hmsgs] at hperm hcount huid
  rw [hch, hrun] at hperm
  simp only [dispatched, List.append_nil] at hperm
  refine ⟨?_, ?_, ?_, ?_⟩
  · rw [hspam]
    exact spamOf_perm _ hperm
  · rw [hnot]
    exact notSpamOf_perm _ hperm
  · simpa [lastUidOf] using huid
  · simp only [List.length_nil] at hcount
    omega

theorem ClassifySpam_pc (L : Lib) (sched : Nat → Nat) (ms : List Message) (ids : List Nat)
    (wl : List String) (thr : F64) (w : Nat) (llm : Model) (c : Bool) :
    ∃ s, Inv L (Args.of ids wl thr w llm c) ms s ∧
      successors L (Args.of ids wl thr w llm c) s = [] ∧
      ClassifySpam L sched (some ms) ids wl thr w llm c =
        (match s.pc with
         | .done => .returned s.spamSeqset s.notSpamSeqset s.lastUid none
         | .panicked => .panicked
         | _ => .blocked) :=
  ⟨run L (Args.of ids wl thr w llm c) sched (4 * ms.length + 3) (St.init ms),
    Inv_run _ _ _ _ _ _ (Inv_init _ _ _),
    run_stuck _ _ _ _ _ (by rw [measure_init]),
    rfl⟩

theorem ClassifySpam_returned (L : Lib) (sched : Nat → Nat) (ms : List Message)
    (ids : List Nat) (wl : List String) (thr : F64) (w : Nat) (llm : Model) (c : Bool)
    (sp ns : SeqSet) (u : Nat) (e : Option String)
    (h : ClassifySpam L sched (some ms) ids wl thr w llm c = .returned sp ns u e) :
    sp = spamOf thr (dispatched L (Args.of ids wl thr w llm c) 0 ms) ∧
    ns = notSpamOf thr (dispatched L (Args.of ids wl thr w llm c) 0 ms) ∧
    u = lastUidOf 0 ms ∧ e = none ∧ ms.length ≤ ids.length := by
  obtain ⟨s, hinv, -, heq⟩ := ClassifySpam_pc L sched ms ids wl thr w llm c
  rw [heq] at h
  cases hpc : s.pc with
  | done =>
    rw [hpc] at h
    simp only [Outcome.returned.injEq] at h
    obtain ⟨h1, h2, h3, h4⟩ := h
    obtain ⟨f1, f2, f3, f4⟩ := final_done L _ ms s hinv hpc
    exact ⟨h1 ▸ f1, h2 ▸ f2, h3 ▸ f3, h4.symm, f4⟩
  | loop => rw [hpc] at h; simp at h
  | wait => rw [hpc] at h; simp at h
  | merge => rw [hpc] at h; simp at h
  | panicked => rw [hpc] at h; simp at h

theorem ClassifySpam_returned_nopanic (L : Lib) (sched : Nat → Nat) (ms : List Message)
    (ids : List Nat) (wl : List String) (thr : F64) (w : Nat) (llm : Model) (c : Bool)
    (sp ns : SeqSet) (u : Nat) (e : Option String)
    (h : ClassifySpam L sched (some ms) ids wl thr w llm c = .returned sp ns u e) :
    panics L (Args.of ids wl thr w llm c) 0 ms = false := by
  obtain ⟨s, hinv, -, heq⟩ := ClassifySpam_pc L sched ms ids wl thr w llm c
  rw [heq] at h
  cases hpc : s.pc with
  | done =>
    have hpan := hinv.pan
    obtain ⟨hmsgs, -⟩ := hinv.late (Or.inr hpc)
    rw [hpc, hmsgs] at hpan
    simpa [panics] using hpan
  | loop => rw [hpc] at h; simp at h
  | wait => rw [hpc] at h; simp at h
  | merge => rw [hpc] at h; simp at h
  | panicked => rw [hpc] at h; simp at h

theorem ClassifySpam_returns (L : Lib) (sched : Nat → Nat) (ms : List Message)
    (ids : List Nat) (wl : List String) (thr : F64) (w : Nat) (llm : Model) (c : Bool)
    (hnp : panics L (Args.of ids wl thr w llm c) 0 ms = false)
    (hc : c = true ∨ (dispatched L (Args.of ids wl thr w llm c) 0 ms).length ≤ chanCap) :
    ClassifySpam L sched (some ms) ids wl thr w llm c =
      .returned (spamOf thr (dispatched L (Args.of ids wl thr w llm c) 0 ms))
        (notSpamOf thr (dispatched L (Args.of ids wl thr w llm c) 0 ms)) (lastUidOf 0 ms) none := by
  obtain ⟨s, hinv, hstuck, heq⟩ := ClassifySpam_pc L sched ms ids wl thr w llm c
  have hnpc : s.pc ≠ .panicked := by
    intro hp
    have := hinv.pan
    rw [hp, hnp] at this
    simp at this
  have hd : s.pc = .done := by
    by_contra hd
    exact progress L _ ms s hinv hd hnpc hc hstuck
  obtain ⟨f1, f2, f3, -⟩ := final_done L _ ms s hinv hd
  rw [heq, hd]
  simp only [Outcome.returned.injEq, and_true]
  exact ⟨f1, f2, f3⟩

theorem no_merge_step (L : Lib) (a : Args) (ms : List Message) (s t : St)
    (h : Inv L a ms s) (hc : a.concurrency = false)
    (hbig : chanCap < (dispatched L a 0 ms).length)
    (hpc : s.pc = .loop ∨ s.pc = .wait) (ht : t ∈ successors L a s) :
    t.pc = .loop ∨ t.pc = .wait := by
  rcases (mem_successors L a s t).1 ht with ⟨_, h1 | ⟨i, _, h2⟩ | h3⟩
  · obtain ⟨M, hperm, -, -, hM⟩ := h.perm
    have hM0 := hM hpc
    subst hM0
    have hseq := h.seq hc
    have hcap := h.cap
    rcases s with ⟨pc, msgs, count, lastUid, running, chan, closed, closer, spam, notSpam⟩
    dsimp only at *
    rcases hpc with hpc | hpc
    · subst hpc
      cases msgs with
      | nil =>
        have hr := hseq rfl
        subst hr
        have hl := hperm.length_eq
        simp only [dispatched, List.nil_append, List.append_nil] at hl
        omega
      | cons msg rest =>
        cases hb : loopBody L a count msg with
        | none =>
          have hr := hseq rfl
          subst hr
          have hl := hperm.length_eq
          simp only [dispatched, hb, List.nil_append, List.append_nil] at hl
          omega
        | some o =>
          cases o with
          | none =>
            simp only [mainStep, hb, Option.some.injEq] at h1
            subst h1
            simp
          | some r =>
            simp only [mainStep, hb, Option.some.injEq] at h1
            subst h1
            simp [hc]
    · subst hpc
      simp only [mainStep] at h1
      split at h1
      · simp only [Option.some.injEq] at h1
        subst h1
        simp
      · simp at h1
  · have : t.pc = s.pc := by
      unfold sendStep at h2
      split at h2
      · simp at h2
      · split at h2
        · simp only [Option.some.injEq] at h2
          subst h2
          rfl
        · simp at h2
    rw [this]
    exact hpc
  · have : t.pc = s.pc := by
      unfold closeStep at h3
      split at h3
      · simp only [Option.some.injEq] at h3
        subst h3
        rfl
      · simp at h3
    rw [this]
    exact hpc

theorem no_merge_run (L : Lib) (a : Args) (ms : List Message) (sched : Nat → Nat)
    (hc : a.concurrency = false)
    (hbig : chanCap < (dispatched L a 0 ms).length) (fuel : Nat) (s : St)
    (h : Inv L a ms s) (hpc : s.pc = .loop ∨ s.pc = .wait) :
    (run L a sched fuel s).pc = .loop ∨ (run L a sched fuel s).pc = .wait := by
  induction fuel generalizing s with
  | zero => exact hpc
  | succ n ih =>
    unfold run
    split
    · exact hpc
    · rename_i t ts hs
      have hm : (t :: ts).getD (sched n % (ts.length + 1)) t ∈ successors L a s := by
        rw [hs]
        exact getD_mem _ _ _ (List.mem_cons_self _ _)
      have hinv := Inv_step L a ms s _ h hm
      exact ih _ hinv (no_merge_step L a ms s _ h hc hbig hpc hm)

theorem ClassifySpam_blocked (L : Lib) (sched : Nat → Nat) (ms : List Message)
    (ids : List Nat) (wl : List String) (thr : F64) (w : Nat) (llm : Model)
    (hbig : chanCap < (dispatched L (Args.of ids wl thr w llm false) 0 ms).length) :
    ClassifySpam L sched (some ms) ids wl thr w llm false = .blocked := by
  have h := no_merge_run L (Args.of ids wl thr w llm false) ms sched rfl hbig
    (4 * ms.length + 3) (St.init ms) (Inv_init _ _ _) (Or.inl rfl)
  unfold ClassifySpam
  dsimp only
  rcases h with h | h <;> rw [h]

theorem loopBody_some_iff (L : Lib) (a : Args) (i : Nat) (msg : Message) (r : llmResult) :
    loopBody L a i msg = some (some r) ↔
      ∃ id email sender spamStatus bodyText,
        a.ids[i]? = some id ∧ a.lastProcessedID < msg.Uid ∧ NewEmail L msg = .ok email ∧
        email.GetSender L = some (.ok sender) ∧
        IsWhitelistedEmail L sender.Address a.whitelisted_domains = false ∧
        ExtractSpamStatus L email = .ok spamStatus ∧ CleanEmailBody L email = .ok bodyText ∧
        r = goroutine L a.llmClassifier id spamStatus sender email.GetSubject
              (cleanedMailOf L sender email.GetSubject bodyText) := by
  cases hi : a.ids[i]? with
  | none => simp [loopBody, hi]
  | some id =>
    simp only [loopBody, hi]
    by_cases hu : msg.Uid ≤ a.lastProcessedID
    · simp only [hu, if_true]
      constructor
      · intro h
        simp at h
      · rintro ⟨_, _, _, _, _, _, h2, _⟩
        omega
    · simp only [hu, if_false]
      cases he : NewEmail L msg with
      | error e => simp
      | ok email =>
        cases hs : email.GetSender L with
        | none => simp [hs]
        | some res =>
        cases res with
        | error e => simp [hs]
        | ok sender =>
          cases hw : IsWhitelistedEmail L sender.Address a.whitelisted_domains with
          | true => simp [hs, hw]
          | false =>
            cases hx : ExtractSpamStatus L email with
            | error e => simp [hs, hw, hx]
            | ok st =>
              cases hb : CleanEmailBody L email with
              | error e => simp [hs, hw, hx, hb]
              | ok body =>
                simp only [hs, hw, hx, hb, Bool.false_eq_true, if_false]
                constructor
                · intro h
                  simp only [Option.some.injEq] at h
                  exact ⟨id, email, sender, st, body, rfl, by omega, rfl, hs, hw, hx, hb, h.symm⟩
                · rintro ⟨id', email', sender', st', body', h1, _, h3, h4, _, h6, h7, h8⟩
                  have e1 : id = id' := by simpa using h1
                  have e3 : email = email' := by simpa using h3
                  subst e1 e3
                  rw [hs] at h4
                  rw [hx] at h6
                  rw [hb] at h7
                  have e4 : sender = sender' := by simpa using h4
                  have e6 : st = st' := by simpa using h6
                  have e7 : body = body' := by simpa using h7
                  subst e4 e6 e7
                  rw [h8]

theorem dispatched_cons (L : Lib) (a : Args) (k : Nat) (m : Message) (rest : List Message) :
    dispatched L a k (m :: rest) =
      match loopBody L a k m with
      | none => []
      | some none => dispatched L a (k + 1) rest
      | some (some r) => r :: dispatched L a (k + 1) rest := by
  simp [dispatched]

theorem mem_dispatched (L : Lib) (a : Args) (k : Nat) (ms : List Message) (r : llmResult)
    (hnp : panics L a k ms = false) :
    r ∈ dispatched L a k ms ↔
      ∃ i msg, ms[i]? = some msg ∧ loopBody L a (k + i) msg = some (some r) := by
  induction ms generalizing k with
  | nil => simp [dispatched]
  | cons m rest ih =>
    obtain ⟨⟨o', ho'⟩, hnp'⟩ := panics_cons_false L a k m rest hnp
    have ih1 := ih (k + 1) hnp'
    have hex : (∃ i msg, (m :: rest)[i]? = some msg ∧ loopBody L a (k + i) msg = some (some r)) ↔
        loopBody L a k m = some (some r) ∨
        ∃ i msg, rest[i]? = some msg ∧ loopBody L a (k + 1 + i) msg = some (some r) := by
      constructor
      · rintro ⟨i, msg, h1, h2⟩
        cases i with
        | zero =>
          simp only [List.getElem?_cons_zero, Option.some.injEq] at h1
          subst h1
          exact Or.inl h2
        | succ j =>
          simp only [List.getElem?_cons_succ] at h1
          exact Or.inr ⟨j, msg, h1, by rw [← h2]; congr 1; omega⟩
      · rintro (h | ⟨j, msg, h1, h2⟩)
        · exact ⟨0, m, by simp, h⟩
        · exact ⟨j + 1, msg, by simpa using h1, by rw [← h2]; congr 1; omega⟩
    rw [hex, ← ih1, dispatched_cons]
    cases hb : loopBody L a k m with
    | none =>
      rw [hb] at ho'
      simp at ho'
    | some o =>
      cases o with
      | none => simp
      | some r' =>
        simp only [List.mem_cons, Option.some.injEq]
        constructor
        · rintro (h | h)
          · exact Or.inl h.symm
          · exact Or.inr h
        · rintro (h | h)
          · exact Or.inl h.symm
          · exact Or.inr h

theorem dispatched_ids_sublist (L : Lib) (a : Args) (k : Nat) (ms : List Message) :
    ((dispatched L a k ms).map llmResult.id).Sublist (a.ids.drop k) := by
  induction ms generalizing k with
  | nil => simp [dispatched]
  | cons m rest ih =>
    rw [dispatched_cons]
    cases hb : loopBody L a k m with
    | none => simp
    | some o =>
      have hlt : k < a.ids.length := by
        by_contra hge
        have := (loopBody_none_iff L a k m).2 (Or.inl (by omega))
        rw [hb] at this
        simp at this
      have hdrop : a.ids.drop k = a.ids[k] :: a.ids.drop (k + 1) := by
        simp
      cases o with
      | none =>
        simp only
        rw [hdrop]
        exact (ih (k + 1)).cons _
      | some r =>
        simp only [List.map_cons]
        obtain ⟨id, _, _, _, _, h1, _, _, _, _, _, _, h8⟩ := (loopBody_some_iff L a k m r).1 hb
        have hid : r.id = a.ids[k] := by
          rw [h8]
          simp only [goroutine]
          have : a.ids[k]? = some a.ids[k] := by simp [hlt]
          rw [this] at h1
          simpa using h1.symm
        rw [hdrop, hid]
        exact (ih (k + 1)).cons₂ _

theorem dispatched_length_le (L : Lib) (a : Args) (k : Nat) (ms : List Message) :
    (dispatched L a k ms).length ≤ ms.length := by
  induction ms generalizing k with
  | nil => simp [dispatched]
  | cons m rest ih =>
    rw [dispatched_cons]
    cases hb : loopBody L a k m with
    | none => simp
    | some o =>
      cases o with
      | none =>
        have := ih (k + 1)
        simp only [List.length_cons]
        omega
      | some r =>
        have := ih (k + 1)
        simp only [List.length_cons]
        omega

theorem F64.gt_false_iff (x t : F64) :
    F64.gt x t = false ↔ (F64.le x t = true ∨ x = .nan ∨ t = .nan) := by
  cases x <;> cases t <;> simp [F64.gt, F64.le, F64.lt]

theorem lastUidOf_append (u : Nat) (pre : List Message) (m : Message) :
    lastUidOf u (pre ++ [m]) = m.Uid := by
  simp [lastUidOf, List.foldl_append]

theorem lastUidOf_mem (u : Nat) (ms : List Message) (hne : ms ≠ []) :
    ∃ m ∈ ms, lastUidOf u ms = m.Uid := by
  obtain ⟨pre, m, rfl⟩ : ∃ pre m, ms = pre ++ [m] :=
    ⟨ms.dropLast, ms.getLast hne, (List.dropLast_append_getLast hne).symm⟩
  exact ⟨m, by simp, lastUidOf_append u pre m⟩

theorem le_maxUid (ms : List Message) (m : Message) (hm : m ∈ ms) : m.Uid ≤ maxUid ms := by
  induction ms with
  | nil => simp at hm
  | cons x xs ih =>
    simp only [maxUid, List.map_cons, List.foldr_cons]
    rcases List.mem_cons.1 hm with h | h
    · subst h
      exact Nat.le_max_left _ _
    · exact Nat.le_trans (ih h) (Nat.le_max_right _ _)

theorem maxUid_le (ms : List Message) (b : Nat) (h : ∀ m ∈ ms, m.Uid ≤ b) : maxUid ms ≤ b := by
  induction ms with
  | nil => simp [maxUid]
  | cons x xs ih =>
    simp only [maxUid, List.map_cons, List.foldr_cons]
    exact Nat.max_le.2 ⟨h x (List.mem_cons_self _ _),
      ih fun m hm => h m (List.mem_cons_of_mem _ hm)⟩

theorem lastUidOf_eq_maxUid (ms : List Message) (hne : ms ≠ [])
    (hmax : ∀ m ∈ ms, m.Uid ≤ lastUidOf 0 ms) : lastUidOf 0 ms = maxUid ms := by
  obtain ⟨m, hm, hl⟩ := lastUidOf_mem 0 ms hne
  apply Nat.le_antisymm
  · rw [hl]
    exact le_maxUid ms m hm
  · exact maxUid_le ms _ hmax

/-- Which results the goroutines of a run send: those of the messages that get past
every skip policy, each under the sequence number at the position of its message. -/
theorem scored_iff (L : Lib) (ms : List Message) (ids : List Nat) (wl : List String)
    (thr : F64) (w : Nat) (llm : Model) (c : Bool)
    (hnp : panics L (Args.of ids wl thr w llm c) 0 ms = false)
    (hext : ∀ msg ∈ ms, priorScoreOk L msg = true)
    (n : Nat) (b : Bool) :
    (∃ r ∈ dispatched L (Args.of ids wl thr w llm c) 0 ms,
        r.err = none ∧ F64.gt r.score thr = b ∧ r.id = n) ↔
      ∃ (i : Nat) (msg : Message) (x : F64), ms[i]? = some msg ∧ ids[i]? = some n ∧ ScoredWith L wl w llm msg x ∧
        F64.gt x thr = b := by
  constructor
  · rintro ⟨r, hr, herr, hgt, hid⟩
    obtain ⟨i, msg, hi, hb⟩ := (mem_dispatched L _ 0 ms r hnp).1 hr
    rw [Nat.zero_add] at hb
    obtain ⟨id, email, sender, st, body, h1, h2, h3, h4, h5, h6, h7, h8⟩ :=
      (loopBody_some_iff L _ i msg r).1 hb
    subst h8
    simp only [goroutine, Args.of] at herr hgt hid h1 h2 h5
    subst hid
    exact ⟨i, msg, _, hi, h1, ⟨h2, email, sender, body, h3, h4, h5, h7, herr, rfl⟩, hgt⟩
  · rintro ⟨i, msg, x, hi, hid, ⟨h2, email, sender, body, h3, h4, h5, h7, herr, hx⟩, hgt⟩
    obtain ⟨st, h6⟩ : ∃ st, ExtractSpamStatus L email = .ok st := by
      have hok := hext msg (List.getElem?_mem hi)
      simp only [priorScoreOk, h3] at hok
      cases hx6 : ExtractSpamStatus L email with
      | error e => simp [hx6] at hok
      | ok st => exact ⟨st, rfl⟩
    refine ⟨goroutine L llm n st sender email.GetSubject
      (cleanedMailOf L sender email.GetSubject body), ?_, ?_, ?_, ?_⟩
    · apply (mem_dispatched L _ 0 ms _ hnp).2
      refine ⟨i, msg, hi, ?_⟩
      rw [Nat.zero_add]
      exact (loopBody_some_iff L _ i msg _).2
        ⟨n, email, sender, st, body, hid, h2, h3, h4, h5, h6, h7, rfl⟩
    · exact herr
    · simp only [goroutine]
      rw [hx]
      exact hgt
    · rfl

/-- C1 (amended). For a batch paired positionally with its sequence numbers, on which
`GetSender` panics for no message (no sender header is an address list without an
address) and prior-score extraction succeeds for every message, run with the
concurrency flag on or with at most 10 started goroutines: `ClassifySpam` returns, the
spam set is exactly the
set of `ids[i]` of the messages that get past the skip policies and are scored without
error with a score `> threshold`, and the not-spam set is exactly the set of `ids[i]`
of such messages whose score is not `> threshold`: a score `<= threshold`, or a score
or threshold that is not a number. The sequence numbers need not be distinct. -/
theorem ClassifySpam_partition (L : Lib) (sched : Nat → Nat) (ms : List Message)
    (ids : List Nat) (wl : List String) (thr : F64) (w : Nat) (llm : Model) (c : Bool)
    (hlen : ids.length = ms.length)
    (hsender : ∀ msg ∈ ms, senderOk L msg = true)
    (hext : ∀ msg ∈ ms, priorScoreOk L msg = true)
    (hc : c = true ∨ (dispatched L (Args.of ids wl thr w llm c) 0 ms).length ≤ chanCap) :
    ∃ sp ns u, ClassifySpam L sched (some ms) ids wl thr w llm c = .returned sp ns u none ∧
      (∀ n, n ∈ sp ↔ ∃ (i : Nat) (msg : Message) (x : F64), ms[i]? = some msg ∧ ids[i]? = some n ∧
        ScoredWith L wl w llm msg x ∧ F64.gt x thr = true) ∧
      (∀ n, n ∈ ns ↔ ∃ (i : Nat) (msg : Message) (x : F64), ms[i]? = some msg ∧ ids[i]? = some n ∧
        ScoredWith L wl w llm msg x ∧ (F64.le x thr = true ∨ x = .nan ∨ thr = .nan)) := by
  have hnp : panics L (Args.of ids wl thr w llm c) 0 ms = false :=
    panics_false L _ 0 ms (by simp only [Args.of]; omega) hsender
  refine ⟨_, _, _, ClassifySpam_returns L sched ms ids wl thr w llm c hnp hc, ?_, ?_⟩
  · intro n
    rw [mem_spamOf]
    exact scored_iff L ms ids wl thr w llm c hnp hext n true
  · intro n
    rw [mem_notSpamOf, scored_iff L ms ids wl thr w llm c hnp hext n false]
    simp only [F64.gt_false_iff]

/-- C1 (amended) on the batch of `TestClassifySpam`: UIDs 101, 102, 100, 103 with
sequence numbers 10, 20, 30, 40, watermark 100 and threshold 0.5 give the spam set
`{10}` and the not-spam set `{20}`. -/
theorem ClassifySpam_partition_witness :
    ClassifySpam demoLib lastSched (some testMessages) [10, 20, 30, 40] ["whitelist.com"] half 100
        fakeLLM true = .returned {10} {20} 103 none ∧
    ∃ sp ns u, ClassifySpam demoLib lastSched (some testMessages) [10, 20, 30, 40] ["whitelist.com"]
        half 100 fakeLLM true = .returned sp ns u none ∧
      (∀ n, n ∈ sp ↔ ∃ (i : Nat) (msg : Message) (x : F64), testMessages[i]? = some msg ∧
        [10, 20, 30, 40][i]? = some n ∧
        ScoredWith demoLib ["whitelist.com"] 100 fakeLLM msg x ∧ F64.gt x half = true) ∧
      (∀ n, n ∈ ns ↔ ∃ (i : Nat) (msg : Message) (x : F64), testMessages[i]? = some msg ∧
        [10, 20, 30, 40][i]? = some n ∧
        ScoredWith demoLib ["whitelist.com"] 100 fakeLLM msg x ∧
        (F64.le x half = true ∨ x = .nan ∨ half = .nan)) :=
  ⟨by set_option maxRecDepth 100000 in decide,
   ClassifySpam_partition demoLib lastSched testMessages [10, 20, 30, 40] ["whitelist.com"]
     half 100 fakeLLM true rfl (by decide) (by decide) (Or.inl rfl)⟩

/-- C1 as stated fails on a score that is not a number: one message with sequence
number 7 that gets past every skip policy and is scored `NaN` without error lands in
the not-spam set, although no message has a score `<= threshold`. -/
theorem ClassifySpam_partition_nan :
    [7].Nodup ∧ [7].length = oneMessage.length ∧
    (∀ msg ∈ oneMessage, priorScoreOk demoLib msg = true) ∧
    ClassifySpam demoLib firstSched (some oneMessage) [7] [] half 0 nanLLM true =
      .returned ∅ {7} 5 none ∧
    7 ∈ ({7} : SeqSet) ∧
    ¬ ∃ (i : Nat) (msg : Message) (x : F64), oneMessage[i]? = some msg ∧ [7][i]? = some 7 ∧
        ScoredWith demoLib [] 0 nanLLM msg x ∧ F64.le x half = true := by
  refine ⟨by decide, rfl, by decide, by set_option maxRecDepth 100000 in decide,
    by decide, ?_⟩
  rintro ⟨i, msg, x, -, -, ⟨-, email, sender, body, -, -, -, -, -, hx⟩, hle⟩
  have hnan : (ClassifyEmail demoLib nanLLM
      (cleanedMailOf demoLib sender email.GetSubject body)).1 = F64.nan := rfl
  rw [hnan] at hx
  subst hx
  simp [F64.le] at hle

/-- C2 as stated fails when the UIDs do not arrive in ascending order: on UIDs 5 then 3
`ClassifySpam` returns the high-water id 3, and the largest UID seen is 5. -/
theorem ClassifySpam_highWater_descending :
    descendingMessages ≠ [] ∧
    ClassifySpam demoLib firstSched (some descendingMessages) [1, 2] [] half 0 fakeLLM true =
      .returned {1, 2} ∅ 3 none ∧
    maxUid descendingMessages = 5 := by
  refine ⟨by decide, by set_option maxRecDepth 100000 in decide, by decide⟩

/-- C2 (amended). For a non-empty batch whose last message carries the largest UID of
the batch (as when the UIDs arrive in ascending order), the high-water id that
`ClassifySpam` returns is the largest UID over all messages seen, skipped or
classified; and `ClassifySpam` does return when the sequence numbers cover the
messages, `GetSender` panics for no message and the concurrency flag is on or at most 10
goroutines are started. -/
theorem ClassifySpam_highWater_max (L : Lib) (sched : Nat → Nat) (ms : List Message)
    (ids : List Nat) (wl : List String) (thr : F64) (w : Nat) (llm : Model) (c : Bool)
    (hne : ms ≠ []) (hmax : ∀ m ∈ ms, m.Uid ≤ lastUidOf 0 ms) :
    (∀ sp ns u e, ClassifySpam L sched (some ms) ids wl thr w llm c = .returned sp ns u e →
      u = maxUid ms) ∧
    (ms.length ≤ ids.length → (∀ msg ∈ ms, senderOk L msg = true) →
      (c = true ∨ (dispatched L (Args.of ids wl thr w llm c) 0 ms).length ≤ chanCap) →
      ∃ sp ns, ClassifySpam L sched (some ms) ids wl thr w llm c = .returned sp ns (maxUid ms) none) := by
  have hlm := lastUidOf_eq_maxUid ms hne hmax
  constructor
  · intro sp ns u e h
    rw [(ClassifySpam_returned L sched ms ids wl thr w llm c sp ns u e h).2.2.1, hlm]
  · intro hlen hsender hc
    have hnp : panics L (Args.of ids wl thr w llm c) 0 ms = false :=
      panics_false L _ 0 ms (by simpa [Args.of] using hlen) hsender
    exact ⟨_, _, hlm ▸ ClassifySpam_returns L sched ms ids wl thr w llm c hnp hc⟩

/-- C2 (amended) on the batch of `TestClassifySpam`, whose last UID, 103, is the largest. -/
theorem ClassifySpam_highWater_max_witness :
    testMessages ≠ [] ∧ (∀ m ∈ testMessages, m.Uid ≤ lastUidOf 0 testMessages) ∧
    maxUid testMessages = 103 ∧
    ((∀ sp ns u e, ClassifySpam demoLib firstSched (some testMessages) [10, 20, 30, 40]
        ["whitelist.com"] half 100 fakeLLM false = .returned sp ns u e →
      u = maxUid testMessages) ∧
    (testMessages.length ≤ [10, 20, 30, 40].length →
      (∀ msg ∈ testMessages, senderOk demoLib msg = true) →
      (false = true ∨ (dispatched demoLib (Args.of [10, 20, 30, 40] ["whitelist.com"] half 100
        fakeLLM false) 0 testMessages).length ≤ chanCap) →
      ∃ sp ns, ClassifySpam demoLib firstSched (some testMessages) [10, 20, 30, 40]
        ["whitelist.com"] half 100 fakeLLM false = .returned sp ns (maxUid testMessages) none)) :=
  ⟨by decide, by decide, by decide,
   ClassifySpam_highWater_max demoLib firstSched testMessages [10, 20, 30, 40]
     ["whitelist.com"] half 100 fakeLLM false (by decide) (by decide)⟩

theorem RunRule_returned (L : Lib) (sched : Nat → Nat) (ms : List Message) (ids : List Nat)
    (lp : LastProcessed) (config : Rule) (domains : List String) (llm : Model) (c : Bool)
    (err : Option String) (lp' : LastProcessed) (persisted : Option LastProcessed)
    (moved : Option SeqSet)
    (h : RunRule L sched (some ms) ids lp config domains llm c = .returned err lp' persisted moved) :
    err = none ∧
    (0 < lastUidOf 0 ms →
      lp' = { lp with LastProcessedID := lastUidOf 0 ms } ∧ persisted = some lp') ∧
    (lastUidOf 0 ms = 0 → lp' = lp ∧ persisted = none) := by
  unfold RunRule at h
  cases hcs : ClassifySpam L sched (some ms) ids domains config.Threshold lp.LastProcessedID llm c with
  | panicked => rw [hcs] at h; simp at h
  | blocked => rw [hcs] at h; simp at h
  | returned sp ns u e =>
    rw [hcs] at h
    obtain ⟨-, -, hu, he, -⟩ := ClassifySpam_returned L sched ms ids domains config.Threshold
      lp.LastProcessedID llm c sp ns u e hcs
    subst he hu
    dsimp only at h
    by_cases hpos : 0 < lastUidOf 0 ms
    · rw [if_pos hpos] at h
      simp only [RunOutcome.returned.injEq] at h
      obtain ⟨h1, h2, h3, -⟩ := h
      refine ⟨h1.symm, fun _ => ⟨h2.symm, ?_⟩, fun h0 => by omega⟩
      rw [← h3, h2]
    · rw [if_neg hpos] at h
      simp only [RunOutcome.returned.injEq] at h
      obtain ⟨h1, h2, h3, -⟩ := h
      exact ⟨h1.symm, fun hp => absurd hp hpos, fun _ => ⟨h2.symm, h3.symm⟩⟩

/-- On the nil channel that `FetchUnreadEmails` returns for a mailbox without unread
messages, `RunRule` never returns: it blocks in `ClassifySpam`. -/
theorem RunRule_nil_channel (L : Lib) (sched : Nat → Nat) (ids : List Nat)
    (lp : LastProcessed) (config : Rule) (domains : List String) (llm : Model) (c : Bool) :
    RunRule L sched none ids lp config domains llm c = .blocked := rfl

/-- C3 as stated fails: with the loaded watermark 100 and a batch whose only message
has UID 50, `ClassifySpam` returns the high-water id 50, and `RunRule` stores and
persists 50, which is below 100. -/
theorem RunRule_watermark_decreases :
    ClassifySpam demoLib firstSched (some oldMessages) [1] [] half 100 fakeLLM true =
      .returned ∅ ∅ 50 none ∧
    RunRule demoLib firstSched (some oldMessages) [1] ⟨100, "uid.json"⟩ demoRule [] fakeLLM true =
      .returned none ⟨50, "uid.json"⟩ (some ⟨50, "uid.json"⟩) none ∧
    ¬ (100 ≤ 50) := by
  refine ⟨by set_option maxRecDepth 100000 in decide,
    by set_option maxRecDepth 100000 in decide, by decide⟩

/-- C3 (amended). `RunRule` stores and persists the UID of the last message of the
batch when that UID is above 0, and otherwise leaves the loaded watermark as it is
and persists nothing. So when the batch is empty or its last message has a UID that
is not below the loaded watermark `w`, the `LastProcessedID` that `RunRule` holds
afterwards, and the one it persists, are `>= w`. -/
theorem RunRule_watermark (L : Lib) (sched : Nat → Nat) (ms : List Message) (ids : List Nat)
    (lp : LastProcessed) (config : Rule) (domains : List String) (llm : Model) (c : Bool)
    (err : Option String) (lp' : LastProcessed) (persisted : Option LastProcessed)
    (moved : Option SeqSet)
    (hlast : ms = [] ∨ lp.LastProcessedID ≤ lastUidOf 0 ms)
    (h : RunRule L sched (some ms) ids lp config domains llm c = .returned err lp' persisted moved) :
    lp'.LastProcessedID = (if 0 < lastUidOf 0 ms then lastUidOf 0 ms else lp.LastProcessedID) ∧
    (persisted = if 0 < lastUidOf 0 ms then some lp' else none) ∧
    lp.LastProcessedID ≤ lp'.LastProcessedID ∧
    (∀ p, persisted = some p → lp.LastProcessedID ≤ p.LastProcessedID) := by
  obtain ⟨-, h1, h2⟩ := RunRule_returned L sched ms ids lp config domains llm c err lp'
    persisted moved h
  by_cases hpos : 0 < lastUidOf 0 ms
  · obtain ⟨e1, e2⟩ := h1 hpos
    have hw : lp.LastProcessedID ≤ lastUidOf 0 ms := by
      rcases hlast with hnil | hle
      · subst hnil
        simp [lastUidOf] at hpos
      · exact hle
    have e3 : lp'.LastProcessedID = lastUidOf 0 ms := by rw [e1]
    refine ⟨by rw [if_pos hpos, e3], by rw [if_pos hpos, e2], by omega, ?_⟩
    intro p hp
    rw [e2] at hp
    have : lp' = p := by simpa using hp
    subst this
    omega
  · obtain ⟨e1, e2⟩ := h2 (by omega)
    refine ⟨by rw [if_neg hpos, e1], by rw [if_neg hpos, e2], by rw [e1], ?_⟩
    intro p hp
    rw [e2] at hp
    simp at hp

/-- C3 (amended) on the batch of `TestClassifySpam` with the loaded watermark 100:
the last UID is 103, and 103 is stored and persisted. -/
theorem RunRule_watermark_witness :
    (testMessages = [] ∨ (100 : Nat) ≤ lastUidOf 0 testMessages) ∧
    RunRule demoLib firstSched (some testMessages) [10, 20, 30, 40] ⟨100, "uid.json"⟩ demoRule
      ["whitelist.com"] fakeLLM true =
      .returned none ⟨103, "uid.json"⟩ (some ⟨103, "uid.json"⟩) (some {10}) ∧
    (100 : Nat) ≤ 103 :=
  have h : RunRule demoLib firstSched (some testMessages) [10, 20, 30, 40] ⟨100, "uid.json"⟩ demoRule
      ["whitelist.com"] fakeLLM true =
      .returned none ⟨103, "uid.json"⟩ (some ⟨103, "uid.json"⟩) (some {10}) := by
    set_option maxRecDepth 100000 in decide
  ⟨Or.inr (by decide), h,
   (RunRule_watermark demoLib firstSched testMessages [10, 20, 30, 40] ⟨100, "uid.json"⟩
     demoRule ["whitelist.com"] fakeLLM true none ⟨103, "uid.json"⟩ (some ⟨103, "uid.json"⟩)
     (some {10}) (Or.inr (by decide)) h).2.2.1⟩

/-- C4. Whenever `ClassifySpam` returns on a channel that delivers a batch ending with
the message `m`, the high-water id is the UID of `m`, whatever happens to `m` in the
loop (skipped as old, unparseable, allow-listed or unsanitizable, or classified);
whenever it returns on a channel that delivers no message, the id is 0. It does return
on a batch when the channel is closed after it, the sequence numbers cover the
messages, `GetSender` panics for no message and the concurrency flag is on or at most
10 goroutines are started; in particular it returns 0 on a channel closed without a
message. On the nil channel the call never returns, so it returns no id. -/
theorem ClassifySpam_highWater_last (L : Lib) (sched : Nat → Nat) (pre : List Message)
    (m : Message) (ids : List Nat) (wl : List String) (thr : F64) (w : Nat) (llm : Model)
    (c : Bool) :
    (∀ sp ns u e, ClassifySpam L sched (some (pre ++ [m])) ids wl thr w llm c = .returned sp ns u e →
      u = m.Uid) ∧
    (∀ messages sp ns u e, messages = none ∨ messages = some [] →
      ClassifySpam L sched messages ids wl thr w llm c = .returned sp ns u e → u = 0) ∧
    ((pre ++ [m]).length ≤ ids.length → (∀ msg ∈ pre ++ [m], senderOk L msg = true) →
      (c = true ∨ (dispatched L (Args.of ids wl thr w llm c) 0 (pre ++ [m])).length ≤ chanCap) →
      ∃ sp ns, ClassifySpam L sched (some (pre ++ [m])) ids wl thr w llm c =
        .returned sp ns m.Uid none) ∧
    ClassifySpam L sched (some []) ids wl thr w llm c = .returned ∅ ∅ 0 none ∧
    ClassifySpam L sched none ids wl thr w llm c = .blocked := by
  have hempty : ClassifySpam L sched (some []) ids wl thr w llm c = .returned ∅ ∅ 0 none := by
    have := ClassifySpam_returns L sched [] ids wl thr w llm c rfl
      (Or.inr (by simp [dispatched]))
    simpa [dispatched, spamOf, notSpamOf, lastUidOf] using this
  refine ⟨?_, ?_, ?_, hempty, rfl⟩
  · intro sp ns u e h
    rw [(ClassifySpam_returned L sched _ ids wl thr w llm c sp ns u e h).2.2.1,
      lastUidOf_append]
  · intro messages sp ns u e hm h
    rcases hm with hm | hm
    · subst hm
      simp [ClassifySpam] at h
    · subst hm
      rw [hempty] at h
      simp only [Outcome.returned.injEq] at h
      exact h.2.2.1.symm
  · intro hlen hsender hc
    have hnp : panics L (Args.of ids wl thr w llm c) 0 (pre ++ [m]) = false :=
      panics_false L _ 0 _ (by simpa [Args.of] using hlen) hsender
    have := ClassifySpam_returns L sched _ ids wl thr w llm c hnp hc
    rw [lastUidOf_append] at this
    exact ⟨_, _, this⟩

/-- C4 on concrete batches: the last message is allow-listed (UID 103), old (UID 50
under the watermark 100), unparseable (UID 7) or unsanitizable (UID 8), and its UID is
returned all the same. -/
theorem ClassifySpam_highWater_last_witness :
    ClassifySpam demoLib firstSched (some testMessages) [10, 20, 30, 40] ["whitelist.com"] half 100
        fakeLLM false = .returned {10} {20} 103 none ∧
    ClassifySpam demoLib lastSched (some (spamAndHam ++ oldMessages)) [1, 2, 3] [] half 100
        fakeLLM true = .returned {1} {2} 50 none ∧
    ((NewEmail demoLib noBodyMessage).toOption = none ∧
      ClassifySpam demoLib firstSched (some [noBodyMessage]) [1] [] half 0 fakeLLM true =
        .returned ∅ ∅ 7 none) ∧
    ((NewEmail demoLib noTypeMessage).toOption.map
        (fun email => (CleanEmailBody demoLib email).toOption) = some none ∧
      ClassifySpam demoLib firstSched (some [noTypeMessage]) [1] [] half 0 fakeLLM true =
        .returned ∅ ∅ 8 none) ∧
    (∀ sp ns u e, ClassifySpam demoLib lastSched (some (spamAndHam ++ oldMessages)) [1, 2, 3] []
        half 100 fakeLLM true = .returned sp ns u e → u = 50) ∧
    (∃ sp ns, ClassifySpam demoLib lastSched (some (spamAndHam ++ oldMessages)) [1, 2, 3] []
        half 100 fakeLLM true = .returned sp ns 50 none) :=
  ⟨by set_option maxRecDepth 100000 in decide, by set_option maxRecDepth 100000 in decide,
   ⟨rfl, by set_option maxRecDepth 100000 in decide⟩,
   ⟨by set_option maxRecDepth 100000 in decide, by set_option maxRecDepth 100000 in decide⟩,
   (ClassifySpam_highWater_last demoLib lastSched spamAndHam (demoMessage 50 "a@b.c" "x")
     [1, 2, 3] [] half 100 fakeLLM true).1,
   (ClassifySpam_highWater_last demoLib lastSched spamAndHam (demoMessage 50 "a@b.c" "x")
     [1, 2, 3] [] half 100 fakeLLM true).2.2.1 (by decide) (by decide) (Or.inl rfl)⟩

theorem nodup_getElem?_inj {α : Type} (l : List α) (hnd : l.Nodup) (i j : Nat) (x : α)
    (hi : l[i]? = some x) (hj : l[j]? = some x) : i = j := by
  have hjl : j < l.length := (List.getElem?_eq_some.1 hj).1
  have hil : i < l.length := (List.getElem?_eq_some.1 hi).1
  by_contra hne
  rcases Nat.lt_or_gt_of_ne hne with h | h
  · exact (List.nodup_iff_getElem?_ne_getElem?.1 hnd) i j h hjl (hi.trans hj.symm)
  · exact (List.nodup_iff_getElem?_ne_getElem?.1 hnd) j i h hil (hj.trans hi.symm)

theorem dispatched_ids_nodup (L : Lib) (a : Args) (ms : List Message) (hnd : a.ids.Nodup) :
    ((dispatched L a 0 ms).map llmResult.id).Nodup :=
  (dispatched_ids_sublist L a 0 ms).nodup (by simpa using hnd)

/-- A sequence number whose message starts no goroutine reaches neither set, when the
sequence numbers are pairwise distinct. -/
theorem skipped_not_dispatched (L : Lib) (a : Args) (ms : List Message)
    (hnp : panics L a 0 ms = false) (hnd : a.ids.Nodup) (i : Nat) (msg : Message) (n : Nat)
    (hi : ms[i]? = some msg) (hn : a.ids[i]? = some n)
    (hskip : ∀ r, loopBody L a i msg ≠ some (some r)) :
    ∀ r ∈ dispatched L a 0 ms, r.id ≠ n := by
  intro r hr hid
  obtain ⟨j, msg', hj, hb⟩ := (mem_dispatched L a 0 ms r hnp).1 hr
  rw [Nat.zero_add] at hb
  obtain ⟨id, _, _, _, _, h1, _, _, _, _, _, _, h8⟩ := (loopBody_some_iff L a j msg' r).1 hb
  have hrid : r.id = id := by rw [h8]; rfl
  rw [hrid] at hid
  subst hid
  have hij := nodup_getElem?_inj a.ids hnd i j id hn h1
  subst hij
  rw [hi] at hj
  have : msg = msg' := by simpa using hj
  subst this
  exact hskip r hb

/-- C5 as stated fails when a sequence number is repeated: with the sequence numbers
`[7, 7]`, a message scored 10 and a message scored 0 put 7 in both sets. -/
theorem ClassifySpam_sets_overlap :
    ClassifySpam demoLib firstSched (some spamAndHam) [7, 7] [] half 100 fakeLLM true =
      .returned {7} {7} 102 none ∧
    (7 ∈ ({7} : SeqSet) ∧ 7 ∈ ({7} : SeqSet)) := by
  refine ⟨by set_option maxRecDepth 100000 in decide, by decide⟩

/-- C5 (amended). For every batch with pairwise-distinct sequence numbers, no sequence
number is in both the spam set and the not-spam set that `ClassifySpam` returns. -/
theorem ClassifySpam_sets_disjoint (L : Lib) (sched : Nat → Nat) (ms : List Message)
    (ids : List Nat) (wl : List String) (thr : F64) (w : Nat) (llm : Model) (c : Bool)
    (sp ns : SeqSet) (u : Nat) (e : Option String) (hnd : ids.Nodup)
    (h : ClassifySpam L sched (some ms) ids wl thr w llm c = .returned sp ns u e) (n : Nat) :
    ¬ (n ∈ sp ∧ n ∈ ns) := by
  obtain ⟨h1, h2, -, -, -⟩ := ClassifySpam_returned L sched ms ids wl thr w llm c sp ns u e h
  subst h1 h2
  rintro ⟨hs, hn⟩
  obtain ⟨r, hr, -, hg, hid⟩ := (mem_spamOf _ _ _).1 hs
  obtain ⟨r', hr', -, hg', hid'⟩ := (mem_notSpamOf _ _ _).1 hn
  have hinj := List.inj_on_of_nodup_map
    (dispatched_ids_nodup L (Args.of ids wl thr w llm c) ms (by simpa [Args.of] using hnd))
  have : r = r' := hinj hr hr' (hid.trans hid'.symm)
  subst this
  rw [hg] at hg'
  simp at hg'

/-- C5 (amended) on the batch of `TestClassifySpam`, whose sequence numbers are
distinct: 10 is in the spam set only. -/
theorem ClassifySpam_sets_disjoint_witness :
    [10, 20, 30, 40].Nodup ∧
    ClassifySpam demoLib firstSched (some testMessages) [10, 20, 30, 40] ["whitelist.com"] half 100
        fakeLLM true = .returned {10} {20} 103 none ∧
    ¬ (10 ∈ ({10} : SeqSet) ∧ 10 ∈ ({20} : SeqSet)) :=
  have h : ClassifySpam demoLib firstSched (some testMessages) [10, 20, 30, 40] ["whitelist.com"]
      half 100 fakeLLM true = .returned {10} {20} 103 none := by
    set_option maxRecDepth 100000 in decide
  ⟨by decide, h,
   ClassifySpam_sets_disjoint demoLib firstSched testMessages [10, 20, 30, 40]
     ["whitelist.com"] half 100 fakeLLM true {10} {20} 103 none (by decide) h 10⟩

theorem excluded_of_skipped (L : Lib) (sched : Nat → Nat) (ms : List Message)
    (ids : List Nat) (wl : List String) (thr : F64) (w : Nat) (llm : Model) (c : Bool)
    (sp ns : SeqSet) (u : Nat) (e : Option String) (hnd : ids.Nodup)
    (i : Nat) (msg : Message) (n : Nat) (hi : ms[i]? = some msg) (hn : ids[i]? = some n)
    (hskip : ∀ r, loopBody L (Args.of ids wl thr w llm c) i msg ≠ some (some r))
    (h : ClassifySpam L sched (some ms) ids wl thr w llm c = .returned sp ns u e) :
    n ∉ sp ∧ n ∉ ns := by
  obtain ⟨h1, h2, -, -, -⟩ := ClassifySpam_returned L sched ms ids wl thr w llm c sp ns u e h
  have hnp := ClassifySpam_returned_nopanic L sched ms ids wl thr w llm c sp ns u e h
  subst h1 h2
  have hno := skipped_not_dispatched L (Args.of ids wl thr w llm c) ms
    hnp (by simpa [Args.of] using hnd) i msg n hi
    (by simpa [Args.of] using hn) hskip
  constructor
  · intro hs
    obtain ⟨r, hr, -, -, hid⟩ := (mem_spamOf _ _ _).1 hs
    exact hno r hr hid
  · intro hs
    obtain ⟨r, hr, -, -, hid⟩ := (mem_notSpamOf _ _ _).1 hs
    exact hno r hr hid

/-- C6. For every batch with pairwise-distinct sequence numbers and every message `i`
whose UID is `<=` the input watermark (equality included), `ids[i]` is in neither the
spam set nor the not-spam set that `ClassifySpam` returns, whatever the scorer is. -/
theorem ClassifySpam_old_excluded (L : Lib) (sched : Nat → Nat) (ms : List Message)
    (ids : List Nat) (wl : List String) (thr : F64) (w : Nat) (llm : Model) (c : Bool)
    (sp ns : SeqSet) (u : Nat) (e : Option String) (hnd : ids.Nodup)
    (i : Nat) (msg : Message) (n : Nat) (hi : ms[i]? = some msg) (hn : ids[i]? = some n)
    (hold : msg.Uid ≤ w)
    (h : ClassifySpam L sched (some ms) ids wl thr w llm c = .returned sp ns u e) :
    n ∉ sp ∧ n ∉ ns := by
  apply excluded_of_skipped L sched ms ids wl thr w llm c sp ns u e hnd i msg n hi hn _ h
  intro r hr
  obtain ⟨_, _, _, _, _, _, h2, _⟩ := (loopBody_some_iff L _ i msg r).1 hr
  simp only [Args.of] at h2
  omega

/-- C6 on the batch of `TestClassifySpam`: the third message has UID 100, equal to the
watermark, and its sequence number 30 is in neither set. -/
theorem ClassifySpam_old_excluded_witness :
    [10, 20, 30, 40].Nodup ∧ testMessages[2]? = some (demoMessage 100 "user@notwhitelisted.com"
      "Old Email") ∧ (demoMessage 100 "user@notwhitelisted.com" "Old Email").Uid ≤ 100 ∧
    ClassifySpam demoLib lastSched (some testMessages) [10, 20, 30, 40] ["whitelist.com"] half 100
        fakeLLM false = .returned {10} {20} 103 none ∧
    (30 ∉ ({10} : SeqSet) ∧ 30 ∉ ({20} : SeqSet)) :=
  have h : ClassifySpam demoLib lastSched (some testMessages) [10, 20, 30, 40] ["whitelist.com"]
      half 100 fakeLLM false = .returned {10} {20} 103 none := by
    set_option maxRecDepth 100000 in decide
  ⟨by decide, rfl, by decide, h,
   ClassifySpam_old_excluded demoLib lastSched testMessages [10, 20, 30, 40]
     ["whitelist.com"] half 100 fakeLLM false {10} {20} 103 none (by decide) 2
     (demoMessage 100 "user@notwhitelisted.com" "Old Email") 30 rfl rfl (by decide) h⟩

/-- C7 as stated fails: a message whose `X-Spam-Status` header reads `hits=1.2.3` (the
pattern matches, the capture is no float) gets past every other skip policy and would
be scored 10 without error, yet it is skipped: its sequence number 7 is in neither set. -/
theorem ClassifySpam_extraction_failure_drops :
    (NewEmail demoLib hitsMessage).toOption.map
        (fun email => email.GetHeader "X-Spam-Status") = some "No, hits=1.2.3 required=5.0" ∧
    findHits "No, hits=1.2.3 required=5.0".data = some "1.2.3".data ∧
    (demoLib.ParseFloat "1.2.3").toOption = none ∧
    priorScoreOk demoLib hitsMessage = false ∧
    ScoredWith demoLib [] 0 fakeLLM hitsMessage (.fin 10 0) ∧
    ClassifySpam demoLib firstSched (some [hitsMessage]) [7] [] half 0 fakeLLM true =
      .returned ∅ ∅ 9 none ∧
    (7 ∉ (∅ : SeqSet) ∧ 7 ∉ (∅ : SeqSet)) := by
  refine ⟨by decide, by decide, by decide, by decide, ?_,
    by set_option maxRecDepth 100000 in decide, by decide⟩
  set_option maxRecDepth 100000 in
  exact ⟨by decide, _, _, _, rfl, rfl, rfl, rfl, rfl, rfl⟩

/-- C7 (amended). If prior-score extraction fails for a message, that is, its
`X-Spam-Status` header matches the pattern `hits=...` and the capture is refused by
`strconv.ParseFloat`, the pipeline does not dispatch the message: with pairwise-distinct
sequence numbers, its sequence number is in neither the spam set nor the not-spam set
that `ClassifySpam` returns. -/
theorem ClassifySpam_extraction_failure_skips (L : Lib) (sched : Nat → Nat)
    (ms : List Message) (ids : List Nat) (wl : List String) (thr : F64) (w : Nat)
    (llm : Model) (c : Bool) (sp ns : SeqSet) (u : Nat) (e : Option String)
    (hnd : ids.Nodup) (i : Nat) (msg : Message) (n : Nat) (hi : ms[i]? = some msg)
    (hn : ids[i]? = some n) (email : Email) (capture : List Char) (e' : String)
    (hemail : NewEmail L msg = .ok email)
    (hmatch : findHits (email.GetHeader "X-Spam-Status").data = some capture)
    (hfloat : L.ParseFloat (String.mk capture) = .error e')
    (h : ClassifySpam L sched (some ms) ids wl thr w llm c = .returned sp ns u e) :
    ExtractSpamStatus L email = .error ("error parsing float: " ++ e') ∧ n ∉ sp ∧ n ∉ ns := by
  have hx : ExtractSpamStatus L email = .error ("error parsing float: " ++ e') := by
    simp [ExtractSpamStatus, hmatch, hfloat]
  refine ⟨hx, ?_⟩
  apply excluded_of_skipped L sched ms ids wl thr w llm c sp ns u e hnd i msg n hi hn _ h
  intro r hr
  obtain ⟨_, email', _, _, _, _, _, h3, _, _, h6, _⟩ := (loopBody_some_iff L _ i msg r).1 hr
  rw [hemail] at h3
  have : email = email' := by simpa using h3
  subst this
  rw [hx] at h6
  simp at h6

/-- C7 (amended) on the message whose header reads `hits=1.2.3`: extraction fails and
the sequence number 7 is in neither set. -/
theorem ClassifySpam_extraction_failure_skips_witness :
    [7].Nodup ∧ NewEmail demoLib hitsMessage = .ok hitsEmail ∧
    findHits (hitsEmail.GetHeader "X-Spam-Status").data = some "1.2.3".data ∧
    demoLib.ParseFloat (String.mk "1.2.3".data) = .error "invalid syntax" ∧
    ClassifySpam demoLib firstSched (some [hitsMessage]) [7] [] half 0 fakeLLM true =
      .returned ∅ ∅ 9 none ∧
    (ExtractSpamStatus demoLib hitsEmail = .error ("error parsing float: " ++ "invalid syntax") ∧
      7 ∉ (∅ : SeqSet) ∧ 7 ∉ (∅ : SeqSet)) :=
  have h : ClassifySpam demoLib firstSched (some [hitsMessage]) [7] [] half 0 fakeLLM true =
      .returned ∅ ∅ 9 none := by
    set_option maxRecDepth 100000 in decide
  have h1 : NewEmail demoLib hitsMessage = .ok hitsEmail := by
    set_option maxRecDepth 100000 in rfl
  have h2 : findHits (hitsEmail.GetHeader "X-Spam-Status").data = some "1.2.3".data := by
    decide
  have h3 : demoLib.ParseFloat (String.mk "1.2.3".data) = .error "invalid syntax" := rfl
  ⟨by decide, h1, h2, h3, h,
   ClassifySpam_extraction_failure_skips demoLib firstSched [hitsMessage] [7] [] half 0
     fakeLLM true ∅ ∅ 9 none (by decide) 0 hitsMessage 7 rfl rfl hitsEmail "1.2.3".data
     "invalid syntax" h1 h2 h3 h⟩

theorem ClassifySpam_not_panicked (L : Lib) (sched : Nat → Nat) (ms : List Message)
    (ids : List Nat) (wl : List String) (thr : F64) (w : Nat) (llm : Model) (c : Bool)
    (hlen : ms.length ≤ ids.length) (hsender : ∀ msg ∈ ms, senderOk L msg = true) :
    ClassifySpam L sched (some ms) ids wl thr w llm c ≠ .panicked := by
  obtain ⟨s, hinv, -, heq⟩ := ClassifySpam_pc L sched ms ids wl thr w llm c
  rw [heq]
  cases hpc : s.pc with
  | panicked =>
    have hnp : panics L (Args.of ids wl thr w llm c) 0 ms = false :=
      panics_false L _ 0 ms (by simpa [Args.of] using hlen) hsender
    have := hinv.pan
    rw [hpc, hnp] at this
    simp at this
  | done => simp
  | loop => simp
  | wait => simp
  | merge => simp

/-- What holds of the failure handling of `ClassifySpam` when the sequence numbers
cover the messages and `GetSender` panics for no message: no panic, a nil error
whenever it returns, and a return whenever the concurrency flag is on or at most 10
goroutines are started. -/
theorem ClassifySpam_isolates_failures (L : Lib) (sched : Nat → Nat) (ms : List Message)
    (ids : List Nat) (wl : List String) (thr : F64) (w : Nat) (llm : Model) (c : Bool)
    (hlen : ms.length ≤ ids.length) (hsender : ∀ msg ∈ ms, senderOk L msg = true) :
    ClassifySpam L sched (some ms) ids wl thr w llm c ≠ .panicked ∧
    (∀ sp ns u e, ClassifySpam L sched (some ms) ids wl thr w llm c = .returned sp ns u e →
      e = none) ∧
    ((c = true ∨ (dispatched L (Args.of ids wl thr w llm c) 0 ms).length ≤ chanCap) →
      ∃ sp ns u, ClassifySpam L sched (some ms) ids wl thr w llm c = .returned sp ns u none) :=
  ⟨ClassifySpam_not_panicked L sched ms ids wl thr w llm c hlen hsender,
   fun sp ns u e h => (ClassifySpam_returned L sched ms ids wl thr w llm c sp ns u e h).2.2.2.1,
   fun hc => ⟨_, _, _, ClassifySpam_returns L sched ms ids wl thr w llm c
     (panics_false L _ 0 ms (by simpa [Args.of] using hlen) hsender) hc⟩⟩

/-- C8 at a failing input. With the concurrency flag off, eleven messages covered by
eleven sequence numbers, each of which gets past the skip policies and then fails
scoring: under every scheduler the call never returns, so it returns no nil error. -/
theorem ClassifySpam_failures_block :
    elevenMessages.length ≤ elevenIds.length ∧
    (∀ r ∈ dispatched demoLib (Args.of elevenIds [] half 0 failLLM false) 0 elevenMessages,
      r.err = some "model unavailable") ∧
    ∀ sched, ClassifySpam demoLib sched (some elevenMessages) elevenIds [] half 0 failLLM false =
      .blocked := by
  refine ⟨by decide, by set_option maxRecDepth 100000 in decide, fun sched => ?_⟩
  exact ClassifySpam_blocked demoLib sched elevenMessages elevenIds [] half 0 failLLM
    (by set_option maxRecDepth 100000 in decide)

/-- C9 fails on the code. With the concurrency flag off, sequence numbers that cover
the messages and more started goroutines than the capacity 10 of the result channel,
the call never returns, under every scheduler: the eleventh goroutine cannot send, and
the loop waits for it. -/
theorem ClassifySpam_sequential_blocks (L : Lib) (sched : Nat → Nat) (ms : List Message)
    (ids : List Nat) (wl : List String) (thr : F64) (w : Nat) (llm : Model)
    (hlen : ms.length ≤ ids.length)
    (hbig : chanCap < (dispatched L (Args.of ids wl thr w llm false) 0 ms).length) :
    ClassifySpam L sched (some ms) ids wl thr w llm false = .blocked := by
  have _ := hlen
  exact ClassifySpam_blocked L sched ms ids wl thr w llm hbig

/-- C9 at a failing input: eleven messages that all get past the skip policies, a
scorer that always returns, the concurrency flag off. -/
theorem ClassifySpam_sequential_blocks_witness :
    elevenMessages.length ≤ elevenIds.length ∧
    chanCap < (dispatched demoLib (Args.of elevenIds [] half 0 fakeLLM false) 0
      elevenMessages).length ∧
    ClassifySpam demoLib firstSched (some elevenMessages) elevenIds [] half 0 fakeLLM false =
      .blocked :=
  ⟨by decide, by set_option maxRecDepth 100000 in decide,
   ClassifySpam_sequential_blocks demoLib firstSched elevenMessages elevenIds [] half 0
     fakeLLM (by decide) (by set_option maxRecDepth 100000 in decide)⟩

theorem isWhitelistedLoop_eq_any (L : Lib) (email domain : String) (l : List String) :
    isWhitelistedLoop L email domain l = l.any (entryMatches L email domain) := by
  induction l with
  | nil => rfl
  | cons a rest ih =>
    simp only [isWhitelistedLoop, List.any_cons, entryMatches, ih]
    cases L.EqualFold email a <;> cases Contains a "@" <;> cases HasPrefix a "*." <;>
      cases HasSuffix domain ("." ++ TrimPrefix a "*.") <;> cases L.EqualFold domain a <;> simp

theorem IsWhitelistedEmail_iff (L : Lib) (email : String) (l : List String) :
    IsWhitelistedEmail L email l = true ↔ ∃ a ∈ l, IsWhitelistedEmail L email [a] = true := by
  unfold IsWhitelistedEmail
  split
  · simp only [isWhitelistedLoop_eq_any, List.any_eq_true, List.any_cons, List.any_nil,
      Bool.or_false]
  · simp

/-- C13. The order of the allow-list entries does not affect the outcome: two lists that
are permutations of each other give the same result for every email, and the result is
true exactly when some single entry matches the email on its own. -/
theorem IsWhitelistedEmail_perm (L : Lib) (email : String) (l₁ l₂ : List String)
    (h : l₁.Perm l₂) :
    IsWhitelistedEmail L email l₁ = IsWhitelistedEmail L email l₂ ∧
    (IsWhitelistedEmail L email l₁ = true ↔
      ∃ a ∈ l₁, IsWhitelistedEmail L email [a] = true) := by
  refine ⟨?_, IsWhitelistedEmail_iff L email l₁⟩
  rw [Bool.eq_iff_iff, IsWhitelistedEmail_iff, IsWhitelistedEmail_iff]
  constructor
  · rintro ⟨a, ha, hm⟩
    exact ⟨a, h.mem_iff.1 ha, hm⟩
  · rintro ⟨a, ha, hm⟩
    exact ⟨a, h.mem_iff.2 ha, hm⟩

/-- C13 on the lists of `TestIsWhitelistedEmail`, in both orders. -/
theorem IsWhitelistedEmail_perm_witness :
    ["gmail.com", "yahoo.com"].Perm ["yahoo.com", "gmail.com"] ∧
    IsWhitelistedEmail demoLib "user@yahoo.com" ["gmail.com", "yahoo.com"] = true ∧
    (IsWhitelistedEmail demoLib "user@yahoo.com" ["gmail.com", "yahoo.com"] =
        IsWhitelistedEmail demoLib "user@yahoo.com" ["yahoo.com", "gmail.com"] ∧
      (IsWhitelistedEmail demoLib "user@yahoo.com" ["gmail.com", "yahoo.com"] = true ↔
        ∃ a ∈ ["gmail.com", "yahoo.com"],
          IsWhitelistedEmail demoLib "user@yahoo.com" [a] = true)) :=
  ⟨List.Perm.swap _ _ _, by decide,
   IsWhitelistedEmail_perm demoLib "user@yahoo.com" ["gmail.com", "yahoo.com"]
     ["yahoo.com", "gmail.com"] (List.Perm.swap _ _ _)⟩

theorem splitChars_no_sep (sep : Char) (l : List Char) (h : sep ∉ l) :
    splitChars sep l = [l] := by
  induction l with
  | nil => rfl
  | cons c cs ih =>
    simp only [List.mem_cons, not_or] at h
    have hne : ¬ c = sep := fun e => h.1 e.symm
    simp [splitChars, hne, ih h.2]

theorem splitChars_one_sep (sep : Char) (u d : List Char) (hu : sep ∉ u) (hd : sep ∉ d) :
    splitChars sep (u ++ sep :: d) = [u, d] := by
  induction u with
  | nil => simp [splitChars, splitChars_no_sep sep d hd]
  | cons c cs ih =>
    simp only [List.mem_cons, not_or] at hu
    have hne : ¬ c = sep := fun e => hu.1 e.symm
    simp [splitChars, hne, ih hu.2]

theorem Split_address (email u d : String) (he : email.data = u.data ++ '@' :: d.data)
    (hu : '@' ∉ u.data) (hd : '@' ∉ d.data) : Split email '@' = [u, d] := by
  simp [Split, he, splitChars_one_sep '@' u.data d.data hu hd]

theorem contains_at (s : String) : Contains s "@" = true ↔ '@' ∈ s.data := by
  unfold Contains
  have hd : "@".data = ['@'] := rfl
  rw [hd]
  generalize s.data = l
  induction l with
  | nil => simp [List.tails, List.isPrefixOf]
  | cons c cs ih =>
    rw [List.tails, List.any_cons, Bool.or_eq_true, List.mem_cons]
    have hp : List.isPrefixOf ['@'] (c :: cs) = true ↔ '@' = c := by
      simp [List.isPrefixOf]
    constructor
    · rintro (h | h)
      · exact Or.inl (hp.1 h)
      · exact Or.inr (ih.1 h)
    · rintro (h | h)
      · exact Or.inl (hp.2 h)
      · exact Or.inr (ih.2 h)

theorem IsWhitelistedEmail_address (L : Lib) (email u d : String) (allowed : List String)
    (he : email.data = u.data ++ '@' :: d.data) (hu : '@' ∉ u.data) (hd : '@' ∉ d.data) :
    IsWhitelistedEmail L email allowed = allowed.any (entryMatches L email d) := by
  unfold IsWhitelistedEmail
  rw [Split_address email u d he hu hd]
  exact isWhitelistedLoop_eq_any L email d allowed

theorem demoLib_foldKeepsAt : FoldKeepsAt demoLib := by
  have hlow : ∀ c : Char, Char.toLower c = '@' ↔ c = '@' := by
    intro c
    constructor
    · intro h
      unfold Char.toLower at h
      dsimp only at h
      split at h
      · rename_i hr
        exfalso
        have h1 : 65 ≤ c.toNat := hr.1
        have h2 : c.toNat ≤ 90 := hr.2
        generalize c.toNat = n at h h1 h2
        interval_cases n <;> exact absurd h (by decide)
      · exact h
    · rintro rfl
      rfl
  have hmem : ∀ l : List Char, '@' ∈ l.map Char.toLower ↔ '@' ∈ l := by
    intro l
    simp only [List.mem_map]
    constructor
    · rintro ⟨c, hc, hcl⟩
      rwa [(hlow c).1 hcl] at hc
    · intro h
      exact ⟨'@', h, rfl⟩
  intro s t h
  have heq : s.data.map Char.toLower = t.data.map Char.toLower := by
    simpa [demoLib, demoEqualFold] using h
  rw [← hmem s.data, ← hmem t.data, heq]

theorem entryMatches_wildcard (L : Lib) (email d b : String) (hb : '@' ∉ b.data)
    (hf : L.EqualFold email ("*." ++ b) = false) :
    entryMatches L email d ("*." ++ b) = HasSuffix d ("." ++ b) := by
  have hc : Contains ("*." ++ b) "@" = false := by
    rw [Bool.eq_false_iff]
    intro h
    have hm := (contains_at _).1 h
    have hdata : ("*." ++ b).data = '*' :: '.' :: b.data := rfl
    rw [hdata] at hm
    simp only [List.mem_cons] at hm
    rcases hm with h1 | h1 | h1
    · exact absurd h1 (by decide)
    · exact absurd h1 (by decide)
    · exact hb h1
  have hp : HasPrefix ("*." ++ b) "*." = true := by
    have hdata : ("*." ++ b).data = '*' :: '.' :: b.data := rfl
    have hpre : "*.".data = ['*', '.'] := rfl
    simp [HasPrefix, hdata, hpre, List.isPrefixOf]
  have ht : TrimPrefix ("*." ++ b) "*." = b := by
    have hdata : ("*." ++ b).data = '*' :: '.' :: b.data := rfl
    have hpre : "*.".data = ['*', '.'] := rfl
    simp [TrimPrefix, hdata, hpre, List.isPrefixOf]
  simp [entryMatches, hf, hc, hp, ht]

/-- C11 as stated fails for an entry that starts with `*.`: such an entry is only read
as a wildcard rule, which compares case-sensitively, so the address `user@*.FOO.COM`
(one `@`) is not matched by the list `["*.foo.com"]` although the entry is
case-insensitively equal to the bare domain. -/
theorem IsWhitelistedEmail_wildcard_entry :
    '@' ∉ "user".data ∧ '@' ∉ "*.FOO.COM".data ∧ "*.foo.com" ∈ ["*.foo.com"] ∧
    demoLib.EqualFold "*.FOO.COM" "*.foo.com" = true ∧
    IsWhitelistedEmail demoLib ("user" ++ "@" ++ "*.FOO.COM") ["*.foo.com"] = false := by
  decide

/-- C11 (amended). For every address `u@d` with exactly one `@` and every allow-list
that holds, at any position, an entry that `EqualFold` calls equal to the full address,
or equal to the bare domain `d` and not starting with `*.`, `IsWhitelistedEmail`
returns true. -/
theorem IsWhitelistedEmail_listed (L : Lib) (hL : FoldKeepsAt L) (u d : String)
    (allowed : List String) (a : String) (hu : '@' ∉ u.data) (hd : '@' ∉ d.data)
    (ha : a ∈ allowed)
    (hm : L.EqualFold (u ++ "@" ++ d) a = true ∨
      (L.EqualFold d a = true ∧ HasPrefix a "*." = false)) :
    IsWhitelistedEmail L (u ++ "@" ++ d) allowed = true := by
  have he : (u ++ "@" ++ d).data = u.data ++ '@' :: d.data := by
    simp only [String.data_append]
    rw [List.append_assoc]
    rfl
  rw [IsWhitelistedEmail_address L _ u d allowed he hu hd, List.any_eq_true]
  refine ⟨a, ha, ?_⟩
  rcases hm with h | ⟨h1, h2⟩
  · simp [entryMatches, h]
  · have hc : Contains a "@" = false := by
      rw [Bool.eq_false_iff]
      intro hc
      exact hd ((hL d a h1).2 ((contains_at a).1 hc))
    simp [entryMatches, hc, h2, h1]

/-- C11 (amended) on the cases of `TestIsWhitelistedEmail`: the full address in another
letter case, and the bare domain. -/
theorem IsWhitelistedEmail_listed_witness :
    '@' ∉ "Test".data ∧ '@' ∉ "Gmail.com".data ∧
    demoLib.EqualFold ("Test" ++ "@" ++ "Gmail.com") "test@gmail.com" = true ∧
    (demoLib.EqualFold "Gmail.com" "gmail.com" = true ∧ HasPrefix "gmail.com" "*." = false) ∧
    IsWhitelistedEmail demoLib ("Test" ++ "@" ++ "Gmail.com") ["x.org", "test@gmail.com"] = true ∧
    IsWhitelistedEmail demoLib ("Test" ++ "@" ++ "Gmail.com") ["x.org", "gmail.com"] = true :=
  ⟨by decide, by decide, by decide, by decide,
   IsWhitelistedEmail_listed demoLib demoLib_foldKeepsAt "Test" "Gmail.com"
     ["x.org", "test@gmail.com"] "test@gmail.com" (by decide) (by decide) (by decide)
     (Or.inl (by decide)),
   IsWhitelistedEmail_listed demoLib demoLib_foldKeepsAt "Test" "Gmail.com"
     ["x.org", "gmail.com"] "gmail.com" (by decide) (by decide) (by decide)
     (Or.inr (by decide))⟩

/-- C12. For every local part `u`, label `s` and base domain `b`, none holding an `@`:
the allow-list `["*." + b]` matches `u@s.b` and does not match `u@b`, so a wildcard
entry does not cover the bare base domain. The label may even be empty. -/
theorem IsWhitelistedEmail_wildcard (L : Lib) (hL : FoldKeepsAt L) (u s b : String)
    (hu : '@' ∉ u.data) (hs : '@' ∉ s.data) (hb : '@' ∉ b.data) :
    IsWhitelistedEmail L (u ++ "@" ++ (s ++ "." ++ b)) ["*." ++ b] = true ∧
    IsWhitelistedEmail L (u ++ "@" ++ b) ["*." ++ b] = false := by
  have hentry : '@' ∉ ("*." ++ b).data := by
    have hdata : ("*." ++ b).data = '*' :: '.' :: b.data := rfl
    rw [hdata]
    simp only [List.mem_cons, not_or]
    exact ⟨by decide, by decide, hb⟩
  have hdata : ∀ d : String, (u ++ "@" ++ d).data = u.data ++ '@' :: d.data := by
    intro d
    simp only [String.data_append]
    rw [List.append_assoc]
    rfl
  have hfold : ∀ d : String, L.EqualFold (u ++ "@" ++ d) ("*." ++ b) = false := by
    intro d
    rw [Bool.eq_false_iff]
    intro h
    apply hentry
    apply (hL _ _ h).1
    rw [hdata d]
    simp
  constructor
  · have hd : '@' ∉ (s ++ "." ++ b).data := by
      have : (s ++ "." ++ b).data = s.data ++ '.' :: b.data := by
        simp only [String.data_append]
        rw [List.append_assoc]
        rfl
      rw [this]
      simp only [List.mem_append, List.mem_cons, not_or]
      exact ⟨hs, by decide, hb⟩
    rw [IsWhitelistedEmail_address L _ u _ _ (hdata _) hu hd]
    simp only [List.any_cons, List.any_nil, Bool.or_false]
    rw [entryMatches_wildcard L _ _ b hb (hfold _)]
    simp only [HasSuffix, List.isSuffixOf_iff_suffix, String.data_append]
    rw [List.append_assoc]
    exact List.suffix_append _ _
  · rw [IsWhitelistedEmail_address L _ u b _ (hdata _) hu hb]
    simp only [List.any_cons, List.any_nil, Bool.or_false]
    rw [entryMatches_wildcard L _ _ b hb (hfold _), Bool.eq_false_iff]
    simp only [HasSuffix, List.isSuffixOf_iff_suffix, String.data_append, ne_eq]
    intro hsuf
    have hlen := hsuf.length_le
    have h1 : ".".data.length = 1 := rfl
    simp only [List.length_append, h1] at hlen
    omega

/-- C12 on the cases of `TestIsWhitelistedEmail`: `*.apple.com` matches
`user@foo.apple.com` and does not match `user@apple.com`. -/
theorem IsWhitelistedEmail_wildcard_witness :
    '@' ∉ "user".data ∧ '@' ∉ "foo".data ∧ '@' ∉ "apple.com".data ∧
    "user" ++ "@" ++ ("foo" ++ "." ++ "apple.com") = "user@foo.apple.com" ∧
    "*." ++ "apple.com" = "*.apple.com" ∧
    (IsWhitelistedEmail demoLib ("user" ++ "@" ++ ("foo" ++ "." ++ "apple.com"))
        ["*." ++ "apple.com"] = true ∧
      IsWhitelistedEmail demoLib ("user" ++ "@" ++ "apple.com") ["*." ++ "apple.com"] = false) :=
  ⟨by decide, by decide, by decide, by decide, by decide,
   IsWhitelistedEmail_wildcard demoLib demoLib_foldKeepsAt "user" "foo" "apple.com"
     (by decide) (by decide) (by decide)⟩

theorem join_nil : String.join [] = "" := rfl

theorem join_append (l₁ l₂ : List String) :
    String.join (l₁ ++ l₂) = String.join l₁ ++ String.join l₂ := by
  apply String.ext
  simp [String.join_eq]

theorem join_cons (s : String) (l : List String) : String.join (s :: l) = s ++ String.join l := by
  apply String.ext
  simp [String.join_eq]

mutual
theorem walk_hidden : ∀ (path : List (NodeType × String)) (n : Node),
    path.any isSkippedElement = true → (walk path n).filterMap visiblePiece = []
  | path, .mk ty data children, h => by
    have hp : visiblePiece (path, ty, data) = none := by
      simp only [visiblePiece]
      rw [if_neg]
      rintro ⟨-, hall⟩
      rw [List.any_eq_true] at h
      obtain ⟨t, ht, hs⟩ := h
      have := List.all_eq_true.1 hall t ht
      simp [hs] at this
    rw [walk, List.filterMap_cons, hp]
    exact walkChildren_hidden (path ++ [(ty, data)]) children (by simp [h])
theorem walkChildren_hidden : ∀ (path : List (NodeType × String)) (cs : List Node),
    path.any isSkippedElement = true → (walkChildren path cs).filterMap visiblePiece = []
  | _, [], _ => by simp [walkChildren]
  | path, c :: cs, h => by
    rw [walkChildren, List.filterMap_append, walk_hidden path c h,
      walkChildren_hidden path cs h]
    rfl
end

theorem extractText_mk (ty : NodeType) (data : String) (children : List Node) :
    extractText (.mk ty data children) =
      if ty = NodeType.TextNode then TrimSpace data ++ " "
      else if (ty = NodeType.ElementNode && (data = "style" || data = "script" || data = "img")) = true
        then ""
      else extractTextChildren children := by
  rw [extractText]

mutual
theorem walk_visible : ∀ (path : List (NodeType × String)) (n : Node),
    path.all (fun t => !isSkippedElement t) = true → textLeaves n = true →
    String.join ((walk path n).filterMap visiblePiece) = extractText n
  | path, .mk ty data children, hpath, hwf => by
    rw [textLeaves, Bool.and_eq_true] at hwf
    obtain ⟨hleaf, hcs⟩ := hwf
    rw [walk, List.filterMap_cons, extractText_mk]
    by_cases hty : ty = NodeType.TextNode
    · have hnil : children = [] := by
        subst hty
        simpa using hleaf
      subst hnil
      have hp : visiblePiece (path, ty, data) = some (TrimSpace data ++ " ") := by
        simp only [visiblePiece]
        rw [if_pos ⟨hty, hpath⟩]
      rw [hp, if_pos hty]
      simp [walkChildren, join_cons, join_nil]
    · have hp : visiblePiece (path, ty, data) = none := by
        simp only [visiblePiece]
        rw [if_neg]
        rintro ⟨h, -⟩
        exact hty h
      rw [hp, if_neg hty]
      by_cases hskip : isSkippedElement (ty, data) = true
      · have hs : (ty = NodeType.ElementNode &&
            (data = "style" || data = "script" || data = "img")) = true := by
          simpa [isSkippedElement] using hskip
        rw [if_pos hs]
        have := walkChildren_hidden (path ++ [(ty, data)]) children (by simp [hskip])
        simp only [this]
        rfl
      · have hs : ¬ (ty = NodeType.ElementNode &&
            (data = "style" || data = "script" || data = "img")) = true := by
          simpa [isSkippedElement] using hskip
        rw [if_neg hs]
        exact walkChildren_visible (path ++ [(ty, data)]) children
          (by simp [hpath, hskip]) hcs
theorem walkChildren_visible : ∀ (path : List (NodeType × String)) (cs : List Node),
    path.all (fun t => !isSkippedElement t) = true → textLeavesChildren cs = true →
    String.join ((walkChildren path cs).filterMap visiblePiece) = extractTextChildren cs
  | _, [], _, _ => by simp [walkChildren, extractTextChildren, join_nil]
  | path, c :: cs, hpath, hwf => by
    rw [textLeavesChildren, Bool.and_eq_true] at hwf
    rw [walkChildren, List.filterMap_append, join_append, walk_visible path c hpath hwf.1,
      walkChildren_visible path cs hpath hwf.2, extractTextChildren]
end

/-- C14. For every finite HTML node tree `n` (its text nodes are leaves), `extractText n`
is the concatenation, in document order, of the trimmed data followed by one space of
exactly the text nodes of the tree that have no element tagged `style`, `script` or
`img` on the path from `n` to them; a lone text node with data `"  spaced  "` gives
`"spaced "`, and an element tagged `script`, `style` or `img` gives `""` whatever its
children are. -/
theorem extractText_visible :
    (∀ n : Node, textLeaves n = true → extractText n = visibleText n) ∧
    extractText (.mk .TextNode "  spaced  " []) = "spaced " ∧
    (∀ children : List Node,
      extractText (.mk .ElementNode "script" children) = "" ∧
      extractText (.mk .ElementNode "style" children) = "" ∧
      extractText (.mk .ElementNode "img" children) = "") := by
  refine ⟨fun n h => (walk_visible [] n rfl h).symm, by decide, fun children => ?_⟩
  simp [extractText_mk]

/-- C14 on the trees of `TestExtractText`: sibling text nodes, nested elements, and a
`style` element between two text nodes. -/
theorem extractText_visible_witness :
    extractText (.mk .ElementNode "div" [.mk .TextNode "Hello" [],
      .mk .ElementNode "style" [.mk .TextNode "body" []], .mk .TextNode "World" []])
      = "Hello World " ∧
    visibleText (.mk .ElementNode "div" [.mk .TextNode "Hello" [],
      .mk .ElementNode "style" [.mk .TextNode "body" []], .mk .TextNode "World" []])
      = "Hello World " ∧
    extractText (.mk .ElementNode "div" [.mk .TextNode "Hello" [],
      .mk .ElementNode "span" [.mk .TextNode "World" []]]) =
    visibleText (.mk .ElementNode "div" [.mk .TextNode "Hello" [],
      .mk .ElementNode "span" [.mk .TextNode "World" []]]) :=
  ⟨by decide, by decide,
   extractText_visible.1 _ (by decide)⟩

/-- Outside HTML trees: in a hand-built tree that gives a text node a child,
`extractText` does not visit the child. -/
theorem extractText_text_with_child :
    extractText (.mk .TextNode "a" [.mk .TextNode "b" []]) = "a " ∧
    visibleText (.mk .TextNode "a" [.mk .TextNode "b" []]) = "a b " := by
  decide

/-- C15. For every single-part email (a media type that does not start with
`multipart/`) whose `Content-Type` header parses as a media type and does not contain
`text/html`, and whose body can be read, `CleanEmailBody` returns the empty string and
no error, whatever the body bytes are. -/
theorem CleanEmailBody_single_not_html (L : Lib) (email : Email) (mediaType : String)
    (params : List (String × String)) (body : String)
    (hct : L.ParseMediaType (email.GetHeader "Content-Type") = .ok (mediaType, params))
    (hsingle : HasPrefix mediaType "multipart/" = false)
    (hhtml : Contains (email.GetHeader "Content-Type") "text/html" = false)
    (hbody : email.GetBody.1 = .ok body) :
    CleanEmailBody L email = .ok "" := by
  simp [CleanEmailBody, hct, hsingle, hhtml, hbody]

/-- C15 on the single-part plain text email of `TestCleanEmailBody`. -/
theorem CleanEmailBody_single_not_html_witness :
    demoLib.ParseMediaType ((createEmail "text/plain; charset=utf-8"
      "Just plain text").GetHeader "Content-Type") = .ok ("text/plain", []) ∧
    HasPrefix "text/plain" "multipart/" = false ∧
    Contains ((createEmail "text/plain; charset=utf-8" "Just plain text").GetHeader
      "Content-Type") "text/html" = false ∧
    (createEmail "text/plain; charset=utf-8" "Just plain text").GetBody.1 =
      .ok "Just plain text" ∧
    CleanEmailBody demoLib (createEmail "text/plain; charset=utf-8" "Just plain text") = .ok "" :=
  ⟨rfl, by decide, by decide, rfl,
   CleanEmailBody_single_not_html demoLib (createEmail "text/plain; charset=utf-8"
     "Just plain text") "text/plain" [] "Just plain text" rfl (by decide) (by decide) rfl⟩

theorem cleanPart_of_partText (L : Lib) (builder : String) (p : Part) (t : String)
    (h : partText L p = some t) : cleanPart L builder p = .ok (builder ++ t) := by
  unfold partText at h
  unfold cleanPart
  cases hd : p.data with
  | error e => simp [hd] at h
  | ok bytes =>
    simp only [hd] at h ⊢
    by_cases hh : Contains (p.Header.Get "Content-Type") "text/html" = true
    · simp only [hh, if_true] at h ⊢
      cases hp : L.HtmlParse bytes with
      | error e => simp [hp] at h
      | ok doc =>
        simp only [hp, Option.some.injEq] at h ⊢
        rw [h]
    · simp only [hh, Bool.false_eq_true, if_false] at h ⊢
      by_cases hpl : Contains (p.Header.Get "Content-Type") "text/plain" = true
      · simp only [hpl, if_true, Option.some.injEq] at h ⊢
        rw [h]
      · simp only [hpl, Bool.false_eq_true, if_false, Option.some.injEq] at h ⊢
        rw [← h]
        simp

theorem cleanParts_of_partText (L : Lib) (parts : List Part) (texts : List String)
    (builder : String) (h : parts.map (partText L) = texts.map some) :
    cleanParts L none parts builder = .ok (builder ++ String.join texts) := by
  induction parts generalizing texts builder with
  | nil =>
    cases texts with
    | nil => simp [cleanParts, join_nil]
    | cons t ts => simp at h
  | cons p ps ih =>
    cases texts with
    | nil => simp at h
    | cons t ts =>
      simp only [List.map_cons, List.cons.injEq] at h
      rw [cleanParts, cleanPart_of_partText L builder p t h.1]
      simp only
      rw [ih ts (builder ++ t) h.2, join_cons, String.append_assoc]

/-- C16. For every multipart email whose parts `p1..pk` are all handed out and read
without error (the part reader ends with `io.EOF`) and whose HTML parts parse,
`CleanEmailBody` returns the concatenation in part order, with no separator, of
`f(p1)..f(pk)`, where `f(p)` is `extractText` of the parsed HTML when the part's
`Content-Type` contains `text/html`, the part's decoded bytes verbatim when it instead
contains `text/plain`, and `""` for any other part. -/
theorem CleanEmailBody_multipart (L : Lib) (email : Email) (mediaType : String)
    (params : List (String × String)) (parts : List Part) (texts : List String)
    (hct : L.ParseMediaType (email.GetHeader "Content-Type") = .ok (mediaType, params))
    (hmulti : HasPrefix mediaType "multipart/" = true)
    (hparts : L.MultipartParts email.msg.Body ((params.lookup "boundary").getD "") =
      (parts, none))
    (htexts : parts.map (partText L) = texts.map some) :
    CleanEmailBody L email = .ok (String.join texts) := by
  simp only [CleanEmailBody, hct, hmulti, if_true, hparts]
  rw [cleanParts_of_partText L parts texts "" htexts]
  simp

/-- C16 on the multipart message of `TestCleanEmailBody`: an HTML part
`<p>Hello <b>World</b></p>` followed by a plain part `Plain text content` gives
`Hello World Plain text content`. -/
theorem CleanEmailBody_multipart_witness :
    testParts.map (partText mimeLib) = ["Hello World ", "Plain text content"].map some ∧
    String.join ["Hello World ", "Plain text content"] = "Hello World Plain text content" ∧
    CleanEmailBody mimeLib (createEmail "multipart/alternative; boundary=xyz" "") =
      .ok (String.join ["Hello World ", "Plain text content"]) :=
  ⟨by decide, by decide,
   CleanEmailBody_multipart mimeLib (createEmail "multipart/alternative; boundary=xyz" "")
     "multipart/alternative" [] testParts ["Hello World ", "Plain text content"] rfl
     (by decide) rfl (by decide)⟩

theorem AddressList_ok_iff (L : Lib) (h : Header) (key : String) (s : List Address) :
    AddressList L h key = .ok s ↔ h.Get key ≠ "" ∧ L.ParseAddressList (h.Get key) = .ok s := by
  unfold AddressList
  by_cases hk : h.Get key = "" <;> simp [hk]

/-- C17 fails on the code when a sender header parses, without an error, to an address
list that holds no address (an empty group such as `undisclosed-recipients:;`): the
index expression `sender[0]` panics, so `GetSender` returns neither an address nor an
error, also when the other header is valid. Apart from that `GetSender` does what the
claim says: the first address of `Sender` when its list has one, else the first address
of `From` when `Sender` gives an error and the list of `From` has one, and an error
exactly when both headers give an error; a header gives a list exactly when it is
present and its value parses. On the email with `Sender: undisclosed-recipients:;` and
`From: sender2@example.com`, `GetSender` panics, and so does `ClassifySpam` on a
message whose only sender header is such a group. -/
theorem GetSender_empty_list_panics (L : Lib) (m : Email) :
    (∀ first rest, AddressList L m.msg.Header "Sender" = .ok (first :: rest) →
      m.GetSender L = some (.ok first)) ∧
    (∀ e first rest, AddressList L m.msg.Header "Sender" = .error e →
      AddressList L m.msg.Header "From" = .ok (first :: rest) →
      m.GetSender L = some (.ok first)) ∧
    ((∃ e, m.GetSender L = some (.error e)) ↔
      (∃ e₁, AddressList L m.msg.Header "Sender" = .error e₁) ∧
      (∃ e₂, AddressList L m.msg.Header "From" = .error e₂)) ∧
    (m.GetSender L = none ↔
      AddressList L m.msg.Header "Sender" = .ok [] ∨
      ((∃ e, AddressList L m.msg.Header "Sender" = .error e) ∧
        AddressList L m.msg.Header "From" = .ok [])) ∧
    (∀ key s, AddressList L m.msg.Header key = .ok s ↔
      m.msg.Header.Get key ≠ "" ∧ L.ParseAddressList (m.msg.Header.Get key) = .ok s) ∧
    (AddressList demoLib emailEmptyGroup.msg.Header "Sender" = .ok [] ∧
      AddressList demoLib emailEmptyGroup.msg.Header "From" =
        .ok [{ Name := "", Address := "sender2@example.com" }] ∧
      emailEmptyGroup.GetSender demoLib = none ∧
      ClassifySpam demoLib firstSched (some [demoMessage 5 "undisclosed-recipients:;" "x"]) [1]
        [] half 0 fakeLLM true = .panicked) := by
  refine ⟨?_, ?_, ?_, ?_, fun key s => AddressList_ok_iff L m.msg.Header key s,
    rfl, rfl, rfl, by set_option maxRecDepth 100000 in decide⟩
  · intro first rest hs
    simp [Email.GetSender, hs]
  · intro e first rest he hf
    simp [Email.GetSender, he, hf]
  · unfold Email.GetSender
    cases hs : AddressList L m.msg.Header "Sender" with
    | ok s => cases s <;> simp
    | error e₁ =>
      cases hf : AddressList L m.msg.Header "From" with
      | ok f => cases f <;> simp
      | error e₂ => simp
  · unfold Email.GetSender
    cases hs : AddressList L m.msg.Header "Sender" with
    | ok s => cases s <;> simp
    | error e₁ =>
      cases hf : AddressList L m.msg.Header "From" with
      | ok f => cases f <;> simp
      | error e₂ => simp

/-- The two emails of `TestGetSender`, and an email with neither header. -/
theorem GetSender_tests :
    emailWithSender.GetSender demoLib =
      some (.ok { Name := "", Address := "sender1@example.com" }) ∧
    emailFromOnly.GetSender demoLib =
      some (.ok { Name := "", Address := "sender3@example.com" }) ∧
    bodyTestEmail.GetSender demoLib = some (.error "mail: header not in message") :=
  ⟨rfl, rfl, rfl⟩

/-- C18 as stated fails on the email of `TestGetBody`: the email is built from raw
bytes, its first `GetBody` returns the body `This is the body.`, and the second call
succeeds with no bytes, because the first call has read the body reader to its end. -/
theorem GetBody_second_call_empty :
    NewEmail demoLib bodyTestMessage = .ok bodyTestEmail ∧
    bodyTestEmail.GetBody.1 = .ok "This is the body." ∧
    bodyTestEmail.GetBody.2.GetBody.1 = .ok "" ∧
    bodyTestEmail.GetBody.2.GetBody.1 ≠ bodyTestEmail.GetBody.1 :=
  ⟨rfl, rfl, rfl, fun h => absurd (Except.ok.inj h) (by decide)⟩

/-- C18 (amended). `GetBody` reads the body reader of the email to its end: for every
email whose body reader does not fail, the first call succeeds and returns the message
body that follows the header block, every later call succeeds and returns no bytes, so
two successive calls return the same bytes exactly when the body is empty; the header
and the raw bytes of the email are left as they were. -/
theorem GetBody_consumes (m : Email) (h : m.msg.Body.err = none) :
    m.GetBody.1 = .ok m.msg.Body.data ∧
    m.GetBody.2.GetBody.1 = .ok "" ∧
    m.GetBody.2.GetBody.2 = m.GetBody.2 ∧
    (m.GetBody.2.GetBody.1 = m.GetBody.1 ↔ m.msg.Body.data = "") ∧
    m.GetBody.2.msg.Header = m.msg.Header ∧ m.GetBody.2.GetRawEmail = m.GetRawEmail := by
  rcases m with ⟨⟨hdr, ⟨data, err⟩⟩, raw⟩
  dsimp only at h
  subst h
  simp [Email.GetBody, ReadAll, Email.GetRawEmail, eq_comm]

/-- C18 (amended) on the email of `TestGetBody`. -/
theorem GetBody_consumes_witness :
    bodyTestEmail.msg.Body.err = none ∧
    bodyTestEmail.GetBody.1 = .ok "This is the body." ∧
    (bodyTestEmail.GetBody.1 = .ok bodyTestEmail.msg.Body.data ∧
      bodyTestEmail.GetBody.2.GetBody.1 = .ok "" ∧
      bodyTestEmail.GetBody.2.GetBody.2 = bodyTestEmail.GetBody.2 ∧
      (bodyTestEmail.GetBody.2.GetBody.1 = bodyTestEmail.GetBody.1 ↔
        bodyTestEmail.msg.Body.data = "") ∧
      bodyTestEmail.GetBody.2.msg.Header = bodyTestEmail.msg.Header ∧
      bodyTestEmail.GetBody.2.GetRawEmail = bodyTestEmail.GetRawEmail) :=
  ⟨rfl, rfl, GetBody_consumes bodyTestEmail rfl⟩

theorem digitChar_toNat (k : Nat) (h : k < 10) :
    (Nat.digitChar k).toNat - 48 = k ∧ (Nat.digitChar k).isDigit = true := by
  interval_cases k <;> decide

theorem demoDigits_toDigitsCore (fuel n : Nat) (ds : List Char) (h : n < fuel) :
    (Nat.toDigitsCore 10 fuel n ds).foldl (fun n c => 10 * n + (c.toNat - 48)) 0 =
      ds.foldl (fun n c => 10 * n + (c.toNat - 48)) n := by
  induction fuel generalizing n ds with
  | zero => omega
  | succ fuel ih =>
    have hd := (digitChar_toNat (n % 10) (Nat.mod_lt n (by decide))).1
    rw [Nat.toDigitsCore]
    split
    · rename_i h0
      rw [List.foldl_cons, hd]
      have : n % 10 = n := by omega
      simp [this]
    · rename_i h0
      rw [ih (n / 10) _ (by omega), List.foldl_cons, hd]
      have : 10 * (n / 10) + n % 10 = n := Nat.div_add_mod n 10
      rw [this]

theorem demoDigits_repr (n : Nat) : demoDigits (Nat.repr n).data = n := by
  unfold demoDigits Nat.repr Nat.toDigits
  simp only [List.asString]
  rw [demoDigits_toDigitsCore (n + 1) n [] (by omega)]
  rfl

theorem isDigit_toDigitsCore (fuel n : Nat) (ds : List Char)
    (h : ∀ c ∈ ds, c.isDigit = true) :
    ∀ c ∈ Nat.toDigitsCore 10 fuel n ds, c.isDigit = true := by
  induction fuel generalizing n ds with
  | zero => simpa [Nat.toDigitsCore] using h
  | succ fuel ih =>
    have hd := (digitChar_toNat (n % 10) (Nat.mod_lt n (by decide))).2
    have hcons : ∀ c ∈ Nat.digitChar (n % 10) :: ds, c.isDigit = true := by
      intro c hc
      rcases List.mem_cons.1 hc with rfl | hc
      · exact hd
      · exact h c hc
    rw [Nat.toDigitsCore]
    split
    · exact hcons
    · exact ih (n / 10) _ hcons

theorem toDigitsCore_ne_nil (fuel n : Nat) (ds : List Char) (h : ds ≠ [] ∨ 0 < fuel) :
    Nat.toDigitsCore 10 fuel n ds ≠ [] := by
  induction fuel generalizing n ds with
  | zero =>
    rcases h with h | h
    · simpa [Nat.toDigitsCore] using h
    · omega
  | succ fuel ih =>
    rw [Nat.toDigitsCore]
    split
    · simp
    · exact ih (n / 10) _ (Or.inl (by simp))

theorem repr_digits (n : Nat) :
    (Nat.repr n).data ≠ [] ∧ ∀ c ∈ (Nat.repr n).data, c.isDigit = true := by
  unfold Nat.repr Nat.toDigits
  simp only [List.asString]
  exact ⟨toDigitsCore_ne_nil (n + 1) n [] (Or.inr (by omega)),
    isDigit_toDigitsCore (n + 1) n [] (by simp)⟩

theorem takeWhile_append_stop {α : Type} (p : α → Bool) (l r : List α)
    (hl : ∀ c ∈ l, p c = true) (hr : ∀ c, r.head? = some c → p c = false) :
    (l ++ r).takeWhile p = l ∧ (l ++ r).dropWhile p = r := by
  induction l with
  | nil =>
    cases r with
    | nil => simp
    | cons c cs => simp [List.takeWhile, List.dropWhile, hr c rfl]
  | cons a as ih =>
    have ha := hl a (List.mem_cons_self a as)
    have ih := ih (fun c hc => hl c (List.mem_cons_of_mem a hc))
    simp [List.takeWhile, List.dropWhile, ha, ih.1, ih.2]

theorem demoSys_readsBackWritten : ReadsBackWritten demoSys := by
  intro d d' name data h
  simp only [demoSys] at h ⊢
  split at h
  · cases h
  · cases h
    simp [List.lookup]

theorem demoSys_decodesMarshalled : DecodesMarshalled demoSys := by
  intro c cfg hc
  have hdata : (MarshalIndent c).data =
      "\x7b\n  \"last_processed_id\": ".data ++ ((Nat.repr c.LastProcessedID).data ++ "\n\x7d".data) := by
    simp [MarshalIndent, String.data_append, List.append_assoc]
  obtain ⟨hne, hdig⟩ := repr_digits c.LastProcessedID
  have hrest : (MarshalIndent c).data.drop "\x7b\n  \"last_processed_id\": ".length =
      (Nat.repr c.LastProcessedID).data ++ "\n\x7d".data := by
    rw [hdata]
    exact List.drop_left _ _
  have hsplit := takeWhile_append_stop Char.isDigit (Nat.repr c.LastProcessedID).data
    "\n\x7d".data hdig (by
      intro ch hch
      have : ch = '\n' := by
        have h2 : "\n\x7d".data.head? = some '\n' := rfl
        rw [h2] at hch
        exact (Option.some.inj hch).symm
      subst this
      decide)
  have hpre : "\x7b\n  \"last_processed_id\": ".data.isPrefixOf (MarshalIndent c).data = true := by
    rw [hdata, List.isPrefixOf_iff_prefix]
    exact List.prefix_append _ _
  show demoUnmarshal (MarshalIndent c) cfg = _
  unfold demoUnmarshal
  simp only [hrest, hsplit.1, hsplit.2, hpre, demoDigits_repr, hc, hne, ne_eq, not_false_eq_true,
    and_self, if_true]

/-- C19. Watermark round trip: for every `uint32` id and file path, after
`UpdateLastProcessed` succeeds on `LastProcessed{LastProcessedID: id, Filename: path}`,
`NewLastProcessed(path)` returns no error, `LastProcessedID = id` and `Filename = path`;
the file holds the JSON object with the single field `last_processed_id`, the same text
whatever the file name is. The file system reads back what was written and
`json.Unmarshal` decodes what `json.MarshalIndent` wrote. -/
theorem LastProcessed_roundtrip (S : Sys) (hfs : ReadsBackWritten S)
    (hjson : DecodesMarshalled S) (d d' : Disk) (id : Nat) (path : String) (hid : id < 2 ^ 32)
    (hupd : LastProcessed.UpdateLastProcessed S d { LastProcessedID := id, Filename := path } =
      .ok d') :
    NewLastProcessed S d' path = ({ LastProcessedID := id, Filename := path }, none) ∧
    S.ReadFile d' path = .ok ("\x7b\n  \"last_processed_id\": " ++ Nat.repr id ++ "\n\x7d") ∧
    ∀ other : String, MarshalIndent { LastProcessedID := id, Filename := other } =
      MarshalIndent { LastProcessedID := id, Filename := path } := by
  have hread := hfs d d' path _ hupd
  refine ⟨?_, hread, fun other => rfl⟩
  unfold NewLastProcessed
  simp only [hread]
  exact hjson { LastProcessedID := id, Filename := path } { LastProcessedID := 0, Filename := path }
    hid

/-- C19 on the update of `TestLastProcessed_NewAndUpdate`: id 20 is written to an
empty disk and read back. -/
theorem LastProcessed_roundtrip_witness :
    20 < 2 ^ 32 ∧
    LastProcessed.UpdateLastProcessed demoSys []
      { LastProcessedID := 20, Filename := "last.json" } =
      .ok [("last.json", "\x7b\n  \"last_processed_id\": 20\n\x7d")] ∧
    (NewLastProcessed demoSys [("last.json", "\x7b\n  \"last_processed_id\": 20\n\x7d")]
        "last.json" = ({ LastProcessedID := 20, Filename := "last.json" }, none) ∧
      demoSys.ReadFile [("last.json", "\x7b\n  \"last_processed_id\": 20\n\x7d")] "last.json" =
        .ok ("\x7b\n  \"last_processed_id\": " ++ Nat.repr 20 ++ "\n\x7d") ∧
      ∀ other : String, MarshalIndent { LastProcessedID := 20, Filename := other } =
        MarshalIndent { LastProcessedID := 20, Filename := "last.json" }) :=
  ⟨by decide, rfl,
   LastProcessed_roundtrip demoSys demoSys_readsBackWritten demoSys_decodesMarshalled []
     [("last.json", "\x7b\n  \"last_processed_id\": 20\n\x7d")] 20 "last.json" (by decide) rfl⟩

theorem spamOf_cons (t : F64) (r : llmResult) (rs : List llmResult) :
    spamOf t (r :: rs) =
      if r.err = none ∧ F64.gt r.score t = true then insert r.id (spamOf t rs)
      else spamOf t rs := by
  have h : (r :: rs).Perm (rs ++ [r]) := by
    simpa using (List.perm_append_comm : ([r] ++ rs).Perm (rs ++ [r]))
  rw [spamOf_perm t h, spamOf_snoc]

theorem notSpamOf_cons (t : F64) (r : llmResult) (rs : List llmResult) :
    notSpamOf t (r :: rs) =
      if r.err = none ∧ F64.gt r.score t = false then insert r.id (notSpamOf t rs)
      else notSpamOf t rs := by
  have h : (r :: rs).Perm (rs ++ [r]) := by
    simpa using (List.perm_append_comm : ([r] ++ rs).Perm (rs ++ [r]))
  rw [notSpamOf_perm t h, notSpamOf_snoc]

theorem mergeLoop_sets (a : Args) (s : St) (rs : List llmResult) :
    (mergeLoop a s rs).spamSeqset = s.spamSeqset ∪ spamOf a.threshold rs ∧
    (mergeLoop a s rs).notSpamSeqset = s.notSpamSeqset ∪ notSpamOf a.threshold rs := by
  induction rs generalizing s with
  | nil => simp [mergeLoop, spamOf, notSpamOf]
  | cons r rs ih =>
    have ih := ih (mergeResult a s r)
    unfold mergeLoop at ih ⊢
    rw [List.foldl_cons, ih.1, ih.2, spamOf_cons, notSpamOf_cons]
    unfold mergeResult
    cases he : r.err with
    | some e => simp
    | none =>
      by_cases hg : F64.gt r.score a.threshold = true
      · simp [hg, AddNum]
      · simp [hg, AddNum]

theorem dispatched_concurrency (L : Lib) (a : Args) (c : Bool) (count : Nat)
    (ms : List Message) :
    dispatched L (Args.of a.ids a.whitelisted_domains a.threshold a.lastProcessedID
      a.llmClassifier c) count ms = dispatched L a count ms := by
  induction ms generalizing count with
  | nil => rfl
  | cons msg rest ih =>
    have hl : loopBody L (Args.of a.ids a.whitelisted_domains a.threshold a.lastProcessedID
        a.llmClassifier c) count msg = loopBody L a count msg := rfl
    simp only [dispatched, hl, ih]

theorem mergeLoop_init (L : Lib) (a : Args) (ms : List Message) :
    (mergeLoop a (St.init []) (dispatched L a 0 ms)).spamSeqset =
      spamOf a.threshold (dispatched L a 0 ms) ∧
    (mergeLoop a (St.init []) (dispatched L a 0 ms)).notSpamSeqset =
      notSpamOf a.threshold (dispatched L a 0 ms) := by
  have hm := mergeLoop_sets a (St.init []) (dispatched L a 0 ms)
  constructor
  · rw [hm.1]
    simp [St.init]
  · rw [hm.2]
    simp [St.init]

/-- C20 fails on the code in its last part. The merge step itself does not depend on
completion order: for every finite list of classification results and every two orders
`rs₁`, `rs₂` in which the channel delivers them, the merge loop produces the same spam
set and the same not-spam set; and a run with the concurrency flag on and a run with
the flag off that both return, under any two schedulers, return the same two sets,
those the merge loop builds from the results of the dispatched tasks. But the partition
is not the same with the flag on or off: on a batch covered by the sequence numbers, on
which `GetSender` panics for no message and more than `chanCap` tasks are dispatched,
the run with the flag on returns the partition and the run with the flag off never
returns; with at most `chanCap` dispatched tasks both runs return, with the same
outcome. -/
theorem mergeLoop_order (a : Args) (s : St) (rs₁ rs₂ : List llmResult) (h : rs₁.Perm rs₂) :
    ((mergeLoop a s rs₁).spamSeqset = (mergeLoop a s rs₂).spamSeqset ∧
      (mergeLoop a s rs₁).notSpamSeqset = (mergeLoop a s rs₂).notSpamSeqset) ∧
    (∀ (L : Lib) (sched₁ sched₂ : Nat → Nat) (ms : List Message) (sp₁ ns₁ sp₂ ns₂ : SeqSet)
        (u₁ u₂ : Nat) (e₁ e₂ : Option String),
      ClassifySpam L sched₁ (some ms) a.ids a.whitelisted_domains a.threshold a.lastProcessedID
        a.llmClassifier true = .returned sp₁ ns₁ u₁ e₁ →
      ClassifySpam L sched₂ (some ms) a.ids a.whitelisted_domains a.threshold a.lastProcessedID
        a.llmClassifier false = .returned sp₂ ns₂ u₂ e₂ →
      sp₁ = sp₂ ∧ ns₁ = ns₂ ∧
      sp₁ = (mergeLoop a (St.init []) (dispatched L a 0 ms)).spamSeqset ∧
      ns₁ = (mergeLoop a (St.init []) (dispatched L a 0 ms)).notSpamSeqset) ∧
    (∀ (L : Lib) (sched₁ sched₂ : Nat → Nat) (ms : List Message),
      ms.length ≤ a.ids.length → (∀ msg ∈ ms, senderOk L msg = true) →
      chanCap < (dispatched L a 0 ms).length →
      ClassifySpam L sched₁ (some ms) a.ids a.whitelisted_domains a.threshold a.lastProcessedID
          a.llmClassifier true =
        .returned (mergeLoop a (St.init []) (dispatched L a 0 ms)).spamSeqset
          (mergeLoop a (St.init []) (dispatched L a 0 ms)).notSpamSeqset (lastUidOf 0 ms) none ∧
      ClassifySpam L sched₂ (some ms) a.ids a.whitelisted_domains a.threshold a.lastProcessedID
          a.llmClassifier false = .blocked) ∧
    (∀ (L : Lib) (sched₁ sched₂ : Nat → Nat) (ms : List Message),
      ms.length ≤ a.ids.length → (∀ msg ∈ ms, senderOk L msg = true) →
      (dispatched L a 0 ms).length ≤ chanCap →
      ClassifySpam L sched₁ (some ms) a.ids a.whitelisted_domains a.threshold a.lastProcessedID
          a.llmClassifier true =
        ClassifySpam L sched₂ (some ms) a.ids a.whitelisted_domains a.threshold
          a.lastProcessedID a.llmClassifier false ∧
      ∃ sp ns u, ClassifySpam L sched₁ (some ms) a.ids a.whitelisted_domains a.threshold
        a.lastProcessedID a.llmClassifier true = .returned sp ns u none) := by
  have hnp : ∀ (L : Lib) (c : Bool) (ms : List Message), ms.length ≤ a.ids.length →
      (∀ msg ∈ ms, senderOk L msg = true) →
      panics L (Args.of a.ids a.whitelisted_domains a.threshold a.lastProcessedID
        a.llmClassifier c) 0 ms = false := by
    intro L c ms hlen hsender
    exact panics_false L _ 0 ms (by simpa [Args.of] using hlen) hsender
  refine ⟨⟨?_, ?_⟩, ?_, ?_, ?_⟩
  · rw [(mergeLoop_sets a s rs₁).1, (mergeLoop_sets a s rs₂).1, spamOf_perm a.threshold h]
  · rw [(mergeLoop_sets a s rs₁).2, (mergeLoop_sets a s rs₂).2, notSpamOf_perm a.threshold h]
  · intro L sched₁ sched₂ ms sp₁ ns₁ sp₂ ns₂ u₁ u₂ e₁ e₂ h₁ h₂
    obtain ⟨hs₁, hn₁, -⟩ := ClassifySpam_returned L sched₁ ms _ _ _ _ _ _ _ _ _ _ h₁
    obtain ⟨hs₂, hn₂, -⟩ := ClassifySpam_returned L sched₂ ms _ _ _ _ _ _ _ _ _ _ h₂
    rw [dispatched_concurrency] at hs₁ hn₁ hs₂ hn₂
    have hm := mergeLoop_init L a ms
    exact ⟨hs₁.trans hs₂.symm, hn₁.trans hn₂.symm, hs₁.trans hm.1.symm, hn₁.trans hm.2.symm⟩
  · intro L sched₁ sched₂ ms hlen hsender hbig
    have h₁ := ClassifySpam_returns L sched₁ ms a.ids a.whitelisted_domains a.threshold
      a.lastProcessedID a.llmClassifier true (hnp L true ms hlen hsender) (Or.inl rfl)
    have h₂ := ClassifySpam_blocked L sched₂ ms a.ids a.whitelisted_domains a.threshold
      a.lastProcessedID a.llmClassifier (by
        rw [dispatched_concurrency]
        exact hbig)
    rw [dispatched_concurrency] at h₁
    have hm := mergeLoop_init L a ms
    rw [hm.1, hm.2]
    exact ⟨h₁, h₂⟩
  · intro L sched₁ sched₂ ms hlen hsender hcap
    have h₁ := ClassifySpam_returns L sched₁ ms a.ids a.whitelisted_domains a.threshold
      a.lastProcessedID a.llmClassifier true (hnp L true ms hlen hsender) (Or.inl rfl)
    have h₂ := ClassifySpam_returns L sched₂ ms a.ids a.whitelisted_domains a.threshold
      a.lastProcessedID a.llmClassifier false (hnp L false ms hlen hsender) (Or.inr (by
        rw [dispatched_concurrency]
        exact hcap))
    rw [dispatched_concurrency] at h₁ h₂
    exact ⟨h₁.trans h₂.symm, _, _, _, h₁⟩

/-- C20 on two results received in both orders, and at a failing input: eleven messages
that all get past the skip policies, scored 10 by a scorer that is a function of the
prompt. With the flag on the call returns the spam set `1..11`; with the flag off it
never returns. -/
theorem mergeLoop_order_witness :
    [scoredResult 10 (.fin 1 0), scoredResult 20 (.fin 0 0)].Perm
      [scoredResult 20 (.fin 0 0), scoredResult 10 (.fin 1 0)] ∧
    (mergeLoop testArgs (St.init [])
      [scoredResult 10 (.fin 1 0), scoredResult 20 (.fin 0 0)]).spamSeqset = {10} ∧
    (mergeLoop testArgs (St.init [])
      [scoredResult 10 (.fin 1 0), scoredResult 20 (.fin 0 0)]).notSpamSeqset = {20} ∧
    ((mergeLoop testArgs (St.init [])
        [scoredResult 10 (.fin 1 0), scoredResult 20 (.fin 0 0)]).spamSeqset =
      (mergeLoop testArgs (St.init [])
        [scoredResult 20 (.fin 0 0), scoredResult 10 (.fin 1 0)]).spamSeqset ∧
     (mergeLoop testArgs (St.init [])
        [scoredResult 10 (.fin 1 0), scoredResult 20 (.fin 0 0)]).notSpamSeqset =
      (mergeLoop testArgs (St.init [])
        [scoredResult 20 (.fin 0 0), scoredResult 10 (.fin 1 0)]).notSpamSeqset) ∧
    (mergeLoop elevenArgs (St.init []) (dispatched demoLib elevenArgs 0 elevenMessages)).spamSeqset =
      {1, 2, 3, 4, 5, 6, 7, 8, 9, 10, 11} ∧
    (ClassifySpam demoLib firstSched (some elevenMessages) elevenIds [] half 0 fakeLLM true =
        .returned
          (mergeLoop elevenArgs (St.init []) (dispatched demoLib elevenArgs 0 elevenMessages)).spamSeqset
          (mergeLoop elevenArgs (St.init []) (dispatched demoLib elevenArgs 0
            elevenMessages)).notSpamSeqset
          (lastUidOf 0 elevenMessages) none ∧
      ClassifySpam demoLib lastSched (some elevenMessages) elevenIds [] half 0 fakeLLM false =
        .blocked) :=
  ⟨List.Perm.swap _ _ _, by decide, by decide,
   (mergeLoop_order testArgs (St.init []) [scoredResult 10 (.fin 1 0), scoredResult 20 (.fin 0 0)]
     [scoredResult 20 (.fin 0 0), scoredResult 10 (.fin 1 0)] (List.Perm.swap _ _ _)).1,
   by set_option maxRecDepth 100000 in decide,
   (mergeLoop_order elevenArgs (St.init []) [scoredResult 10 (.fin 1 0), scoredResult 20 (.fin 0 0)]
     [scoredResult 20 (.fin 0 0), scoredResult 10 (.fin 1 0)] (List.Perm.swap _ _ _)).2.2.1
     demoLib firstSched lastSched elevenMessages (by decide) (by decide)
     (by set_option maxRecDepth 100000 in decide)⟩

theorem address_data (u d : String) : (u ++ "@" ++ d).data = u.data ++ '@' :: d.data := by
  simp only [String.data_append]
  rw [List.append_assoc]
  rfl

theorem IsWhitelistedEmail_wildcard_eq (L : Lib) (hL : FoldKeepsAt L) (u d b : String)
    (hu : '@' ∉ u.data) (hd : '@' ∉ d.data) (hb : '@' ∉ b.data) :
    IsWhitelistedEmail L (u ++ "@" ++ d) ["*." ++ b] = HasSuffix d ("." ++ b) := by
  have hentry : '@' ∉ ("*." ++ b).data := by
    have hdata : ("*." ++ b).data = '*' :: '.' :: b.data := rfl
    rw [hdata]
    simp only [List.mem_cons, not_or]
    exact ⟨by decide, by decide, hb⟩
  have hfold : L.EqualFold (u ++ "@" ++ d) ("*." ++ b) = false := by
    rw [Bool.eq_false_iff]
    intro h
    apply hentry
    apply (hL _ _ h).1
    rw [address_data]
    simp
  rw [IsWhitelistedEmail_address L _ u d _ (address_data u d) hu hd]
  simp only [List.any_cons, List.any_nil, Bool.or_false]
  exact entryMatches_wildcard L _ _ b hb hfold

theorem HasSuffix_dot_iff (d b : String) :
    HasSuffix d ("." ++ b) = true ↔ ∃ p : List Char, d.data = p ++ '.' :: b.data := by
  have hdata : ("." ++ b).data = '.' :: b.data := rfl
  simp only [HasSuffix, List.isSuffixOf_iff_suffix, hdata]
  constructor
  · rintro ⟨p, hp⟩
    exact ⟨p, hp.symm⟩
  · rintro ⟨p, hp⟩
    exact ⟨p, hp.symm⟩

/-- C21. The wildcard rule is case-sensitive while the full-address and bare-domain
rules are case-insensitive: for an address `u@d` with one `@`, a wildcard entry
`"*." + b` matches exactly when `d` ends, character for character, with `"." + b`,
whereas an entry that does not start with `*.` matches exactly when `EqualFold` calls it
equal to the full address or to the domain. So `user@foo.apple.com` is matched by
`["*.apple.com"]` and `user@FOO.APPLE.COM`, the same address in another letter case, is
not. -/
theorem IsWhitelistedEmail_wildcard_case (L : Lib) (hL : FoldKeepsAt L) :
    (∀ u d b : String, '@' ∉ u.data → '@' ∉ d.data → '@' ∉ b.data →
      (IsWhitelistedEmail L (u ++ "@" ++ d) ["*." ++ b] = true ↔
        ∃ p : List Char, d.data = p ++ '.' :: b.data)) ∧
    (∀ u d a : String, '@' ∉ u.data → '@' ∉ d.data → HasPrefix a "*." = false →
      (IsWhitelistedEmail L (u ++ "@" ++ d) [a] = true ↔
        L.EqualFold (u ++ "@" ++ d) a = true ∨ L.EqualFold d a = true)) ∧
    ("user@FOO.APPLE.COM".data.map Char.toLower = "user@foo.apple.com".data.map Char.toLower ∧
      IsWhitelistedEmail L "user@foo.apple.com" ["*.apple.com"] = true ∧
      IsWhitelistedEmail L "user@FOO.APPLE.COM" ["*.apple.com"] = false) := by
  refine ⟨?_, ?_, by decide, ?_, ?_⟩
  · intro u d b hu hd hb
    rw [IsWhitelistedEmail_wildcard_eq L hL u d b hu hd hb, HasSuffix_dot_iff]
  · intro u d a hu hd ha
    rw [IsWhitelistedEmail_address L _ u d _ (address_data u d) hu hd]
    simp only [List.any_cons, List.any_nil, Bool.or_false, entryMatches, ha, Bool.or_eq_true,
      Bool.and_eq_true, Bool.not_eq_true', Bool.false_eq_true, if_false]
    constructor
    · rintro (h | ⟨-, h⟩)
      · exact Or.inl h
      · exact Or.inr h
    · rintro (h | h)
      · exact Or.inl h
      · refine Or.inr ⟨?_, h⟩
        rw [Bool.eq_false_iff]
        intro hc
        exact hd ((hL d a h).2 ((contains_at a).1 hc))
  · have h := IsWhitelistedEmail_wildcard_eq L hL "user" "foo.apple.com" "apple.com"
      (by decide) (by decide) (by decide)
    have e₁ : "user" ++ "@" ++ "foo.apple.com" = "user@foo.apple.com" := by decide
    have e₂ : "*." ++ "apple.com" = "*.apple.com" := by decide
    rw [e₁, e₂] at h
    rw [h]
    decide
  · have h := IsWhitelistedEmail_wildcard_eq L hL "user" "FOO.APPLE.COM" "apple.com"
      (by decide) (by decide) (by decide)
    have e₁ : "user" ++ "@" ++ "FOO.APPLE.COM" = "user@FOO.APPLE.COM" := by decide
    have e₂ : "*." ++ "apple.com" = "*.apple.com" := by decide
    rw [e₁, e₂] at h
    rw [h]
    decide

/-- C21 with the ASCII case folding for `EqualFold`: the two addresses of the claim
are equal under the folding, the allow-list `["*.apple.com"]` tells them apart, and the
allow-lists `["user@foo.apple.com"]` and `["foo.apple.com"]` do not. -/
theorem IsWhitelistedEmail_wildcard_case_witness :
    FoldKeepsAt demoLib ∧
    demoLib.EqualFold "user@FOO.APPLE.COM" "user@foo.apple.com" = true ∧
    IsWhitelistedEmail demoLib "user@FOO.APPLE.COM" ["user@foo.apple.com"] = true ∧
    IsWhitelistedEmail demoLib "user@FOO.APPLE.COM" ["foo.apple.com"] = true ∧
    ("user@FOO.APPLE.COM".data.map Char.toLower = "user@foo.apple.com".data.map Char.toLower ∧
      IsWhitelistedEmail demoLib "user@foo.apple.com" ["*.apple.com"] = true ∧
      IsWhitelistedEmail demoLib "user@FOO.APPLE.COM" ["*.apple.com"] = false) :=
  ⟨demoLib_foldKeepsAt, by decide, by decide, by decide,
   (IsWhitelistedEmail_wildcard_case demoLib demoLib_foldKeepsAt).2.2⟩

end Antispam
